import Mathlib

/-!
Shallow embedding of `Physika_Src/Physika_Dynamics/MPM/invertible_mpm_solid.cpp`
(class `InvertibleMPMSolid<Scalar,Dim>`), at the 2D instantiation
(`Dim = 2`, `corner_num = 4`) with exact rational scalars standing for the
C++ `Scalar` type.  Machine epsilon (`std::numeric_limits<Scalar>::epsilon()`)
is modelled as the constant `machineEps = 2^-52` (the `double` instantiation).

The per-node `std::map<unsigned int, T>` containers of the host solver are
modelled as key-sorted association lists (`ObjMap`), with `find`/`insert`/
`operator[]` counterparts.  Grid state is a function from a flattened node
index (`flatIndex` is injective, so a single `Nat` node id is used) to such a
map.  Per-particle loops of the source that write only the particle being
visited and read no other particle's state are rendered as `mapIdx`; loops
with shared accumulators stay `foldl`s in source order.
-/

namespace Physika

/-- 2D vector of rationals, modelling `Vector<Scalar,2>`. -/
structure Vec2 where
  x : ℚ
  y : ℚ
deriving DecidableEq, Repr

namespace Vec2

def zero : Vec2 := ⟨0, 0⟩

instance : Inhabited Vec2 := ⟨zero⟩

instance : Add Vec2 := ⟨fun u v => ⟨u.x + v.x, u.y + v.y⟩⟩

instance : Sub Vec2 := ⟨fun u v => ⟨u.x - v.x, u.y - v.y⟩⟩

instance : SMul ℚ Vec2 := ⟨fun a v => ⟨a * v.x, a * v.y⟩⟩

/-- Componentwise division by a scalar (`operator/=`). -/
def divQ (v : Vec2) (a : ℚ) : Vec2 := ⟨v.x / a, v.y / a⟩

/-- Sum of a list of vectors. -/
def vsum (l : List Vec2) : Vec2 := l.foldl (· + ·) zero

end Vec2

/-- 2×2 matrix of rationals, modelling `SquareMatrix<Scalar,2>`
(row-major entries `e00 e01 / e10 e11`). -/
structure Mat2 where
  e00 : ℚ
  e01 : ℚ
  e10 : ℚ
  e11 : ℚ
deriving DecidableEq, Repr

namespace Mat2

def zero : Mat2 := ⟨0, 0, 0, 0⟩

instance : Inhabited Mat2 := ⟨zero⟩

/-- `SquareMatrix::identityMatrix()`. -/
def identityMatrix : Mat2 := ⟨1, 0, 0, 1⟩

instance : Add Mat2 := ⟨fun a b => ⟨a.e00 + b.e00, a.e01 + b.e01, a.e10 + b.e10, a.e11 + b.e11⟩⟩

instance : Mul Mat2 :=
  ⟨fun a b => ⟨a.e00 * b.e00 + a.e01 * b.e10, a.e00 * b.e01 + a.e01 * b.e11,
               a.e10 * b.e00 + a.e11 * b.e10, a.e10 * b.e01 + a.e11 * b.e11⟩⟩

instance : SMul ℚ Mat2 := ⟨fun s a => ⟨s * a.e00, s * a.e01, s * a.e10, s * a.e11⟩⟩

/-- `SquareMatrix::determinant()`. -/
def det (a : Mat2) : ℚ := a.e00 * a.e11 - a.e01 * a.e10

/-- Matrix-vector product (`cauchy_stress * weight_gradient`). -/
def mulVec (a : Mat2) (v : Vec2) : Vec2 :=
  ⟨a.e00 * v.x + a.e01 * v.y, a.e10 * v.x + a.e11 * v.y⟩

/-- Outer product of two vectors (`Vector::outerProduct`). -/
def outerProduct (u v : Vec2) : Mat2 := ⟨u.x * v.x, u.x * v.y, u.y * v.x, u.y * v.y⟩

end Mat2


/-- `std::map<unsigned int, α>` keyed by object index: key-sorted association list. -/
abbrev ObjMap (α : Type) := List (Nat × α)

namespace ObjMap

/-- `map::find` — first entry with the given key. -/
def mfind {α : Type} (m : ObjMap α) (k : Nat) : Option α :=
  match m.find? (fun p => p.1 == k) with
  | some p => some p.2
  | none => none

/-- `map::insert` while keeping keys sorted; callers only insert absent keys. -/
def minsert {α : Type} (k : Nat) (v : α) : ObjMap α → ObjMap α
  | [] => [(k, v)]
  | p :: rest => if k < p.1 then (k, v) :: p :: rest else p :: minsert k v rest

/-- Replace the value of the first entry with the given key, in place. -/
def madjust {α : Type} (m : ObjMap α) (k : Nat) (f : α → α) : ObjMap α :=
  match m with
  | [] => []
  | p :: rest => if p.1 == k then (p.1, f p.2) :: rest else p :: madjust rest k f

/-- `operator[] +=`: add to the existing value, inserting the increment when
the key is absent (value-initialized `T()` plus increment). -/
def madd {α : Type} [Add α] (m : ObjMap α) (k : Nat) (v : α) : ObjMap α :=
  match mfind m k with
  | some _ => madjust m k (· + v)
  | none => minsert k v m

/-- `operator[] =`: overwrite, inserting when absent. -/
def mset {α : Type} (m : ObjMap α) (k : Nat) (v : α) : ObjMap α :=
  match mfind m k with
  | some _ => madjust m k (fun _ => v)
  | none => minsert k v m

/-- Read through `operator[]`, with the map after the possible default-insert. -/
def mgetInsert {α : Type} (m : ObjMap α) (k : Nat) (d : α) : α × ObjMap α :=
  match mfind m k with
  | some v => (v, m)
  | none => (d, minsert k d m)

/-- Lookup with default (used for read-only accessors such as `gridMass`). -/
def mGetD {α : Type} (m : ObjMap α) (k : Nat) (d : α) : α :=
  (mfind m k).getD d

end ObjMap

open ObjMap

/-- `std::numeric_limits<double>::epsilon()` = 2^-52. -/
def machineEps : ℚ := 1 / 4503599627370496

/-- `MPMInternal::NodeIndexWeightGradientPair<Scalar,2>` with the node index
already flattened to one `Nat`. -/
structure NodeIndexWeightGradientPair where
  nodeIdx : Nat
  weightValue : ℚ
  gradientValue : Vec2
deriving DecidableEq, Repr

/-- `SolidParticle<Scalar,2>`: the particle fields this file's routines read
or write (mass, velocity, volume, deformation gradient, Cauchy stress). -/
structure SolidParticle where
  mass : ℚ
  velocity : Vec2
  volume : ℚ
  deformationGradient : Mat2
  cauchyStress : Mat2
deriving DecidableEq, Repr

instance : Inhabited SolidParticle :=
  ⟨⟨0, Vec2.zero, 0, Mat2.identityMatrix, Mat2.zero⟩⟩

/-- The per-object particle-domain mesh (`QuadMesh<Scalar>` in 2D): a vertex
position array plus the flat connectivity array `domains` handed to the mesh
constructor (4 entries per element; `eleVertIndex(p,c) = domains[p*4+c]`). -/
structure VolMesh where
  verts : List Vec2
  eleNum : Nat
  domains : List Nat
deriving DecidableEq, Repr

namespace VolMesh

def empty : VolMesh := ⟨[], 0, []⟩

instance : Inhabited VolMesh := ⟨empty⟩

/-- `VolumetricMesh::vertNum()`. -/
def vertNum (m : VolMesh) : Nat := m.verts.length

/-- `VolumetricMesh::eleVertIndex(ele, local)` — connectivity lookup. -/
def eleVertIndex (m : VolMesh) (p c : Nat) : Nat := m.domains.getD (p * 4 + c) 0

/-- `VolumetricMesh::eleVertNum(ele)` — 4 for a quad mesh. -/
def eleVertNum (_m : VolMesh) (_p : Nat) : Nat := 4

/-- `VolumetricMesh::vertPos(g)`. -/
def vertPos (m : VolMesh) (g : Nat) : Vec2 := m.verts.getD g Vec2.zero

/-- `VolumetricMesh::setVertPos(g, pos)` (out-of-range writes drop). -/
def setVertPos (m : VolMesh) (g : Nat) (pos : Vec2) : VolMesh :=
  { m with verts := m.verts.set g pos }

/-- `VolumetricMesh::setEleVertPos(ele, local, pos)`: writes the global vertex
the (element, local corner) pair maps to. -/
def setEleVertPos (m : VolMesh) (p c : Nat) (pos : Vec2) : VolMesh :=
  m.setVertPos (m.eleVertIndex p c) pos

end VolMesh

/-- Read `l[i][j]` with default. -/
def get2 {α : Type} (l : List (List α)) (i j : Nat) (d : α) : α :=
  (l.getD i []).getD j d

/-- Read `l[i][j][k]` with default. -/
def get3 {α : Type} (l : List (List (List α))) (i j k : Nat) (d : α) : α :=
  ((l.getD i []).getD j []).getD k d

/-- Write `l[i][j]` (out-of-range writes drop, as `List.set` does). -/
def set2 {α : Type} (l : List (List α)) (i j : Nat) (v : α) : List (List α) :=
  l.set i ((l.getD i []).set j v)

/-- Write `l[i][j][k]`. -/
def set3 {α : Type} (l : List (List (List α))) (i j k : Nat) (v : α) :
    List (List (List α)) :=
  l.set i (set2 (l.getD i []) j k v)

/-- `vector::resize(n, default)`: keep the prefix, pad with the default. -/
def resizeList {α : Type} (l : List α) (n : Nat) (d : α) : List α :=
  l.take n ++ List.replicate (n - l.length) d

/-- Set the first `n` entries of a list to `v`, leaving any tail beyond `n`
unchanged (the source's `for(idx = 0; idx < n; ++idx) a[idx] = v` loop). -/
def resetRange {α : Type} (l : List α) (n : Nat) (v : α) : List α :=
  (List.range n).foldl (fun acc i => acc.set i v) l

/-- The mutable state of `InvertibleMPMSolid<Scalar,2>` together with the
host-solver (`MPMSolid`/`CPDIMPMSolid`) fields its methods touch.  Grid
containers are functions from the flattened node index.  `particleGridPairNum`
is the length of the corresponding pair list (the source keeps the count in a
separate array with the same meaning).  `enrichCriteria` is the pluggable
enrichment predicate of §4.2 of the spec; the shipped stub
`isEnrichCriteriaSatisfiedSource` below returns `true`. -/
structure Solver where
  particles : List (List SolidParticle)
  particleInitialVolume : List (List ℚ)
  isDirichletParticle : List (List Bool)
  particleGridWeightAndGradient : List (List (List NodeIndexWeightGradientPair))
  cornerGridWeightAndGradient : List (List (List (List NodeIndexWeightGradientPair)))
  gridNodes : List Nat
  isDirichletGridNode : Nat → List Nat
  dirichletGridVelocity : Nat → Nat → Vec2
  gridMass : Nat → ObjMap ℚ
  gridVelocity : Nat → ObjMap Vec2
  gridVelocityBefore : Nat → ObjMap Vec2
  activeGridNode : List (Nat × Nat)
  hasContactMethod : Bool
  gravity : ℚ
  particleDomainCorners : List (List (List Vec2))
  particleDomainMesh : List VolMesh
  isEnrichedDomainCorner : List (List Bool)
  domainCornerMass : List (List ℚ)
  domainCornerVelocity : List (List Vec2)
  domainCornerVelocityBefore : List (List Vec2)
  particleCornerWeight : List (List (List ℚ))
  particleCornerGradient : List (List (List Vec2))
  enrichCriteria : Nat → Nat → Bool

namespace Solver

/-- `MPMSolid::objectNum()`. -/
def objectNum (s : Solver) : Nat := s.particles.length

/-- `MPMSolid::particleNumOfObject(obj)`. -/
def particleNumOfObject (s : Solver) (obj : Nat) : Nat :=
  (s.particles.getD obj []).length

/-- `particles_[obj][p]`. -/
def particleAt (s : Solver) (obj p : Nat) : SolidParticle :=
  (s.particles.getD obj []).getD p default

/-- `particle_domain_mesh_[obj]`. -/
def meshOf (s : Solver) (obj : Nat) : VolMesh :=
  s.particleDomainMesh.getD obj VolMesh.empty

/-- `particle_grid_weight_and_gradient_[obj][p]` (its length is
`particle_grid_pair_num_[obj][p]`). -/
def gridPairsOf (s : Solver) (obj p : Nat) : List NodeIndexWeightGradientPair :=
  (s.particleGridWeightAndGradient.getD obj []).getD p []

/-- `MPMSolid::gridMass(obj, node)` — 0 when the object has no entry. -/
def gridMassAt (s : Solver) (obj n : Nat) : ℚ := mGetD (s.gridMass n) obj 0

/-- `MPMSolid::gridVelocity(obj, node)` — zero vector when absent. -/
def gridVelocityAt (s : Solver) (obj n : Nat) : Vec2 :=
  mGetD (s.gridVelocity n) obj Vec2.zero

/-- `is_dirichlet_grid_node_(node).count(obj) > 0`. -/
def isDirichletAt (s : Solver) (n obj : Nat) : Bool :=
  (s.isDirichletGridNode n).contains obj

/-- Number of enriched corners of particle `(obj, p)` (the
`enriched_corner_num` computation repeated at the top of each routine). -/
def enrichedCornerNum (s : Solver) (obj p : Nat) : Nat :=
  ((List.range 4).filter (fun c =>
    get2 s.isEnrichedDomainCorner obj ((s.meshOf obj).eleVertIndex p c) false)).length

/-- Point-update of a node-indexed grid container. -/
def updateFn {α : Type} (f : Nat → α) (k : Nat) (v : α) : Nat → α :=
  fun n => if n = k then v else f n

/-- Modelled from the spec: `MPMSolid::resetGridData` is host-solver code not
in this repository.  Per §3/§4.3 the grid per-object mass and velocity
containers are reset at the start of every step before rasterization, the
active-node table is recomputed each step, and Dirichlet nodes carry the
host-prescribed boundary velocity (§6, glossary "Dirichlet node"): each
Dirichlet `(node, object)` entry starts the step holding that prescribed
velocity, all other entries are absent. -/
def resetGridData (s : Solver) : Solver :=
  { s with
    gridMass := fun _ => [],
    gridVelocity := fun n =>
      (s.isDirichletGridNode n).map (fun o => (o, s.dirichletGridVelocity n o)),
    gridVelocityBefore := fun n =>
      (s.isDirichletGridNode n).map (fun o => (o, s.dirichletGridVelocity n o)),
    activeGridNode := [] }

/-- One object's iteration of `resetParticleDomainData` (source lines
558-567): zero the first `vertNum` entries of the four per-corner arrays. -/
def resetDomainDataStep (t : Solver) (obj : Nat) : Solver :=
  let vn := (t.meshOf obj).vertNum
  { t with
    isEnrichedDomainCorner :=
      t.isEnrichedDomainCorner.set obj
        (resetRange (t.isEnrichedDomainCorner.getD obj []) vn false),
    domainCornerMass :=
      t.domainCornerMass.set obj
        (resetRange (t.domainCornerMass.getD obj []) vn 0),
    domainCornerVelocity :=
      t.domainCornerVelocity.set obj
        (resetRange (t.domainCornerVelocity.getD obj []) vn Vec2.zero),
    domainCornerVelocityBefore :=
      t.domainCornerVelocityBefore.set obj
        (resetRange (t.domainCornerVelocityBefore.getD obj []) vn Vec2.zero) }

/-- `InvertibleMPMSolid::resetParticleDomainData` (source lines 554-569):
for every object, zero the first `vertNum` entries of the enrichment-flag,
corner-mass, corner-velocity and corner-velocity-before arrays. -/
def resetParticleDomainData (s : Solver) : Solver :=
  (List.range s.objectNum).foldl resetDomainDataStep s

/-- `InvertibleMPMSolid::isEnrichCriteriaSatisfied` (source lines 627-632):
the shipped placeholder criterion, which returns `true` for every particle
(the spec's §4.2 "placeholder in this design: always true"). -/
def isEnrichCriteriaSatisfiedSource (_objIdx _particleIdx : Nat) : Bool :=
  true

/-- One corner-marking step of `updateParticleDomainEnrichState` (source
lines 644-648): set the enrichment flag of the global corner the
`(particle, local corner)` pair maps to. -/
def enrichCornerStep (obj p : Nat) (w : Solver) (c : Nat) : Solver :=
  let flags := set2 w.isEnrichedDomainCorner obj ((w.meshOf obj).eleVertIndex p c) true
  { w with isEnrichedDomainCorner := flags }

/-- The corner-marking loop of `updateParticleDomainEnrichState` for one
particle whose criterion is satisfied (source lines 642-648). -/
def enrichParticleCorners (s : Solver) (obj p : Nat) : Solver :=
  (List.range ((s.meshOf obj).eleVertNum p)).foldl (enrichCornerStep obj p) s

/-- One particle's iteration of `updateParticleDomainEnrichState` (source
lines 638-649): mark the particle's corners when the criterion holds. -/
def enrichParticleStep (obj : Nat) (u : Solver) (p : Nat) : Solver :=
  if u.enrichCriteria obj p then u.enrichParticleCorners obj p else u

/-- One object's iteration of `updateParticleDomainEnrichState`. -/
def enrichObjectStep (t : Solver) (obj : Nat) : Solver :=
  (List.range (t.particleNumOfObject obj)).foldl (enrichParticleStep obj) t

/-- `InvertibleMPMSolid::updateParticleDomainEnrichState` (source lines
634-651): for every particle satisfying the (pluggable, §4.2) enrichment
criterion, mark all global corners of its domain element as enriched. -/
def updateParticleDomainEnrichState (s : Solver) : Solver :=
  (List.range s.objectNum).foldl enrichObjectStep s

/-- Rasterize one particle to the grid (source lines 121-139): for every
(node, weight, gradient) pair, accumulate `weight*mass` into the node's mass
map entry for this object and — unless the node is Dirichlet for this
object — `weight*(mass*velocity)` into its velocity (momentum) map entry.
The source's find/insert dance plus `operator[] +=` is exactly `madd`. -/
def scatterGridPairStep (obj p : Nat) (t : Solver)
    (pair : NodeIndexWeightGradientPair) : Solver :=
  let part := t.particleAt obj p
  let gm := updateFn t.gridMass pair.nodeIdx
    (madd (t.gridMass pair.nodeIdx) obj (pair.weightValue * part.mass))
  let t := { t with gridMass := gm }
  if t.isDirichletAt pair.nodeIdx obj then t
  else
    let gv := updateFn t.gridVelocity pair.nodeIdx
      (madd (t.gridVelocity pair.nodeIdx) obj
        (pair.weightValue • (part.mass • part.velocity)))
    { t with gridVelocity := gv }

def scatterParticleToGrid (s : Solver) (obj p : Nat) : Solver :=
  (s.gridPairsOf obj p).foldl (scatterGridPairStep obj p) s

/-- Rasterize one particle to its enriched domain corners (source lines
142-154): for every local corner whose global corner is enriched, accumulate
`cornerWeight*mass` into the corner mass and `cornerWeight*(mass*velocity)`
into the corner velocity (momentum) accumulator. -/
def scatterCornerStep (obj p : Nat) (t : Solver) (c : Nat) : Solver :=
  let g := (t.meshOf obj).eleVertIndex p c
  if get2 t.isEnrichedDomainCorner obj g false then
    let w := get3 t.particleCornerWeight obj p c 0
    let part := t.particleAt obj p
    let dcm := set2 t.domainCornerMass obj g
      (get2 t.domainCornerMass obj g 0 + w * part.mass)
    let t := { t with domainCornerMass := dcm }
    let dcv := set2 t.domainCornerVelocity obj g
      (get2 t.domainCornerVelocity obj g Vec2.zero + w • (part.mass • part.velocity))
    { t with domainCornerVelocity := dcv }
  else t

def scatterParticleToCorner (s : Solver) (obj p : Nat) : Solver :=
  (List.range 4).foldl (scatterCornerStep obj p) s

/-- Scatter of one particle (source lines 104-155): the grid branch runs when
`enriched_corner_num < corner_num`, the corner branch when
`enriched_corner_num > 0`. -/
def scatterParticle (s : Solver) (obj p : Nat) : Solver :=
  let ecn := s.enrichedCornerNum obj p
  let t := if ecn < 4 then s.scatterParticleToGrid obj p else s
  if 0 < ecn then t.scatterParticleToCorner obj p else t

/-- One corner's iteration of the momentum normalization (source lines
157-162): where the corner mass exceeds machine epsilon, divide the
accumulated momentum by it and snapshot the result as the corner's
before-update velocity; otherwise leave both untouched. -/
def normalizeCornerStep (obj : Nat) (t : Solver) (c : Nat) : Solver :=
  let m := get2 t.domainCornerMass obj c 0
  if machineEps < m then
    let v := (get2 t.domainCornerVelocity obj c Vec2.zero).divQ m
    let t2 := { t with domainCornerVelocity := set2 t.domainCornerVelocity obj c v }
    { t2 with domainCornerVelocityBefore := set2 t2.domainCornerVelocityBefore obj c v }
  else t

/-- Corner momentum normalization of one object (source lines 156-162). -/
def normalizeCornerVelocity (s : Solver) (obj : Nat) : Solver :=
  (List.range ((s.domainCornerMass.getD obj []).length)).foldl (normalizeCornerStep obj) s

/-- The per-object scatter loop of `rasterize` (source lines 102-163):
scatter every particle of every object, then normalize that object's corner
momenta. -/
def rasterizeScatter (s : Solver) : Solver :=
  (List.range s.objectNum).foldl (fun t obj =>
    ((List.range (t.particleNumOfObject obj)).foldl
      (fun u p => u.scatterParticle obj p) t).normalizeCornerVelocity obj) s

/-- Objects with grid mass above machine epsilon at node `n` (ascending), the
content the source inserts into `active_grid_node_` for that node. -/
def activeObjsAt (s : Solver) (n : Nat) : List Nat :=
  (List.range s.objectNum).filter (fun obj => machineEps < s.gridMassAt obj n)

/-- Active-node detection of `rasterize` (source lines 164-179): record every
`(node, object)` pair whose grid mass exceeds machine epsilon.  The multimap
groups pairs by node; since merging and normalization treat nodes
independently, the grouped list below carries the same information. -/
def computeActiveGridNodes (s : Solver) : Solver :=
  let act := (s.gridNodes.map (fun n => (activeObjsAt s n).map (fun o => (n, o)))).flatten
  { s with activeGridNode := act }

/-- Grid velocity normalization step for one active `(node, object)` pair
(source lines 181-188): divide momentum by mass unless the node is Dirichlet
for the object, then snapshot into the before-update buffer (the snapshot
reads the velocity through `operator[]`, default-inserting a zero entry when
absent). -/
def normalizeGridStep (t : Solver) (pr : Nat × Nat) : Solver :=
  let n := pr.1
  let obj := pr.2
  let t :=
    if t.isDirichletAt n obj then t
    else
      let pair := mgetInsert (t.gridVelocity n) obj Vec2.zero
      let gv := updateFn t.gridVelocity n
        (mset pair.2 obj (pair.1.divQ (mGetD (t.gridMass n) obj 0)))
      { t with gridVelocity := gv }
  let pair := mgetInsert (t.gridVelocity n) obj Vec2.zero
  let t := { t with gridVelocity := updateFn t.gridVelocity n pair.2 }
  let gvb := updateFn t.gridVelocityBefore n (mset (t.gridVelocityBefore n) obj pair.1)
  { t with gridVelocityBefore := gvb }

/-- Grid velocity normalization over all active pairs (source lines 181-188). -/
def normalizeGridVelocity (s : Solver) : Solver :=
  s.activeGridNode.foldl normalizeGridStep s

/-- Active objects recorded at node `n` (the `lower_bound..upper_bound`
range of `active_grid_node_`, in ascending object order). -/
def pairsAt (s : Solver) (n : Nat) : List Nat :=
  (s.activeGridNode.filter (fun pr => pr.1 == n)).map (fun pr => pr.2)

/-- The distinct node keys of `active_grid_node_`
(the source's `active_node_idx_1d_nd_map`). -/
def activeNodeList (s : Solver) : List Nat :=
  (s.activeGridNode.map Prod.fst).dedup

/-- No-contact merge at one grid node (source lines 195-229): skip
single-valued nodes; otherwise sum mass and momentum over the objects active
at the node, divide to get the merged velocity, write the summed mass to
every mass-map entry, override the merged velocity with the value of the
first Dirichlet entry of the velocity map if one exists, and write the
resulting velocity to every velocity-map entry and its before-update buffer. -/
def mergeNode (s : Solver) (n : Nat) : Solver :=
  let objs := s.pairsAt n
  if objs.length == 1 then s
  else
    let massAtNode := (objs.map (fun o => mGetD (s.gridMass n) o 0)).sum
    let momentum := Vec2.vsum
      (objs.map (fun o => mGetD (s.gridMass n) o 0 • mGetD (s.gridVelocity n) o Vec2.zero))
    let v0 := momentum.divQ massAtNode
    let v1 :=
      match (s.gridVelocity n).find? (fun pr => s.isDirichletAt n pr.1) with
      | some pr => pr.2
      | none => v0
    let newMass := (s.gridMass n).map (fun pr => (pr.1, massAtNode))
    let newVel := (s.gridVelocity n).map (fun pr => (pr.1, v1))
    let newBefore := (s.gridVelocity n).foldl (fun bm pr => mset bm pr.1 v1)
      (s.gridVelocityBefore n)
    { s with
      gridMass := updateFn s.gridMass n newMass,
      gridVelocity := updateFn s.gridVelocity n newVel,
      gridVelocityBefore := updateFn s.gridVelocityBefore n newBefore }

/-- No-contact merge over all multi-valued active nodes (source lines
190-231). -/
def mergeNoContactPhase (s : Solver) : Solver :=
  s.activeNodeList.foldl mergeNode s

/-- The state of `rasterize` just before the no-contact merge (reset, enrich
classification, scatter, active-node detection, grid normalization — source
lines 96-188). -/
def rasterizePreMerge (s : Solver) : Solver :=
  (((s.resetGridData).resetParticleDomainData).updateParticleDomainEnrichState
    |>.rasterizeScatter |>.computeActiveGridNodes |>.normalizeGridVelocity)

/-- `InvertibleMPMSolid::rasterize` (source lines 85-232).  The plugin
callbacks at the top observe but do not alter solver state and are omitted. -/
def rasterize (s : Solver) : Solver :=
  let t := s.rasterizePreMerge
  if t.hasContactMethod then t else t.mergeNoContactPhase

/-- Velocity-gradient reconstruction for one particle (source lines 264-291):
grid contribution `gridVelocity ⊗ weightGradient` over the particle's grid
pairs when `enriched_corner_num < corner_num`, plus corner contribution
`cornerVelocity ⊗ cornerWeightGradient` over enriched corners when
`enriched_corner_num > 0`. -/
def particleVelGrad (s : Solver) (obj p : Nat) : Mat2 :=
  let ecn := s.enrichedCornerNum obj p
  let gridPart :=
    (s.gridPairsOf obj p).foldl (fun acc pr =>
      acc + Mat2.outerProduct (s.gridVelocityAt obj pr.nodeIdx) pr.gradientValue) Mat2.zero
  let cornerPart :=
    (List.range 4).foldl (fun acc c =>
      let g := (s.meshOf obj).eleVertIndex p c
      if get2 s.isEnrichedDomainCorner obj g false then
        acc + Mat2.outerProduct (get2 s.domainCornerVelocity obj g Vec2.zero)
          (get3 s.particleCornerGradient obj p c Vec2.zero)
      else acc) Mat2.zero
  (if ecn < 4 then gridPart else Mat2.zero) + (if 0 < ecn then cornerPart else Mat2.zero)

/-- Deformation-gradient integration (source lines 292-298): with
`A = dt·velGrad`, take `F + A·F` when `det(I + A) > 0`, otherwise the remedy
`F + (A + 0.25·dt²·velGrad²)·F`. -/
def updateDeformationGradient (dt : ℚ) (velGrad f : Mat2) : Mat2 :=
  if 0 < (Mat2.identityMatrix + dt • velGrad).det then
    f + (dt • velGrad) * f
  else
    f + (dt • velGrad + ((1 : ℚ)/4) • ((dt * dt) • (velGrad * velGrad))) * f

/-- `InvertibleMPMSolid::updateParticleConstitutiveModelState` (source lines
247-305): per particle, reconstruct the velocity gradient, integrate the
deformation gradient, and set the volume to `det(F)·initialVolume`.  Each
iteration of the source's double loop writes only the visited particle and
reads no other particle's state, so the loop is rendered pointwise. -/
def constitutiveBody (s : Solver) (dt : ℚ) (obj p : Nat) (part : SolidParticle) :
    SolidParticle :=
  let f := updateDeformationGradient dt (s.particleVelGrad obj p) part.deformationGradient
  { part with
    deformationGradient := f,
    volume := f.det * get2 s.particleInitialVolume obj p 0 }

def updateParticleConstitutiveModelState (s : Solver) (dt : ℚ) : Solver :=
  let ps := s.particles.mapIdx (fun obj inner => inner.mapIdx (s.constitutiveBody dt obj))
  { s with particles := ps }

/-- `InvertibleMPMSolid::updateParticleVelocity` (source lines 307-372):
FLIP-style delta update.  Non-Dirichlet particles accumulate
`weight·(gridVelocity − gridVelocityBefore)` over grid pairs whose node mass
exceeds machine epsilon (when `enriched_corner_num < corner_num`), and
`weight·(cornerVelocity − cornerVelocityBefore)` over enriched corners (when
`enriched_corner_num > 0`).  The corner weight is read, as in the source
(line 364), at `particle_corner_weight_[obj_idx][obj_idx][corner_idx]` — the
object index appears twice.  The source's `PHYSIKA_ERROR` on a missing grid
velocity entry cannot fire when every visited node has a massive entry; the
embedding reads absent entries as zero.  Loop rendered pointwise (each
iteration writes only the visited particle's velocity). -/
def velocityBody (s : Solver) (obj p : Nat) (part : SolidParticle) : SolidParticle :=
  if get2 s.isDirichletParticle obj p false then part
  else
    let ecn := s.enrichedCornerNum obj p
    let v1 :=
      if ecn < 4 then
        (s.gridPairsOf obj p).foldl (fun v pr =>
          if s.gridMassAt obj pr.nodeIdx ≤ machineEps then v
          else
            v + pr.weightValue •
              (mGetD (s.gridVelocity pr.nodeIdx) obj Vec2.zero -
                mGetD (s.gridVelocityBefore pr.nodeIdx) obj Vec2.zero)) part.velocity
      else part.velocity
    let v2 :=
      if 0 < ecn then
        (List.range 4).foldl (fun v c =>
          let g := (s.meshOf obj).eleVertIndex p c
          if get2 s.isEnrichedDomainCorner obj g false then
            let w := get3 s.particleCornerWeight obj obj c 0
            v + w • (get2 s.domainCornerVelocity obj g Vec2.zero -
              get2 s.domainCornerVelocityBefore obj g Vec2.zero)
          else v) v1
      else v1
    { part with velocity := v2 }

def updateParticleVelocity (s : Solver) : Solver :=
  let ps := s.particles.mapIdx (fun obj inner => inner.mapIdx (s.velocityBody obj))
  { s with particles := ps }

/-- New position of one domain corner (source lines 395-410): enriched
corners advance by `cornerVelocity·dt`; ordinary corners accumulate
`weight·gridVelocity·dt` over the corner's grid pairs. -/
def newCornerPosition (s : Solver) (dt : ℚ) (obj p c : Nat) : Vec2 :=
  let g := (s.meshOf obj).eleVertIndex p c
  let pos := get3 s.particleDomainCorners obj p c Vec2.zero
  if get2 s.isEnrichedDomainCorner obj g false then
    pos + dt • get2 s.domainCornerVelocity obj g Vec2.zero
  else
    (((s.cornerGridWeightAndGradient.getD obj []).getD p []).getD c []).foldl
      (fun q pr => q + (pr.weightValue * dt) • s.gridVelocityAt obj pr.nodeIdx) pos

/-- The mesh-vertex writes of `updateParticlePosition` for one object: each
`(particle, corner)` in loop order stores the freshly computed corner
position into the mesh vertex it maps to (last writer wins on shared
vertices). -/
def advectMeshOfObject (s : Solver) (dt : ℚ) (obj : Nat) : VolMesh :=
  (List.range (s.particleNumOfObject obj)).foldl (fun m p =>
    (List.range 4).foldl (fun m2 c =>
      m2.setVertPos (m2.eleVertIndex p c) (s.newCornerPosition dt obj p c)) m)
    (s.meshOf obj)

/-- `InvertibleMPMSolid::updateParticlePosition` (source lines 374-421):
advance every domain corner, writing the new position both to the
per-particle domain array and to the corresponding mesh vertex.  Each
`(obj, p, c)` slot of the per-particle array is written once from data read
only in the pre-state, so that array is rendered pointwise (with the source's
loop bounds as guards); the mesh writes stay a fold in loop order.  The final
external CPDI2 call advances particle centroids only (§4.6/§6) and touches no
state modelled here. -/
def updateParticlePosition (s : Solver) (dt : ℚ) : Solver :=
  let corners := s.particleDomainCorners.mapIdx (fun obj pcs =>
    if obj < s.objectNum then
      pcs.mapIdx (fun p cs =>
        if p < s.particleNumOfObject obj then
          cs.mapIdx (fun c old =>
            if c < 4 then s.newCornerPosition dt obj p c else old)
        else cs)
    else pcs)
  let meshes := (List.range s.objectNum).foldl
    (fun l obj => l.set obj (s.advectMeshOfObject dt obj)) s.particleDomainMesh
  { s with particleDomainCorners := corners, particleDomainMesh := meshes }

/-- `InvertibleMPMSolid::setCurrentParticleDomain` (source lines 423-435).
The parent-class call is modelled from the spec (§4.6/§6: the per-particle
domain array stores the given corner positions); the rest writes each given
corner into the mesh vertex the `(particle, corner)` pair maps to. -/
def setCurrentParticleDomain (s : Solver) (obj p : Nat) (corner : List Vec2) : Solver :=
  let stored := (List.range corner.length).foldl
    (fun l c => l.set c (corner.getD c Vec2.zero))
    ((s.particleDomainCorners.getD obj []).getD p [])
  let pdc := s.particleDomainCorners.set obj
    ((s.particleDomainCorners.getD obj []).set p stored)
  let mesh := (List.range corner.length).foldl
    (fun m c => m.setEleVertPos p c (corner.getD c Vec2.zero)) (s.meshOf obj)
  { s with particleDomainCorners := pdc,
           particleDomainMesh := s.particleDomainMesh.set obj mesh }

/-- Internal-force application of one grid pair of one particle
(source lines 458-478). -/
def solveGridPairStep (dt : ℚ) (obj p : Nat) (t : Solver)
    (pr : NodeIndexWeightGradientPair) : Solver :=
  if t.isDirichletAt pr.nodeIdx obj then t
  else
    let part := t.particleAt obj p
    if mGetD (t.gridMass pr.nodeIdx) obj 0 ≤ machineEps then t
    else
      let delta := ((dt * (-1) * part.volume) / mGetD (t.gridMass pr.nodeIdx) obj 0) •
        part.cauchyStress.mulVec pr.gradientValue
      if t.hasContactMethod then
        let gv := updateFn t.gridVelocity pr.nodeIdx
          (madd (t.gridVelocity pr.nodeIdx) obj delta)
        { t with gridVelocity := gv }
      else
        if ¬(t.isDirichletGridNode pr.nodeIdx).isEmpty then t
        else
          let newMap := (t.gridVelocity pr.nodeIdx).map (fun e =>
            if machineEps < t.gridMassAt e.1 pr.nodeIdx then (e.1, e.2 + delta) else e)
          { t with gridVelocity := updateFn t.gridVelocity pr.nodeIdx newMap }

/-- Internal-force application to the enriched corners of one particle
(source lines 480-495). -/
def solveCornerStep (dt : ℚ) (obj p : Nat) (t : Solver) (c : Nat) : Solver :=
  let g := (t.meshOf obj).eleVertIndex p c
  if get2 t.isEnrichedDomainCorner obj g false then
    if get2 t.domainCornerMass obj g 0 ≤ machineEps then t
    else
      let part := t.particleAt obj p
      let delta := ((dt * (-1) * part.volume) / get2 t.domainCornerMass obj g 0) •
        part.cauchyStress.mulVec (get3 t.particleCornerGradient obj p c Vec2.zero)
      let dcv := set2 t.domainCornerVelocity obj g
        (get2 t.domainCornerVelocity obj g Vec2.zero + delta)
      { t with domainCornerVelocity := dcv }
  else t

/-- `InvertibleMPMSolid::applyGravityOnEnrichedDomainCorner` (source lines
653-660): subtract `dt·gravity` from the vertical component of every
enriched corner's velocity. -/
def applyGravityOnEnrichedDomainCorner (s : Solver) (dt : ℚ) : Solver :=
  (List.range s.objectNum).foldl (fun t obj =>
    (List.range ((t.domainCornerVelocity.getD obj []).length)).foldl (fun u c =>
      if get2 u.isEnrichedDomainCorner obj c false then
        let v := get2 u.domainCornerVelocity obj c Vec2.zero
        let dcv := set2 u.domainCornerVelocity obj c ⟨v.x, v.y + dt * (-1) * u.gravity⟩
        { u with domainCornerVelocity := dcv }
      else u) t) s

/-- `InvertibleMPMSolid::solveOnGridForwardEuler` (source lines 437-500):
apply internal elastic forces to grid-node velocities (grid branch, when
`enriched_corner_num < corner_num`) and to enriched-corner velocities
(corner branch, when `enriched_corner_num > 0`), then gravity on enriched
corners. -/
def solveOnGridForwardEuler (s : Solver) (dt : ℚ) : Solver :=
  let t := (List.range s.objectNum).foldl (fun t obj =>
    (List.range (t.particleNumOfObject obj)).foldl (fun u p =>
      let ecn := u.enrichedCornerNum obj p
      let u1 :=
        if ecn < 4 then
          (u.gridPairsOf obj p).foldl (solveGridPairStep dt obj p) u
        else u
      if 0 < ecn then
        (List.range 4).foldl (solveCornerStep dt obj p) u1
      else u1) t) s
  t.applyGravityOnEnrichedDomainCorner dt

/-- `InvertibleMPMSolid::appendAllParticleRelatedDataOfLastObject` (source
lines 508-521): push one corner-weight/gradient record block for the last
object, one zero-filled fixed-size (4) entry per particle of that object.
The parent-class call maintains host-owned arrays not modelled here. -/
def appendAllParticleRelatedDataOfLastObject (s : Solver) : Solver :=
  let lastObj := s.objectNum - 1
  let pn := s.particleNumOfObject lastObj
  { s with
    particleCornerWeight :=
      s.particleCornerWeight ++ [List.replicate pn (List.replicate 4 (0 : ℚ))],
    particleCornerGradient :=
      s.particleCornerGradient ++ [List.replicate pn (List.replicate 4 Vec2.zero)] }

/-- `InvertibleMPMSolid::appendLastParticleRelatedDataOfObject` (source lines
523-532): push one zero-filled corner-weight/gradient record for the newly
appended particle of the given object. -/
def appendLastParticleRelatedDataOfObject (s : Solver) (obj : Nat) : Solver :=
  { s with
    particleCornerWeight :=
      s.particleCornerWeight.set obj
        ((s.particleCornerWeight.getD obj []) ++ [List.replicate 4 (0 : ℚ)]),
    particleCornerGradient :=
      s.particleCornerGradient.set obj
        ((s.particleCornerGradient.getD obj []) ++ [List.replicate 4 Vec2.zero]) }

/-- `InvertibleMPMSolid::deleteAllParticleRelatedDataOfObject` (source lines
534-542): erase the given object's corner-weight/gradient block. -/
def deleteAllParticleRelatedDataOfObject (s : Solver) (obj : Nat) : Solver :=
  { s with
    particleCornerWeight := s.particleCornerWeight.eraseIdx obj,
    particleCornerGradient := s.particleCornerGradient.eraseIdx obj }

/-- `InvertibleMPMSolid::deleteOneParticleRelatedDataOfObject` (source lines
544-552): erase the given particle's corner-weight/gradient record. -/
def deleteOneParticleRelatedDataOfObject (s : Solver) (obj p : Nat) : Solver :=
  { s with
    particleCornerWeight :=
      s.particleCornerWeight.set obj ((s.particleCornerWeight.getD obj []).eraseIdx p),
    particleCornerGradient :=
      s.particleCornerGradient.set obj ((s.particleCornerGradient.getD obj []).eraseIdx p) }

/-- Modelled from the spec: the host `MPMSolid`/`CPDIMPMSolid` code that adds
an object (an ordered particle list, §3) and then invokes the virtual
`appendAllParticleRelatedDataOfLastObject` is not in this repository (§4.7,
§6: storage "resized in lockstep with the particle arrays owned by the
parent solver"). -/
def addObject (s : Solver) (ps : List SolidParticle) : Solver :=
  ({ s with particles := s.particles ++ [ps] }).appendAllParticleRelatedDataOfLastObject

/-- Modelled from the spec: the host code that appends one particle to an
object and then invokes `appendLastParticleRelatedDataOfObject` (§4.7). -/
def addParticle (s : Solver) (obj : Nat) (part : SolidParticle) : Solver :=
  ({ s with particles := s.particles.set obj ((s.particles.getD obj []) ++ [part])
   }).appendLastParticleRelatedDataOfObject obj

/-- Modelled from the spec: the host code that removes an object and invokes
`deleteAllParticleRelatedDataOfObject` (§4.7). -/
def removeObject (s : Solver) (obj : Nat) : Solver :=
  ({ s with particles := s.particles.eraseIdx obj }).deleteAllParticleRelatedDataOfObject obj

/-- Modelled from the spec: the host code that removes one particle and
invokes `deleteOneParticleRelatedDataOfObject` (§4.7). -/
def removeParticle (s : Solver) (obj p : Nat) : Solver :=
  ({ s with particles := s.particles.set obj ((s.particles.getD obj []).eraseIdx p)
   }).deleteOneParticleRelatedDataOfObject obj p

/-- Corner-position welding (source lines 591-607): fold over the flattened
corner positions; a position already seen maps to its first index
(`std::find`), a new one is pushed and maps to the new last index. -/
def weldStep (acc : List Vec2 × List Nat) (pos : Vec2) : List Vec2 × List Nat :=
  match acc.1.findIdx? (fun u => u == pos) with
  | some idx => (acc.1, acc.2 ++ [idx])
  | none => (acc.1 ++ [pos], acc.2 ++ [acc.1.length])

/-- Dedup a whole corner-position list into (vertex list, flat connectivity). -/
def weldCorners (corners : List Vec2) : List Vec2 × List Nat :=
  corners.foldl weldStep ([], [])

/-- The flattened corner-position list of one object, in source loop order
(particle-major, 4 corners each). -/
def flattenedCorners (s : Solver) (obj : Nat) : List Vec2 :=
  ((List.range (s.particleNumOfObject obj)).map (fun p =>
    (List.range 4).map (fun c => get3 s.particleDomainCorners obj p c Vec2.zero))).flatten

/-- `InvertibleMPMSolid::constructParticleDomainMesh` (source lines 571-625):
resize the per-object arrays to the object count, then, per object, weld the
particle corner positions into a vertex list and connectivity table, build
the quad mesh from them, and resize the per-corner arrays to the vertex
count (`vector::resize` keeps existing prefixes).  The `clearParticleDomainMesh`
call frees owned meshes and has no observable effect on modelled state. -/
def constructMeshStep (t : Solver) (obj : Nat) : Solver :=
  let wd := weldCorners (t.flattenedCorners obj)
  let mesh : VolMesh := ⟨wd.1, t.particleNumOfObject obj, wd.2⟩
  let vn := wd.1.length
  { t with
    particleDomainMesh := t.particleDomainMesh.set obj mesh,
    isEnrichedDomainCorner :=
      t.isEnrichedDomainCorner.set obj
        (resizeList (t.isEnrichedDomainCorner.getD obj []) vn false),
    domainCornerMass :=
      t.domainCornerMass.set obj (resizeList (t.domainCornerMass.getD obj []) vn 0),
    domainCornerVelocity :=
      t.domainCornerVelocity.set obj
        (resizeList (t.domainCornerVelocity.getD obj []) vn Vec2.zero),
    domainCornerVelocityBefore :=
      t.domainCornerVelocityBefore.set obj
        (resizeList (t.domainCornerVelocityBefore.getD obj []) vn Vec2.zero) }

def constructParticleDomainMesh (s : Solver) : Solver :=
  let objn := s.objectNum
  let s0 := { s with
    particleDomainMesh := resizeList s.particleDomainMesh objn VolMesh.empty,
    isEnrichedDomainCorner := resizeList s.isEnrichedDomainCorner objn [],
    domainCornerMass := resizeList s.domainCornerMass objn [],
    domainCornerVelocity := resizeList s.domainCornerVelocity objn [],
    domainCornerVelocityBefore := resizeList s.domainCornerVelocityBefore objn [] }
  (List.range objn).foldl constructMeshStep s0

/-- Modelled from the spec (§4.6, design note §9): the FLIP velocity update
with the per-particle corner weight indexed by the particle index
(`particle_corner_weight_[obj_idx][particle_idx][corner_idx]`), the indexing
the spec prescribes and every other use site employs.  Identical to
`updateParticleVelocity` except for that one index.  Used only to compare
with the literal source behaviour. -/
def velocityBodySpecWeights (s : Solver) (obj p : Nat) (part : SolidParticle) :
    SolidParticle :=
  if get2 s.isDirichletParticle obj p false then part
  else
    let ecn := s.enrichedCornerNum obj p
    let v1 :=
      if ecn < 4 then
        (s.gridPairsOf obj p).foldl (fun v pr =>
          if s.gridMassAt obj pr.nodeIdx ≤ machineEps then v
          else
            v + pr.weightValue •
              (mGetD (s.gridVelocity pr.nodeIdx) obj Vec2.zero -
                mGetD (s.gridVelocityBefore pr.nodeIdx) obj Vec2.zero)) part.velocity
      else part.velocity
    let v2 :=
      if 0 < ecn then
        (List.range 4).foldl (fun v c =>
          let g := (s.meshOf obj).eleVertIndex p c
          if get2 s.isEnrichedDomainCorner obj g false then
            let w := get3 s.particleCornerWeight obj p c 0
            v + w • (get2 s.domainCornerVelocity obj g Vec2.zero -
              get2 s.domainCornerVelocityBefore obj g Vec2.zero)
          else v) v1
      else v1
    { part with velocity := v2 }

def updateParticleVelocitySpecWeights (s : Solver) : Solver :=
  let ps := s.particles.mapIdx (fun obj inner => inner.mapIdx (s.velocityBodySpecWeights obj))
  { s with particles := ps }

/-- The corner-only velocity gradient (the value `particleVelGrad` takes when
every corner of the particle is enriched and the grid branch is skipped). -/
def particleVelGradCornerOnly (s : Solver) (obj p : Nat) : Mat2 :=
  (List.range 4).foldl (fun acc c =>
    let g := (s.meshOf obj).eleVertIndex p c
    if get2 s.isEnrichedDomainCorner obj g false then
      acc + Mat2.outerProduct (get2 s.domainCornerVelocity obj g Vec2.zero)
        (get3 s.particleCornerGradient obj p c Vec2.zero)
    else acc) Mat2.zero

/-- The corner-only FLIP velocity (the value `updateParticleVelocity` writes
for a non-Dirichlet particle when every corner is enriched and the grid
branch is skipped); the corner weight carries the source's double-object
index. -/
def flipVelocityCornerOnly (s : Solver) (obj p : Nat) : Vec2 :=
  (List.range 4).foldl (fun v c =>
    let g := (s.meshOf obj).eleVertIndex p c
    if get2 s.isEnrichedDomainCorner obj g false then
      let w := get3 s.particleCornerWeight obj obj c 0
      v + w • (get2 s.domainCornerVelocity obj g Vec2.zero -
        get2 s.domainCornerVelocityBefore obj g Vec2.zero)
    else v) (s.particleAt obj p).velocity

/-- Every particle of every object has all 4 domain corners enriched. -/
def fullyEnriched (s : Solver) : Prop :=
  ∀ obj < s.objectNum, ∀ p < s.particleNumOfObject obj,
    s.enrichedCornerNum obj p = 4

/-- Some particle whose domain touches global corner `g` of object `obj`
satisfies the enrichment criterion (§4.2's classification condition). -/
def cornerEnrichRequested (s : Solver) (obj g : Nat) : Prop :=
  ∃ p < s.particleNumOfObject obj, s.enrichCriteria obj p = true ∧
    ∃ c < 4, (s.meshOf obj).eleVertIndex p c = g

/-- Sum of one particle's corner weights over its enriched corners (the
weights the corner branch of the scatter rasterizes with). -/
def enrichedCornerWeightSum (s : Solver) (obj p : Nat) : ℚ :=
  ((List.range 4).map (fun c =>
    if get2 s.isEnrichedDomainCorner obj ((s.meshOf obj).eleVertIndex p c) false then
      get3 s.particleCornerWeight obj p c 0
    else 0)).sum

/-- The §8.1 partition-of-unity quantity for one particle: the grid-influence
weights it rasterizes with (when the grid branch runs) plus the
enriched-corner weights it rasterizes with (when the corner branch runs). -/
def usedWeightSum (s : Solver) (obj p : Nat) : ℚ :=
  let ecn := s.enrichedCornerNum obj p
  (if ecn < 4 then ((s.gridPairsOf obj p).map (fun pr => pr.weightValue)).sum else 0) +
    (if 0 < ecn then s.enrichedCornerWeightSum obj p else 0)

/-- Total grid mass attributed to one object over the grid's node set. -/
def totalGridMassOfObject (s : Solver) (obj : Nat) : ℚ :=
  (s.gridNodes.map (fun n => s.gridMassAt obj n)).sum

/-- Total domain-corner mass of one object. -/
def totalCornerMassOfObject (s : Solver) (obj : Nat) : ℚ :=
  (s.domainCornerMass.getD obj []).sum

/-- Sum of the particle masses of one object. -/
def totalParticleMassOfObject (s : Solver) (obj : Nat) : ℚ :=
  ((s.particles.getD obj []).map SolidParticle.mass).sum

/-- The per-particle domain-corner array agrees everywhere with the
particle-domain mesh vertices at the corresponding global indices (§8.6). -/
def domainMeshConsistent (s : Solver) : Prop :=
  ∀ obj < s.objectNum, ∀ p < s.particleNumOfObject obj, ∀ c < 4,
    get3 s.particleDomainCorners obj p c Vec2.zero =
      (s.meshOf obj).vertPos ((s.meshOf obj).eleVertIndex p c)

/-- The per-particle corner-weight/gradient storage is index-aligned with the
particle arrays: one block per object, one fixed-size (4) record per
particle (§4.7). -/
def cornerStorageAligned (s : Solver) : Prop :=
  s.particleCornerWeight.length = s.objectNum ∧
  s.particleCornerGradient.length = s.objectNum ∧
  (∀ obj < s.objectNum,
    (s.particleCornerWeight.getD obj []).length = s.particleNumOfObject obj ∧
    (s.particleCornerGradient.getD obj []).length = s.particleNumOfObject obj ∧
    (∀ p < s.particleNumOfObject obj,
      ((s.particleCornerWeight.getD obj []).getD p []).length = 4 ∧
      ((s.particleCornerGradient.getD obj []).getD p []).length = 4))

end Solver

/-- A minimal empty solver state, the base of the concrete states below. -/
def emptySolver : Solver := {
  particles := [], particleInitialVolume := [], isDirichletParticle := [],
  particleGridWeightAndGradient := [], cornerGridWeightAndGradient := [],
  gridNodes := [], isDirichletGridNode := fun _ => [],
  dirichletGridVelocity := fun _ _ => Vec2.zero,
  gridMass := fun _ => [], gridVelocity := fun _ => [], gridVelocityBefore := fun _ => [],
  activeGridNode := [], hasContactMethod := false, gravity := 0,
  particleDomainCorners := [], particleDomainMesh := [], isEnrichedDomainCorner := [],
  domainCornerMass := [], domainCornerVelocity := [], domainCornerVelocityBefore := [],
  particleCornerWeight := [], particleCornerGradient := [],
  enrichCriteria := fun _ _ => true }

/-- Concrete one-object one-particle state for the C1 witness. -/
def solverC1 : Solver :=
  { emptySolver with particles := [[default]] }

/-- One fully enriched particle whose reconstructed velocity gradient is
`diag(-2, 0)`: with `dt = 1` and `F = I`, `det(I + A) = -1 ≤ 0`, so the
remedy branch runs and produces `F = diag(0, 1)` with determinant `0`. -/
def solverC2 : Solver :=
  { emptySolver with
    particles := [[{ mass := 1, velocity := Vec2.zero, volume := 1,
                     deformationGradient := Mat2.identityMatrix, cauchyStress := Mat2.zero }]],
    particleInitialVolume := [[1]],
    particleDomainMesh := [⟨[⟨0,0⟩, ⟨1,0⟩, ⟨1,1⟩, ⟨0,1⟩], 1, [0,1,2,3]⟩],
    isEnrichedDomainCorner := [[true, true, true, true]],
    domainCornerMass := [[1, 1, 1, 1]],
    domainCornerVelocity := [[⟨-2,0⟩, ⟨0,0⟩, ⟨0,0⟩, ⟨0,0⟩]],
    domainCornerVelocityBefore := [[⟨0,0⟩, ⟨0,0⟩, ⟨0,0⟩, ⟨0,0⟩]],
    particleCornerWeight := [[[1, 0, 0, 0]]],
    particleCornerGradient := [[[⟨1,0⟩, ⟨0,0⟩, ⟨0,0⟩, ⟨0,0⟩]]] }

/-- Two fully enriched particles with different corner-weight records; every
enriched corner carries velocity delta `(1, 0)`.  Exposes the
`particle_corner_weight_[obj_idx][obj_idx][corner_idx]` indexing of
`updateParticleVelocity` (source line 364). -/
def solverC5 : Solver :=
  { emptySolver with
    particles := [[⟨1, ⟨0,0⟩, 1, Mat2.identityMatrix, Mat2.zero⟩,
                   ⟨1, ⟨0,0⟩, 1, Mat2.identityMatrix, Mat2.zero⟩]],
    isDirichletParticle := [[false, false]],
    particleDomainMesh := [⟨[⟨0,0⟩, ⟨1,0⟩, ⟨1,1⟩, ⟨0,1⟩, ⟨2,0⟩, ⟨3,0⟩, ⟨3,1⟩, ⟨2,1⟩], 2,
      [0,1,2,3,4,5,6,7]⟩],
    isEnrichedDomainCorner := [[true, true, true, true, true, true, true, true]],
    domainCornerMass := [[1, 1, 1, 1, 1, 1, 1, 1]],
    domainCornerVelocity := [[⟨1,0⟩, ⟨1,0⟩, ⟨1,0⟩, ⟨1,0⟩, ⟨1,0⟩, ⟨1,0⟩, ⟨1,0⟩, ⟨1,0⟩]],
    domainCornerVelocityBefore := [[⟨0,0⟩, ⟨0,0⟩, ⟨0,0⟩, ⟨0,0⟩, ⟨0,0⟩, ⟨0,0⟩, ⟨0,0⟩, ⟨0,0⟩]],
    particleCornerWeight := [[[1, 0, 0, 0], [0, 0, 0, 1/2]]],
    particleCornerGradient := [[[⟨0,0⟩, ⟨0,0⟩, ⟨0,0⟩, ⟨0,0⟩], [⟨0,0⟩, ⟨0,0⟩, ⟨0,0⟩, ⟨0,0⟩]]] }

/-- One object with a single particle of mass exactly machine epsilon and
velocity `(1000, 0)`, whose corner weight at corner 0 is `1`: after the
scatter, corner 0 carries mass `machineEps` (not above epsilon) yet
accumulated momentum `(1000·machineEps, 0) ≠ 0`. -/
def solverC7 : Solver :=
  { emptySolver with
    particles := [[⟨machineEps, ⟨1000, 0⟩, 1, Mat2.identityMatrix, Mat2.zero⟩]],
    isDirichletParticle := [[false]],
    particleDomainMesh := [⟨[⟨0,0⟩, ⟨1,0⟩, ⟨1,1⟩, ⟨0,1⟩], 1, [0,1,2,3]⟩],
    isEnrichedDomainCorner := [[false, false, false, false]],
    domainCornerMass := [[0, 0, 0, 0]],
    domainCornerVelocity := [[⟨0,0⟩, ⟨0,0⟩, ⟨0,0⟩, ⟨0,0⟩]],
    domainCornerVelocityBefore := [[⟨0,0⟩, ⟨0,0⟩, ⟨0,0⟩, ⟨0,0⟩]],
    particleCornerWeight := [[[1, 0, 0, 0]]],
    particleCornerGradient := [[[⟨0,0⟩, ⟨0,0⟩, ⟨0,0⟩, ⟨0,0⟩]]] }

/-- One object, one particle whose four domain corners are the whole vertex
set, with zero corner velocities and no ordinary-corner grid pairs: the
advection fixture for the domain-mesh-consistency witness. -/
def solverC8 : Solver :=
  { emptySolver with
    particles := [[default]],
    cornerGridWeightAndGradient := [[[[], [], [], []]]],
    particleDomainCorners := [[[⟨0,0⟩, ⟨1,0⟩, ⟨1,1⟩, ⟨0,1⟩]]],
    particleDomainMesh := [⟨[⟨0,0⟩, ⟨1,0⟩, ⟨1,1⟩, ⟨0,1⟩], 1, [0,1,2,3]⟩],
    isEnrichedDomainCorner := [[false, false, false, false]],
    domainCornerVelocity := [[⟨0,0⟩, ⟨0,0⟩, ⟨0,0⟩, ⟨0,0⟩]] }

/-- Two objects sharing grid node 0 with no contact method configured:
object 0 carries mass 1 and velocity (4,0) at the node, object 1 carries
mass 3 and zero velocity, and no Dirichlet flags are set. -/
def solverC3 : Solver :=
  { emptySolver with
    particles := [[], []],
    gridNodes := [0],
    gridMass := fun _ => [(0, 1), (1, 3)],
    gridVelocity := fun _ => [(0, ⟨4, 0⟩), (1, ⟨0, 0⟩)],
    activeGridNode := [(0, 0), (0, 1)] }

/-- Mixed enrichment configuration for the mass-conservation witness: one
object with an ordinary particle (mass 2, one grid pair of weight 1 at node
0) and a fully enriched particle (mass 3, corner weights 1/4 each); both
particles' used weights sum to 1. -/
def solverC6 : Solver :=
  { emptySolver with
    particles := [[⟨2, ⟨0,0⟩, 1, Mat2.identityMatrix, Mat2.zero⟩,
                   ⟨3, ⟨0,0⟩, 1, Mat2.identityMatrix, Mat2.zero⟩]],
    isDirichletParticle := [[false, false]],
    particleGridWeightAndGradient := [[[⟨0, 1, ⟨0,0⟩⟩], []]],
    gridNodes := [0],
    particleDomainMesh := [⟨[⟨0,0⟩, ⟨1,0⟩, ⟨1,1⟩, ⟨0,1⟩, ⟨2,0⟩, ⟨3,0⟩, ⟨3,1⟩, ⟨2,1⟩], 2,
      [0,1,2,3,4,5,6,7]⟩],
    isEnrichedDomainCorner := [[false, false, false, false, true, true, true, true]],
    domainCornerMass := [[0, 0, 0, 0, 0, 0, 0, 0]],
    domainCornerVelocity := [[⟨0,0⟩, ⟨0,0⟩, ⟨0,0⟩, ⟨0,0⟩, ⟨0,0⟩, ⟨0,0⟩, ⟨0,0⟩, ⟨0,0⟩]],
    domainCornerVelocityBefore :=
      [[⟨0,0⟩, ⟨0,0⟩, ⟨0,0⟩, ⟨0,0⟩, ⟨0,0⟩, ⟨0,0⟩, ⟨0,0⟩, ⟨0,0⟩]],
    particleCornerWeight := [[[0, 0, 0, 0], [1/4, 1/4, 1/4, 1/4]]],
    particleCornerGradient := [[[⟨0,0⟩, ⟨0,0⟩, ⟨0,0⟩, ⟨0,0⟩],
      [⟨0,0⟩, ⟨0,0⟩, ⟨0,0⟩, ⟨0,0⟩]]] }

/-- `solverC7` after grid reset, domain-data reset and enrichment
classification (all four corners enriched by the stub criterion): the state
the scatter loop of `rasterize` runs on. -/
def solverC7E : Solver :=
  { solverC7 with
    gridVelocity := fun _ => [],
    gridVelocityBefore := fun _ => [],
    isEnrichedDomainCorner := [[true, true, true, true]] }

/-- One object with one particle, its domain mesh and per-corner arrays built
for exactly that one particle, and one corner-weight/gradient record: the
lifecycle fixture.  Appending a second particle resizes only the
corner-weight/gradient storage; the mesh still has one element. -/
def solverC9 : Solver :=
  { emptySolver with
    particles := [[default]],
    particleDomainCorners := [[[⟨0,0⟩, ⟨1,0⟩, ⟨1,1⟩, ⟨0,1⟩]]],
    particleDomainMesh := [⟨[⟨0,0⟩, ⟨1,0⟩, ⟨1,1⟩, ⟨0,1⟩], 1, [0,1,2,3]⟩],
    isEnrichedDomainCorner := [[false, false, false, false]],
    domainCornerMass := [[0, 0, 0, 0]],
    domainCornerVelocity := [[⟨0,0⟩, ⟨0,0⟩, ⟨0,0⟩, ⟨0,0⟩]],
    domainCornerVelocityBefore := [[⟨0,0⟩, ⟨0,0⟩, ⟨0,0⟩, ⟨0,0⟩]],
    particleCornerWeight := [[[0, 0, 0, 0]]],
    particleCornerGradient := [[[⟨0,0⟩, ⟨0,0⟩, ⟨0,0⟩, ⟨0,0⟩]]] }

namespace Vec2

@[simp] theorem add_x (u v : Vec2) : (u + v).x = u.x + v.x := rfl

@[simp] theorem add_y (u v : Vec2) : (u + v).y = u.y + v.y := rfl

@[simp] theorem sub_x (u v : Vec2) : (u - v).x = u.x - v.x := rfl

@[simp] theorem sub_y (u v : Vec2) : (u - v).y = u.y - v.y := rfl

@[simp] theorem smul_x (a : ℚ) (v : Vec2) : (a • v).x = a * v.x := rfl

@[simp] theorem smul_y (a : ℚ) (v : Vec2) : (a • v).y = a * v.y := rfl

@[simp] theorem zero_x : (zero).x = 0 := rfl

@[simp] theorem zero_y : (zero).y = 0 := rfl

theorem ext_xy {u v : Vec2} (hx : u.x = v.x) (hy : u.y = v.y) : u = v := by
  cases u; cases v; simp_all

@[simp] theorem add_zero_v (v : Vec2) : v + zero = v := by
  apply ext_xy <;> simp

@[simp] theorem zero_add_v (v : Vec2) : zero + v = v := by
  apply ext_xy <;> simp

@[simp] theorem mk_add_mk (a b c d : ℚ) : (⟨a, b⟩ + ⟨c, d⟩ : Vec2) = ⟨a + c, b + d⟩ := rfl

@[simp] theorem mk_sub_mk (a b c d : ℚ) : (⟨a, b⟩ - ⟨c, d⟩ : Vec2) = ⟨a - c, b - d⟩ := rfl

@[simp] theorem smul_mk (s a b : ℚ) : s • (⟨a, b⟩ : Vec2) = ⟨s * a, s * b⟩ := rfl

@[simp] theorem divQ_mk (a b s : ℚ) : (⟨a, b⟩ : Vec2).divQ s = ⟨a / s, b / s⟩ := rfl

end Vec2

namespace Mat2

theorem ext4 {a b : Mat2} (h0 : a.e00 = b.e00) (h1 : a.e01 = b.e01)
    (h2 : a.e10 = b.e10) (h3 : a.e11 = b.e11) : a = b := by
  cases a; cases b; simp_all

@[simp] theorem add_e00 (a b : Mat2) : (a + b).e00 = a.e00 + b.e00 := rfl

@[simp] theorem add_e01 (a b : Mat2) : (a + b).e01 = a.e01 + b.e01 := rfl

@[simp] theorem add_e10 (a b : Mat2) : (a + b).e10 = a.e10 + b.e10 := rfl

@[simp] theorem add_e11 (a b : Mat2) : (a + b).e11 = a.e11 + b.e11 := rfl

@[simp] theorem mul_e00 (a b : Mat2) : (a * b).e00 = a.e00 * b.e00 + a.e01 * b.e10 := rfl

@[simp] theorem mul_e01 (a b : Mat2) : (a * b).e01 = a.e00 * b.e01 + a.e01 * b.e11 := rfl

@[simp] theorem mul_e10 (a b : Mat2) : (a * b).e10 = a.e10 * b.e00 + a.e11 * b.e10 := rfl

@[simp] theorem mul_e11 (a b : Mat2) : (a * b).e11 = a.e10 * b.e01 + a.e11 * b.e11 := rfl

@[simp] theorem smul_e00 (s : ℚ) (a : Mat2) : (s • a).e00 = s * a.e00 := rfl

@[simp] theorem smul_e01 (s : ℚ) (a : Mat2) : (s • a).e01 = s * a.e01 := rfl

@[simp] theorem smul_e10 (s : ℚ) (a : Mat2) : (s • a).e10 = s * a.e10 := rfl

@[simp] theorem smul_e11 (s : ℚ) (a : Mat2) : (s • a).e11 = s * a.e11 := rfl

@[simp] theorem id_e00 : identityMatrix.e00 = 1 := rfl

@[simp] theorem id_e01 : identityMatrix.e01 = 0 := rfl

@[simp] theorem id_e10 : identityMatrix.e10 = 0 := rfl

@[simp] theorem id_e11 : identityMatrix.e11 = 1 := rfl

/-- Determinants multiply. -/
theorem det_mul (a b : Mat2) : (a * b).det = a.det * b.det := by
  simp only [det, mul_e00, mul_e01, mul_e10, mul_e11]
  ring

/-- `F + M * F = (I + M) * F`. -/
theorem add_mul_self (m f : Mat2) : f + m * f = (identityMatrix + m) * f := by
  apply ext4 <;> simp <;> ring

/-- The quadratic remedy factor is a perfect square:
`I + A + (1/4)·A² = (I + (1/2)·A)²`. -/
theorem remedy_square (a : Mat2) :
    identityMatrix + a + ((1 : ℚ)/4) • (a * a)
      = (identityMatrix + ((1 : ℚ)/2) • a) * (identityMatrix + ((1 : ℚ)/2) • a) := by
  apply ext4 <;> simp <;> ring

theorem smul_mul_smul_m (a b : ℚ) (x y : Mat2) :
    (a • x) * (b • y) = (a * b) • (x * y) := by
  apply ext4 <;> simp <;> ring

theorem smul_smul_m (a b : ℚ) (x : Mat2) : a • (b • x) = (a * b) • x := by
  apply ext4 <;> simp <;> ring

theorem add_assoc_m (x y z : Mat2) : x + y + z = x + (y + z) := by
  apply ext4 <;> simp <;> ring

@[simp] theorem zero_add_m (x : Mat2) : Mat2.zero + x = x := by
  apply ext4 <;> simp [zero]

@[simp] theorem add_zero_m (x : Mat2) : x + Mat2.zero = x := by
  apply ext4 <;> simp [zero]

end Mat2

namespace VolMesh

@[simp] theorem setVertPos_domains (m : VolMesh) (g : Nat) (pos : Vec2) :
    (m.setVertPos g pos).domains = m.domains := rfl

@[simp] theorem setVertPos_eleVertIndex (m : VolMesh) (g : Nat) (pos : Vec2) (p c : Nat) :
    (m.setVertPos g pos).eleVertIndex p c = m.eleVertIndex p c := rfl

@[simp] theorem setVertPos_length (m : VolMesh) (g : Nat) (pos : Vec2) :
    (m.setVertPos g pos).verts.length = m.verts.length := by
  simp [setVertPos]

end VolMesh

/-- A predicate preserved by each fold step holds of the fold. -/
theorem foldl_invariant {α β : Type} (P : β → Prop) (f : β → α → β) (l : List α)
    (init : β) (h0 : P init) (h : ∀ b, ∀ a ∈ l, P b → P (f b a)) : P (l.foldl f init) := by
  induction l generalizing init with
  | nil => exact h0
  | cons a rest ih =>
    exact ih (f init a) (h init a (by simp) h0)
      (fun b a2 ha2 hb => h b a2 (by simp [ha2]) hb)

theorem getD_set_self {α : Type} (l : List α) (i : Nat) (v d : α) (h : i < l.length) :
    (l.set i v).getD i d = v := by
  have h2 : i < (l.set i v).length := by simpa using h
  rw [List.getD_eq_getElem _ _ h2]
  simp [List.getElem_set]

theorem getD_set_ne {α : Type} (l : List α) (i j : Nat) (v d : α) (h : i ≠ j) :
    (l.set i v).getD j d = l.getD j d := by
  simp [List.getD, List.getElem?_set_ne h]

theorem getD_mapIdx {α β : Type} (l : List α) (f : Nat → α → β) (i : Nat) (d : β) (d2 : α)
    (h : i < l.length) : (l.mapIdx f).getD i d = f i (l.getD i d2) := by
  have h2 : i < (l.mapIdx f).length := by simpa using h
  rw [List.getD_eq_getElem _ _ h2, List.getD_eq_getElem _ _ h]
  simp [List.getElem_mapIdx]

@[simp] theorem length_set2 {α : Type} (l : List (List α)) (i j : Nat) (v : α) :
    (set2 l i j v).length = l.length := by
  simp [set2]

theorem row_set2_self {α : Type} (l : List (List α)) (i j : Nat) (v : α) :
    (set2 l i j v).getD i [] = (l.getD i []).set j v := by
  unfold set2
  by_cases h : i < l.length
  · exact getD_set_self _ _ _ _ h
  · have hle := not_lt.mp h
    rw [List.getD_eq_default _ _ (by simpa using hle), List.getD_eq_default _ _ hle]
    simp

theorem row_set2_ne {α : Type} (l : List (List α)) (i i2 j : Nat) (v : α)
    (h : i2 ≠ i) : (set2 l i j v).getD i2 [] = l.getD i2 [] :=
  getD_set_ne _ _ _ _ _ (fun he => h he.symm)

theorem get2_set2_self {α : Type} (l : List (List α)) (i j : Nat) (v d : α)
    (hj : j < (l.getD i []).length) : get2 (set2 l i j v) i j d = v := by
  unfold get2
  rw [row_set2_self]
  exact getD_set_self _ _ _ _ hj

theorem get2_set2_ne_col {α : Type} (l : List (List α)) (i j j2 : Nat) (v d : α)
    (h : j2 ≠ j) : get2 (set2 l i j v) i j2 d = get2 l i j2 d := by
  unfold get2
  rw [row_set2_self]
  exact getD_set_ne _ _ _ _ _ (fun he => h he.symm)

theorem get2_set2_ne_row {α : Type} (l : List (List α)) (i i2 j j2 : Nat) (v d : α)
    (h : i2 ≠ i) : get2 (set2 l i j v) i2 j2 d = get2 l i2 j2 d := by
  unfold get2
  rw [row_set2_ne _ _ _ _ _ h]

theorem row_length_set2_self {α : Type} (l : List (List α)) (i j : Nat) (v : α) :
    ((set2 l i j v).getD i []).length = (l.getD i []).length := by
  rw [row_set2_self]
  simp

theorem getD_set_row {α : Type} (l : List (List α)) (o : Nat) (f : List α → List α)
    (hnil : f [] = []) : (l.set o (f (l.getD o []))).getD o [] = f (l.getD o []) := by
  by_cases h : o < l.length
  · exact getD_set_self _ _ _ _ h
  · rw [List.getD_eq_default _ _ (by simpa using not_lt.mp h),
      List.getD_eq_default _ _ (not_lt.mp h), hnil]

theorem resetRange_succ {α : Type} (l : List α) (n : Nat) (v : α) :
    resetRange l (n + 1) v = (resetRange l n v).set n v := by
  unfold resetRange
  rw [@List.range_succ n, List.foldl_append]
  simp

@[simp] theorem length_resetRange {α : Type} (l : List α) (n : Nat) (v : α) :
    (resetRange l n v).length = l.length := by
  induction n with
  | zero => simp [resetRange]
  | succ k ih => rw [resetRange_succ]; simp [ih]

@[simp] theorem resetRange_nil {α : Type} (n : Nat) (v : α) :
    resetRange ([] : List α) n v = [] := by
  induction n with
  | zero => simp [resetRange]
  | succ k ih => rw [resetRange_succ, ih]; simp

theorem getD_resetRange {α : Type} (l : List α) (n : Nat) (v d : α) (i : Nat) :
    (resetRange l n v).getD i d =
      if i < n ∧ i < l.length then v else l.getD i d := by
  induction n with
  | zero => simp [resetRange]
  | succ k ih =>
    rw [resetRange_succ]
    by_cases hik : i = k
    · subst hik
      by_cases hil : i < l.length
      · rw [getD_set_self]
        · simp [hil]
        · simpa using hil
      · have hlen : l.length ≤ i := not_lt.mp hil
        rw [List.getD_eq_default _ _ (by simpa using hlen),
          List.getD_eq_default _ _ hlen]
        simp [hil]
    · rw [getD_set_ne _ _ _ _ _ (fun hk => hik hk.symm), ih]
      have hiff : (i < k ∧ i < l.length) ↔ (i < k + 1 ∧ i < l.length) := by
        constructor
        · rintro ⟨ha, hb⟩
          exact ⟨by omega, hb⟩
        · rintro ⟨ha, hb⟩
          exact ⟨by omega, hb⟩
      simp only [hiff]

@[simp] theorem length_resizeList {α : Type} (l : List α) (n : Nat) (d : α) :
    (resizeList l n d).length = n := by
  simp [resizeList]
  omega

/-- Summing a pointwise-equal-except-at-one-element function over a
duplicate-free list: the sum changes by the change at that element. -/
theorem sum_map_update {f g : Nat → ℚ} {ns : List Nat} {n : Nat} {v : ℚ}
    (hnd : ns.Nodup) (hmem : n ∈ ns) (hn : g n = f n + v)
    (hother : ∀ m ∈ ns, m ≠ n → g m = f m) :
    (ns.map g).sum = (ns.map f).sum + v := by
  induction ns with
  | nil => cases hmem
  | cons b rest ih =>
    have hb : b ∉ rest := (List.nodup_cons.mp hnd).1
    have hrest : rest.Nodup := (List.nodup_cons.mp hnd).2
    rcases List.mem_cons.mp hmem with h1 | h1
    · subst h1
      have hmap : rest.map g = rest.map f := by
        apply List.map_congr_left
        intro m hm
        exact hother m (List.mem_cons_of_mem _ hm) (fun he => hb (he ▸ hm))
      simp only [List.map_cons, List.sum_cons, hmap, hn]
      ring
    · have hbn : b ≠ n := fun he => hb (he ▸ h1)
      have hrec := ih hrest h1 (fun m hm hne => hother m (List.mem_cons_of_mem _ hm) hne)
      simp only [List.map_cons, List.sum_cons, hrec,
        hother b (List.mem_cons_self _ _) hbn]
      ring

namespace ObjMap

@[simp] theorem mfind_nil {α : Type} (k : Nat) : mfind ([] : ObjMap α) k = none := rfl

theorem mfind_cons {α : Type} (p : Nat × α) (rest : ObjMap α) (k : Nat) :
    mfind (p :: rest) k = if p.1 = k then some p.2 else mfind rest k := by
  by_cases h : p.1 = k
  · simp [mfind, List.find?_cons, h]
  · simp only [mfind, List.find?_cons]
    have : (p.1 == k) = false := by simpa using h
    simp [this, h]

theorem mfind_minsert_self {α : Type} (m : ObjMap α) (k : Nat) (v : α)
    (h : mfind m k = none) : mfind (minsert k v m) k = some v := by
  induction m with
  | nil => simp [minsert, mfind_cons]
  | cons p rest ih =>
    rw [mfind_cons] at h
    by_cases hp : p.1 = k
    · simp [hp] at h
    · simp only [if_neg hp] at h
      unfold minsert
      by_cases hlt : k < p.1
      · simp [hlt, mfind_cons]
      · simp [hlt, mfind_cons, hp, ih h]

theorem mfind_minsert_ne {α : Type} (m : ObjMap α) (k k2 : Nat) (v : α)
    (h : k2 ≠ k) : mfind (minsert k v m) k2 = mfind m k2 := by
  have hkk : ¬(k = k2) := fun he => h he.symm
  induction m with
  | nil => simp [minsert, mfind_cons, hkk]
  | cons p rest ih =>
    unfold minsert
    by_cases hlt : k < p.1
    · simp only [if_pos hlt, mfind_cons]
      simp [hkk]
    · simp only [if_neg hlt, mfind_cons]
      by_cases hp : p.1 = k2
      · simp [hp]
      · simp [hp, ih]

theorem mfind_madjust_self {α : Type} (m : ObjMap α) (k : Nat) (f : α → α) (x : α)
    (h : mfind m k = some x) : mfind (madjust m k f) k = some (f x) := by
  induction m with
  | nil => simp at h
  | cons p rest ih =>
    rw [mfind_cons] at h
    unfold madjust
    by_cases hp : p.1 = k
    · simp only [if_pos hp] at h
      have : (p.1 == k) = true := by simpa using hp
      simp only [this, if_true, mfind_cons, if_pos hp]
      simp only [Option.some_inj] at h
      simp [h]
    · simp only [if_neg hp] at h
      have : (p.1 == k) = false := by simpa using hp
      simp [this, mfind_cons, hp, ih h]

theorem mfind_madjust_ne {α : Type} (m : ObjMap α) (k k2 : Nat) (f : α → α)
    (h : k2 ≠ k) : mfind (madjust m k f) k2 = mfind m k2 := by
  have hkk : ¬(k = k2) := fun he => h he.symm
  induction m with
  | nil => simp [madjust]
  | cons p rest ih =>
    unfold madjust
    by_cases hp : p.1 = k
    · have hb : (p.1 == k) = true := by simpa using hp
      have hp2 : ¬(p.1 = k2) := by rw [hp]; exact hkk
      simp [hb, mfind_cons, hp2]
    · have hb : (p.1 == k) = false := by simpa using hp
      simp only [hb, Bool.false_eq_true, if_false, mfind_cons]
      by_cases hp2 : p.1 = k2
      · simp [hp2]
      · simp [hp2, ih]

theorem mGetD_madd_self_q (m : ObjMap ℚ) (k : Nat) (v : ℚ) :
    mGetD (madd m k v) k 0 = mGetD m k 0 + v := by
  unfold madd
  cases hf : mfind m k with
  | some x => simp [mGetD, mfind_madjust_self m k _ x hf, hf]
  | none => simp [mGetD, mfind_minsert_self m k v hf, hf]

theorem mGetD_madd_self_v (m : ObjMap Vec2) (k : Nat) (v : Vec2) :
    mGetD (madd m k v) k Vec2.zero = mGetD m k Vec2.zero + v := by
  unfold madd
  cases hf : mfind m k with
  | some x => simp [mGetD, mfind_madjust_self m k _ x hf, hf]
  | none => simp [mGetD, mfind_minsert_self m k v hf, hf]

theorem mfind_madd_ne {α : Type} [Add α] (m : ObjMap α) (k k2 : Nat) (v : α)
    (h : k2 ≠ k) : mfind (madd m k v) k2 = mfind m k2 := by
  unfold madd
  cases hf : mfind m k with
  | some x => exact mfind_madjust_ne m k k2 _ h
  | none => exact mfind_minsert_ne m k k2 v h

theorem mfind_mset_self {α : Type} (m : ObjMap α) (k : Nat) (v : α) :
    mfind (mset m k v) k = some v := by
  unfold mset
  cases hf : mfind m k with
  | some x => exact mfind_madjust_self m k _ x hf
  | none => exact mfind_minsert_self m k v hf

theorem mfind_mset_ne {α : Type} (m : ObjMap α) (k k2 : Nat) (v : α)
    (h : k2 ≠ k) : mfind (mset m k v) k2 = mfind m k2 := by
  unfold mset
  cases hf : mfind m k with
  | some x => exact mfind_madjust_ne m k k2 _ h
  | none => exact mfind_minsert_ne m k k2 v h

theorem mfind_map_const {α β : Type} (m : ObjMap α) (c : β) (k : Nat) :
    mfind (m.map (fun pr => (pr.1, c))) k = (mfind m k).map (fun _ => c) := by
  induction m with
  | nil => simp
  | cons p rest ih =>
    simp only [List.map_cons, mfind_cons]
    by_cases hp : p.1 = k
    · simp [hp]
    · simp [hp, ih]

theorem mfind_map_keys {α : Type} (l : List Nat) (f : Nat → α) (d : Nat)
    (h : d ∈ l) : mfind (l.map (fun o => (o, f o))) d = some (f d) := by
  induction l with
  | nil => cases h
  | cons a rest ih =>
    simp only [List.map_cons, mfind_cons]
    by_cases ha : a = d
    · simp [ha]
    · rcases List.mem_cons.mp h with h1 | h1
      · exact absurd h1.symm ha
      · simp [ha, ih h1]

theorem mgetInsert_of_some {α : Type} (m : ObjMap α) (k : Nat) (d x : α)
    (h : mfind m k = some x) : mgetInsert m k d = (x, m) := by
  simp [mgetInsert, h]

theorem mgetInsert_of_none {α : Type} (m : ObjMap α) (k : Nat) (d : α)
    (h : mfind m k = none) : mgetInsert m k d = (d, minsert k d m) := by
  simp [mgetInsert, h]

end ObjMap

namespace Solver

/-- `updateParticleConstitutiveModelState` acts pointwise on particles. -/
theorem particleAt_updateConstitutive (s : Solver) (dt : ℚ) (obj p : Nat)
    (hobj : obj < s.objectNum) (hp : p < s.particleNumOfObject obj) :
    (s.updateParticleConstitutiveModelState dt).particleAt obj p =
      (let part := s.particleAt obj p
       let f := updateDeformationGradient dt (s.particleVelGrad obj p)
         part.deformationGradient
       { part with
          deformationGradient := f,
          volume := f.det * get2 s.particleInitialVolume obj p 0 }) := by
  show (((s.particles.mapIdx _).getD obj []).getD p default) = _
  rw [getD_mapIdx _ _ obj [] [] hobj]
  rw [getD_mapIdx _ _ p default default hp]
  rfl

end Solver

/-- **C1.** In `updateParticleConstitutiveModelState`, for every particle,
with `A = dt` times the reconstructed velocity gradient: if `det(I + A) > 0`
the deformation gradient is updated as `F ← F + A·F`, and otherwise as
`F ← F + (A + 0.25·A²)·F` (the second-order remedy). -/
theorem C1_deformation_gradient_update (s : Solver) (dt : ℚ) (obj p : Nat)
    (hobj : obj < s.objectNum) (hp : p < s.particleNumOfObject obj) :
    ((s.updateParticleConstitutiveModelState dt).particleAt obj p).deformationGradient =
      (if 0 < (Mat2.identityMatrix + dt • s.particleVelGrad obj p).det then
        (s.particleAt obj p).deformationGradient
          + (dt • s.particleVelGrad obj p) * (s.particleAt obj p).deformationGradient
      else
        (s.particleAt obj p).deformationGradient
          + (dt • s.particleVelGrad obj p
              + ((1 : ℚ)/4) • ((dt • s.particleVelGrad obj p) * (dt • s.particleVelGrad obj p)))
            * (s.particleAt obj p).deformationGradient) := by
  rw [Solver.particleAt_updateConstitutive s dt obj p hobj hp]
  show Solver.updateDeformationGradient dt (s.particleVelGrad obj p)
    (s.particleAt obj p).deformationGradient = _
  unfold Solver.updateDeformationGradient
  by_cases hdet : 0 < (Mat2.identityMatrix + dt • s.particleVelGrad obj p).det
  · rw [if_pos hdet, if_pos hdet]
  · rw [if_neg hdet, if_neg hdet]
    rw [Mat2.smul_mul_smul_m, Mat2.smul_smul_m]

namespace Solver

/-- `enrichCornerStep` changes only the enrichment flags of its object's row,
and keeps all array lengths. -/
theorem enrichCornerStep_fields (obj p : Nat) (w : Solver) (c : Nat) :
    (enrichCornerStep obj p w c).particles = w.particles ∧
    (enrichCornerStep obj p w c).particleDomainMesh = w.particleDomainMesh ∧
    (enrichCornerStep obj p w c).enrichCriteria = w.enrichCriteria ∧
    (enrichCornerStep obj p w c).isEnrichedDomainCorner.length
      = w.isEnrichedDomainCorner.length ∧
    (∀ o, o ≠ obj → (enrichCornerStep obj p w c).isEnrichedDomainCorner.getD o []
      = w.isEnrichedDomainCorner.getD o []) ∧
    ((enrichCornerStep obj p w c).isEnrichedDomainCorner.getD obj []).length
      = (w.isEnrichedDomainCorner.getD obj []).length := by
  refine ⟨rfl, rfl, rfl, ?_, ?_, ?_⟩
  · simp [enrichCornerStep]
  · intro o ho
    exact row_set2_ne _ _ _ _ _ ho
  · exact row_length_set2_self _ _ _ _

/-- Flag characterization of one corner-marking step. -/
theorem get2_enrichCornerStep (obj p : Nat) (w : Solver) (c g : Nat)
    (hg : (w.meshOf obj).eleVertIndex p c < (w.isEnrichedDomainCorner.getD obj []).length) :
    (get2 (enrichCornerStep obj p w c).isEnrichedDomainCorner obj g false = true ↔
      (get2 w.isEnrichedDomainCorner obj g false = true ∨
        (w.meshOf obj).eleVertIndex p c = g)) := by
  by_cases hcg : (w.meshOf obj).eleVertIndex p c = g
  · subst hcg
    unfold enrichCornerStep
    rw [get2_set2_self _ _ _ _ _ hg]
    simp
  · unfold enrichCornerStep
    rw [get2_set2_ne_col _ _ _ _ _ _ (fun he => hcg he.symm)]
    simp [hcg]

/-- Flag characterization of the corner-marking fold over a corner list. -/
theorem get2_enrichCornersFold (obj p : Nat) (cs : List Nat) :
    ∀ w : Solver,
      (∀ c ∈ cs, (w.meshOf obj).eleVertIndex p c
        < (w.isEnrichedDomainCorner.getD obj []).length) →
      ∀ g,
      (get2 (cs.foldl (enrichCornerStep obj p) w).isEnrichedDomainCorner obj g false = true ↔
        (get2 w.isEnrichedDomainCorner obj g false = true ∨
          ∃ c ∈ cs, (w.meshOf obj).eleVertIndex p c = g)) := by
  induction cs with
  | nil => intro w _ g; simp
  | cons c cs ih =>
    intro w hcs g
    have hf := enrichCornerStep_fields obj p w c
    have hmesh : (enrichCornerStep obj p w c).particleDomainMesh = w.particleDomainMesh :=
      hf.2.1
    have hmesh2 : (enrichCornerStep obj p w c).meshOf obj = w.meshOf obj := by
      unfold meshOf
      rw [hmesh]
    have hlen : ((enrichCornerStep obj p w c).isEnrichedDomainCorner.getD obj []).length
        = (w.isEnrichedDomainCorner.getD obj []).length := hf.2.2.2.2.2
    simp only [List.foldl_cons]
    rw [ih (enrichCornerStep obj p w c)
      (fun c2 hc2 => by rw [hmesh2, hlen]; exact hcs c2 (List.mem_cons_of_mem _ hc2)) g]
    rw [get2_enrichCornerStep obj p w c g (hcs c (List.mem_cons_self _ _))]
    constructor
    · rintro ((h1 | h1) | ⟨c2, hc2, h2⟩)
      · exact Or.inl h1
      · exact Or.inr ⟨c, List.mem_cons_self _ _, h1⟩
      · rw [hmesh2] at h2
        exact Or.inr ⟨c2, List.mem_cons_of_mem _ hc2, h2⟩
    · rintro (h1 | ⟨c2, hc2, h2⟩)
      · exact Or.inl (Or.inl h1)
      · rcases List.mem_cons.mp hc2 with h3 | h3
        · subst h3
          exact Or.inl (Or.inr h2)
        · exact Or.inr ⟨c2, h3, by rw [hmesh2]; exact h2⟩

/-- `enrichParticleCorners` field preservation. -/
theorem enrichParticleCorners_fields (s : Solver) (obj p : Nat) :
    (s.enrichParticleCorners obj p).particles = s.particles ∧
    (s.enrichParticleCorners obj p).particleDomainMesh = s.particleDomainMesh ∧
    (s.enrichParticleCorners obj p).enrichCriteria = s.enrichCriteria ∧
    (s.enrichParticleCorners obj p).isEnrichedDomainCorner.length
      = s.isEnrichedDomainCorner.length ∧
    (∀ o, o ≠ obj → (s.enrichParticleCorners obj p).isEnrichedDomainCorner.getD o []
      = s.isEnrichedDomainCorner.getD o []) ∧
    ((s.enrichParticleCorners obj p).isEnrichedDomainCorner.getD obj []).length
      = (s.isEnrichedDomainCorner.getD obj []).length := by
  unfold enrichParticleCorners
  refine foldl_invariant (fun t =>
    t.particles = s.particles ∧
    t.particleDomainMesh = s.particleDomainMesh ∧
    t.enrichCriteria = s.enrichCriteria ∧
    t.isEnrichedDomainCorner.length = s.isEnrichedDomainCorner.length ∧
    (∀ o, o ≠ obj → t.isEnrichedDomainCorner.getD o []
      = s.isEnrichedDomainCorner.getD o []) ∧
    (t.isEnrichedDomainCorner.getD obj []).length
      = (s.isEnrichedDomainCorner.getD obj []).length)
    (enrichCornerStep obj p) (List.range ((s.meshOf obj).eleVertNum p)) s
    ⟨rfl, rfl, rfl, rfl, fun _ _ => rfl, rfl⟩ ?_
  intro w c _ hw
  have hf := enrichCornerStep_fields obj p w c
  refine ⟨hf.1.trans hw.1, hf.2.1.trans hw.2.1, hf.2.2.1.trans hw.2.2.1,
    hf.2.2.2.1.trans hw.2.2.2.1, ?_, hf.2.2.2.2.2.trans hw.2.2.2.2.2⟩
  intro o ho
  exact (hf.2.2.2.2.1 o ho).trans (hw.2.2.2.2.1 o ho)

/-- Flag characterization of `enrichParticleCorners`: a corner of object
`obj` is enriched afterwards iff it was before or it is one of the 4 corners
of particle `p`. -/
theorem get2_enrichParticleCorners (s : Solver) (obj p g : Nat)
    (hidx : ∀ c < 4, (s.meshOf obj).eleVertIndex p c
      < (s.isEnrichedDomainCorner.getD obj []).length) :
    (get2 (s.enrichParticleCorners obj p).isEnrichedDomainCorner obj g false = true ↔
      (get2 s.isEnrichedDomainCorner obj g false = true ∨
        ∃ c < 4, (s.meshOf obj).eleVertIndex p c = g)) := by
  unfold enrichParticleCorners
  have h4 : (s.meshOf obj).eleVertNum p = 4 := rfl
  rw [h4]
  rw [get2_enrichCornersFold obj p (List.range 4) s
    (fun c hc => hidx c (List.mem_range.mp hc)) g]
  constructor
  · rintro (h | ⟨c, hc, h⟩)
    · exact Or.inl h
    · exact Or.inr ⟨c, List.mem_range.mp hc, h⟩
  · rintro (h | ⟨c, hc, h⟩)
    · exact Or.inl h
    · exact Or.inr ⟨c, List.mem_range.mpr hc, h⟩

/-- `enrichParticleStep` field preservation. -/
theorem enrichParticleStep_fields (obj : Nat) (u : Solver) (p : Nat) :
    (enrichParticleStep obj u p).particles = u.particles ∧
    (enrichParticleStep obj u p).particleDomainMesh = u.particleDomainMesh ∧
    (enrichParticleStep obj u p).enrichCriteria = u.enrichCriteria ∧
    (enrichParticleStep obj u p).isEnrichedDomainCorner.length
      = u.isEnrichedDomainCorner.length ∧
    (∀ o, o ≠ obj → (enrichParticleStep obj u p).isEnrichedDomainCorner.getD o []
      = u.isEnrichedDomainCorner.getD o []) ∧
    ((enrichParticleStep obj u p).isEnrichedDomainCorner.getD obj []).length
      = (u.isEnrichedDomainCorner.getD obj []).length := by
  unfold enrichParticleStep
  by_cases hc : u.enrichCriteria obj p
  · rw [if_pos hc]
    exact enrichParticleCorners_fields u obj p
  · rw [if_neg hc]
    exact ⟨rfl, rfl, rfl, rfl, fun _ _ => rfl, rfl⟩

/-- Flag characterization of the per-object particle fold. -/
theorem get2_enrichParticlesFold (s : Solver) (obj : Nat) (ps : List Nat) :
    ∀ u : Solver, u.particleDomainMesh = s.particleDomainMesh →
      u.enrichCriteria = s.enrichCriteria →
      (u.isEnrichedDomainCorner.getD obj []).length
        = (s.isEnrichedDomainCorner.getD obj []).length →
      (∀ p ∈ ps, ∀ c < 4, (s.meshOf obj).eleVertIndex p c
        < (s.isEnrichedDomainCorner.getD obj []).length) →
      ∀ g,
      (get2 (ps.foldl (enrichParticleStep obj) u).isEnrichedDomainCorner obj g false = true ↔
        (get2 u.isEnrichedDomainCorner obj g false = true ∨
          ∃ p ∈ ps, s.enrichCriteria obj p = true ∧
            ∃ c < 4, (s.meshOf obj).eleVertIndex p c = g)) := by
  induction ps with
  | nil => intro u _ _ _ _ g; simp
  | cons p ps ih =>
    intro u hmesh hcrit hlen hps g
    have hmeshOf : u.meshOf obj = s.meshOf obj := by
      unfold meshOf
      rw [hmesh]
    have hf := enrichParticleStep_fields obj u p
    simp only [List.foldl_cons]
    rw [ih (enrichParticleStep obj u p) (hf.2.1.trans hmesh) (hf.2.2.1.trans hcrit)
      (hf.2.2.2.2.2.trans hlen)
      (fun p2 hp2 => hps p2 (List.mem_cons_of_mem _ hp2)) g]
    have hstep : get2 (enrichParticleStep obj u p).isEnrichedDomainCorner obj g false = true ↔
        (get2 u.isEnrichedDomainCorner obj g false = true ∨
          (s.enrichCriteria obj p = true ∧
            ∃ c < 4, (s.meshOf obj).eleVertIndex p c = g)) := by
      unfold enrichParticleStep
      by_cases hc : u.enrichCriteria obj p
      · rw [if_pos hc]
        rw [get2_enrichParticleCorners u obj p g
          (by rw [hmeshOf, hlen]; exact hps p (List.mem_cons_self _ _))]
        rw [hmeshOf]
        rw [hcrit] at hc
        simp [hc]
      · rw [if_neg hc]
        rw [hcrit] at hc
        simp [hc]
    rw [hstep]
    constructor
    · rintro ((h | h) | ⟨p2, hp2, h⟩)
      · exact Or.inl h
      · exact Or.inr ⟨p, List.mem_cons_self _ _, h⟩
      · exact Or.inr ⟨p2, List.mem_cons_of_mem _ hp2, h⟩
    · rintro (h | ⟨p2, hp2, h⟩)
      · exact Or.inl (Or.inl h)
      · rcases List.mem_cons.mp hp2 with h3 | h3
        · subst h3
          exact Or.inl (Or.inr h)
        · exact Or.inr ⟨p2, h3, h⟩

/-- `enrichObjectStep` field preservation (including rows of other objects). -/
theorem enrichObjectStep_fields (t : Solver) (obj : Nat) :
    (enrichObjectStep t obj).particles = t.particles ∧
    (enrichObjectStep t obj).particleDomainMesh = t.particleDomainMesh ∧
    (enrichObjectStep t obj).enrichCriteria = t.enrichCriteria ∧
    (enrichObjectStep t obj).isEnrichedDomainCorner.length
      = t.isEnrichedDomainCorner.length ∧
    (∀ o, o ≠ obj → (enrichObjectStep t obj).isEnrichedDomainCorner.getD o []
      = t.isEnrichedDomainCorner.getD o []) ∧
    ((enrichObjectStep t obj).isEnrichedDomainCorner.getD obj []).length
      = (t.isEnrichedDomainCorner.getD obj []).length := by
  unfold enrichObjectStep
  refine foldl_invariant (fun u =>
    u.particles = t.particles ∧
    u.particleDomainMesh = t.particleDomainMesh ∧
    u.enrichCriteria = t.enrichCriteria ∧
    u.isEnrichedDomainCorner.length = t.isEnrichedDomainCorner.length ∧
    (∀ o, o ≠ obj → u.isEnrichedDomainCorner.getD o []
      = t.isEnrichedDomainCorner.getD o []) ∧
    (u.isEnrichedDomainCorner.getD obj []).length
      = (t.isEnrichedDomainCorner.getD obj []).length)
    (enrichParticleStep obj) (List.range (t.particleNumOfObject obj)) t
    ⟨rfl, rfl, rfl, rfl, fun _ _ => rfl, rfl⟩ ?_
  intro u p _ hu
  have hf := enrichParticleStep_fields obj u p
  refine ⟨hf.1.trans hu.1, hf.2.1.trans hu.2.1, hf.2.2.1.trans hu.2.2.1,
    hf.2.2.2.1.trans hu.2.2.2.1, ?_, hf.2.2.2.2.2.trans hu.2.2.2.2.2⟩
  intro o ho
  exact (hf.2.2.2.2.1 o ho).trans (hu.2.2.2.2.1 o ho)

/-- Flag characterization of the fold over an object list. -/
theorem get2_enrichObjectsFold (s : Solver) (obj : Nat) (os : List Nat) :
    ∀ t : Solver, t.particles = s.particles →
      t.particleDomainMesh = s.particleDomainMesh →
      t.enrichCriteria = s.enrichCriteria →
      (t.isEnrichedDomainCorner.getD obj []).length
        = (s.isEnrichedDomainCorner.getD obj []).length →
      (∀ p < s.particleNumOfObject obj, ∀ c < 4, (s.meshOf obj).eleVertIndex p c
        < (s.isEnrichedDomainCorner.getD obj []).length) →
      ∀ g,
      (get2 (os.foldl enrichObjectStep t).isEnrichedDomainCorner obj g false = true ↔
        (get2 t.isEnrichedDomainCorner obj g false = true ∨
          (obj ∈ os ∧ cornerEnrichRequested s obj g))) := by
  induction os with
  | nil => intro t _ _ _ _ _ g; simp
  | cons o os ih =>
    intro t hpart hmesh hcrit hlen hidx g
    have hf := enrichObjectStep_fields t o
    simp only [List.foldl_cons]
    rw [ih (enrichObjectStep t o) (hf.1.trans hpart) (hf.2.1.trans hmesh)
      (hf.2.2.1.trans hcrit)
      (by
        by_cases ho : o = obj
        · subst ho
          exact hf.2.2.2.2.2.trans hlen
        · rw [hf.2.2.2.2.1 obj (fun he => ho he.symm)]
          exact hlen)
      hidx g]
    by_cases ho : o = obj
    · subst ho
      have hstep : get2 (enrichObjectStep t o).isEnrichedDomainCorner o g false = true ↔
          (get2 t.isEnrichedDomainCorner o g false = true ∨ cornerEnrichRequested s o g) := by
        unfold enrichObjectStep
        have hpn : t.particleNumOfObject o = s.particleNumOfObject o := by
          unfold particleNumOfObject
          rw [hpart]
        rw [hpn]
        rw [get2_enrichParticlesFold s o (List.range (s.particleNumOfObject o)) t hmesh
          hcrit hlen (fun p hp => hidx p (List.mem_range.mp hp)) g]
        unfold cornerEnrichRequested
        constructor
        · rintro (h | ⟨p, hp, h⟩)
          · exact Or.inl h
          · exact Or.inr ⟨p, List.mem_range.mp hp, h⟩
        · rintro (h | ⟨p, hp, h⟩)
          · exact Or.inl h
          · exact Or.inr ⟨p, List.mem_range.mpr hp, h⟩
      rw [hstep]
      constructor
      · rintro ((h | h) | ⟨_, h⟩)
        · exact Or.inl h
        · exact Or.inr ⟨List.mem_cons_self _ _, h⟩
        · exact Or.inr ⟨List.mem_cons_self _ _, h⟩
      · rintro (h | ⟨_, h⟩)
        · exact Or.inl (Or.inl h)
        · exact Or.inl (Or.inr h)
    · have hrow : get2 (enrichObjectStep t o).isEnrichedDomainCorner obj g false
          = get2 t.isEnrichedDomainCorner obj g false := by
        unfold get2
        rw [hf.2.2.2.2.1 obj (fun he => ho he.symm)]
      rw [hrow]
      constructor
      · rintro (h | ⟨hmem, h⟩)
        · exact Or.inl h
        · exact Or.inr ⟨List.mem_cons_of_mem _ hmem, h⟩
      · rintro (h | ⟨hmem, h⟩)
        · exact Or.inl h
        · rcases List.mem_cons.mp hmem with h3 | h3
          · exact absurd h3.symm ho
          · exact Or.inr ⟨h3, h⟩

/-- Flag characterization of `updateParticleDomainEnrichState`. -/
theorem get2_updateParticleDomainEnrichState (s : Solver) (obj g : Nat)
    (hobj : obj < s.objectNum)
    (hidx : ∀ p < s.particleNumOfObject obj, ∀ c < 4, (s.meshOf obj).eleVertIndex p c
      < (s.isEnrichedDomainCorner.getD obj []).length) :
    (get2 (s.updateParticleDomainEnrichState).isEnrichedDomainCorner obj g false = true ↔
      (get2 s.isEnrichedDomainCorner obj g false = true ∨ cornerEnrichRequested s obj g)) := by
  unfold updateParticleDomainEnrichState
  rw [get2_enrichObjectsFold s obj (List.range s.objectNum) s rfl rfl rfl rfl hidx g]
  simp [List.mem_range.mpr hobj]

/-- The fields `resetParticleDomainData` never touches. -/
theorem resetParticleDomainData_base (s : Solver) :
    (s.resetParticleDomainData).particles = s.particles ∧
    (s.resetParticleDomainData).particleDomainMesh = s.particleDomainMesh ∧
    (s.resetParticleDomainData).enrichCriteria = s.enrichCriteria ∧
    (s.resetParticleDomainData).gridMass = s.gridMass ∧
    (s.resetParticleDomainData).gridVelocity = s.gridVelocity ∧
    (s.resetParticleDomainData).gridVelocityBefore = s.gridVelocityBefore ∧
    (s.resetParticleDomainData).gridNodes = s.gridNodes ∧
    (s.resetParticleDomainData).particleGridWeightAndGradient
      = s.particleGridWeightAndGradient ∧
    (s.resetParticleDomainData).particleCornerWeight = s.particleCornerWeight ∧
    (s.resetParticleDomainData).particleCornerGradient = s.particleCornerGradient ∧
    (s.resetParticleDomainData).isDirichletGridNode = s.isDirichletGridNode ∧
    (s.resetParticleDomainData).hasContactMethod = s.hasContactMethod ∧
    (s.resetParticleDomainData).activeGridNode = s.activeGridNode ∧
    (s.resetParticleDomainData).isEnrichedDomainCorner.length
      = s.isEnrichedDomainCorner.length ∧
    (s.resetParticleDomainData).domainCornerMass.length = s.domainCornerMass.length := by
  unfold resetParticleDomainData
  refine foldl_invariant (fun t =>
    t.particles = s.particles ∧
    t.particleDomainMesh = s.particleDomainMesh ∧
    t.enrichCriteria = s.enrichCriteria ∧
    t.gridMass = s.gridMass ∧
    t.gridVelocity = s.gridVelocity ∧
    t.gridVelocityBefore = s.gridVelocityBefore ∧
    t.gridNodes = s.gridNodes ∧
    t.particleGridWeightAndGradient = s.particleGridWeightAndGradient ∧
    t.particleCornerWeight = s.particleCornerWeight ∧
    t.particleCornerGradient = s.particleCornerGradient ∧
    t.isDirichletGridNode = s.isDirichletGridNode ∧
    t.hasContactMethod = s.hasContactMethod ∧
    t.activeGridNode = s.activeGridNode ∧
    t.isEnrichedDomainCorner.length = s.isEnrichedDomainCorner.length ∧
    t.domainCornerMass.length = s.domainCornerMass.length)
    resetDomainDataStep (List.range s.objectNum) s
    ⟨rfl, rfl, rfl, rfl, rfl, rfl, rfl, rfl, rfl, rfl, rfl, rfl, rfl, rfl, rfl⟩ ?_
  intro t o _ ht
  refine ⟨ht.1, ht.2.1, ht.2.2.1, ht.2.2.2.1, ht.2.2.2.2.1, ht.2.2.2.2.2.1,
    ht.2.2.2.2.2.2.1, ht.2.2.2.2.2.2.2.1, ht.2.2.2.2.2.2.2.2.1,
    ht.2.2.2.2.2.2.2.2.2.1, ht.2.2.2.2.2.2.2.2.2.2.1,
    ht.2.2.2.2.2.2.2.2.2.2.2.1, ht.2.2.2.2.2.2.2.2.2.2.2.2.1, ?_, ?_⟩
  · show (resetDomainDataStep t o).isEnrichedDomainCorner.length = _
    unfold resetDomainDataStep
    simpa using ht.2.2.2.2.2.2.2.2.2.2.2.2.2.1
  · show (resetDomainDataStep t o).domainCornerMass.length = _
    unfold resetDomainDataStep
    simpa using ht.2.2.2.2.2.2.2.2.2.2.2.2.2.2

/-- The four per-corner rows a `resetDomainDataStep` writes. -/
theorem resetDomainDataStep_row_self (t : Solver) (o : Nat) :
    (resetDomainDataStep t o).isEnrichedDomainCorner.getD o []
      = resetRange (t.isEnrichedDomainCorner.getD o []) ((t.meshOf o).vertNum) false ∧
    (resetDomainDataStep t o).domainCornerMass.getD o []
      = resetRange (t.domainCornerMass.getD o []) ((t.meshOf o).vertNum) 0 ∧
    (resetDomainDataStep t o).domainCornerVelocity.getD o []
      = resetRange (t.domainCornerVelocity.getD o []) ((t.meshOf o).vertNum) Vec2.zero ∧
    (resetDomainDataStep t o).domainCornerVelocityBefore.getD o []
      = resetRange (t.domainCornerVelocityBefore.getD o []) ((t.meshOf o).vertNum) Vec2.zero := by
  unfold resetDomainDataStep
  exact ⟨getD_set_row _ _ (fun r => resetRange r _ false) (by simp),
    getD_set_row _ _ (fun r => resetRange r _ 0) (by simp),
    getD_set_row _ _ (fun r => resetRange r _ Vec2.zero) (by simp),
    getD_set_row _ _ (fun r => resetRange r _ Vec2.zero) (by simp)⟩

/-- Rows of objects other than the one being reset are untouched. -/
theorem resetDomainDataStep_row_ne (t : Solver) (o o2 : Nat) (h : o2 ≠ o) :
    (resetDomainDataStep t o).isEnrichedDomainCorner.getD o2 []
      = t.isEnrichedDomainCorner.getD o2 [] ∧
    (resetDomainDataStep t o).domainCornerMass.getD o2 []
      = t.domainCornerMass.getD o2 [] ∧
    (resetDomainDataStep t o).domainCornerVelocity.getD o2 []
      = t.domainCornerVelocity.getD o2 [] ∧
    (resetDomainDataStep t o).domainCornerVelocityBefore.getD o2 []
      = t.domainCornerVelocityBefore.getD o2 [] := by
  unfold resetDomainDataStep
  exact ⟨getD_set_ne _ _ _ _ _ (fun he => h he.symm),
    getD_set_ne _ _ _ _ _ (fun he => h he.symm),
    getD_set_ne _ _ _ _ _ (fun he => h he.symm),
    getD_set_ne _ _ _ _ _ (fun he => h he.symm)⟩

/-- Rows of an object not in the processed list are untouched by the reset
fold. -/
theorem resetFold_row_notmem (os : List Nat) (obj : Nat) (hobj : obj ∉ os) :
    ∀ t : Solver,
      ((os.foldl resetDomainDataStep t).isEnrichedDomainCorner.getD obj []
        = t.isEnrichedDomainCorner.getD obj [] ∧
      (os.foldl resetDomainDataStep t).domainCornerMass.getD obj []
        = t.domainCornerMass.getD obj [] ∧
      (os.foldl resetDomainDataStep t).domainCornerVelocity.getD obj []
        = t.domainCornerVelocity.getD obj [] ∧
      (os.foldl resetDomainDataStep t).domainCornerVelocityBefore.getD obj []
        = t.domainCornerVelocityBefore.getD obj []) := by
  induction os with
  | nil => intro t; exact ⟨rfl, rfl, rfl, rfl⟩
  | cons o os ih =>
    intro t
    have ho : obj ≠ o := fun he => hobj (he ▸ List.mem_cons_self _ _)
    have hrest := ih (fun hm => hobj (List.mem_cons_of_mem _ hm)) (resetDomainDataStep t o)
    have hstep := resetDomainDataStep_row_ne t o obj ho
    exact ⟨hrest.1.trans hstep.1, hrest.2.1.trans hstep.2.1,
      hrest.2.2.1.trans hstep.2.2.1, hrest.2.2.2.trans hstep.2.2.2⟩

/-- `resetDomainDataStep` leaves the mesh untouched. -/
theorem resetDomainDataStep_mesh (t : Solver) (o : Nat) :
    (resetDomainDataStep t o).particleDomainMesh = t.particleDomainMesh := rfl

/-- The per-corner rows of one object after `resetParticleDomainData`. -/
theorem rows_resetParticleDomainData (s : Solver) (obj : Nat)
    (hobj : obj < s.objectNum) :
    (s.resetParticleDomainData).isEnrichedDomainCorner.getD obj []
      = resetRange (s.isEnrichedDomainCorner.getD obj []) ((s.meshOf obj).vertNum) false ∧
    (s.resetParticleDomainData).domainCornerMass.getD obj []
      = resetRange (s.domainCornerMass.getD obj []) ((s.meshOf obj).vertNum) 0 ∧
    (s.resetParticleDomainData).domainCornerVelocity.getD obj []
      = resetRange (s.domainCornerVelocity.getD obj []) ((s.meshOf obj).vertNum) Vec2.zero ∧
    (s.resetParticleDomainData).domainCornerVelocityBefore.getD obj []
      = resetRange (s.domainCornerVelocityBefore.getD obj [])
          ((s.meshOf obj).vertNum) Vec2.zero := by
  unfold resetParticleDomainData
  have main : ∀ os : List Nat, os.Nodup → obj ∈ os →
      ∀ t : Solver, t.particleDomainMesh = s.particleDomainMesh →
      ((os.foldl resetDomainDataStep t).isEnrichedDomainCorner.getD obj []
        = resetRange (t.isEnrichedDomainCorner.getD obj []) ((s.meshOf obj).vertNum) false ∧
      (os.foldl resetDomainDataStep t).domainCornerMass.getD obj []
        = resetRange (t.domainCornerMass.getD obj []) ((s.meshOf obj).vertNum) 0 ∧
      (os.foldl resetDomainDataStep t).domainCornerVelocity.getD obj []
        = resetRange (t.domainCornerVelocity.getD obj []) ((s.meshOf obj).vertNum) Vec2.zero ∧
      (os.foldl resetDomainDataStep t).domainCornerVelocityBefore.getD obj []
        = resetRange (t.domainCornerVelocityBefore.getD obj [])
            ((s.meshOf obj).vertNum) Vec2.zero) := by
    intro os
    induction os with
    | nil => intro _ hmem; cases hmem
    | cons o os ih =>
      intro hnd hmem t hmesh
      have hmeshOf : t.meshOf obj = s.meshOf obj := by
        unfold meshOf
        rw [hmesh]
      by_cases ho : o = obj
      · subst ho
        have hnotin : o ∉ os := (List.nodup_cons.mp hnd).1
        have hrest := resetFold_row_notmem os o hnotin (resetDomainDataStep t o)
        have hstep := resetDomainDataStep_row_self t o
        rw [hmeshOf] at hstep
        exact ⟨hrest.1.trans hstep.1, hrest.2.1.trans hstep.2.1,
          hrest.2.2.1.trans hstep.2.2.1, hrest.2.2.2.trans hstep.2.2.2⟩
      · have hstep := resetDomainDataStep_row_ne t o obj (fun he => ho he.symm)
        have hrec := ih (List.nodup_cons.mp hnd).2
          (by rcases List.mem_cons.mp hmem with h | h
              · exact absurd h.symm ho
              · exact h)
          (resetDomainDataStep t o) ((resetDomainDataStep_mesh t o).trans hmesh)
        simp only [List.foldl_cons]
        rw [hrec.1, hrec.2.1, hrec.2.2.1, hrec.2.2.2, hstep.1, hstep.2.1,
          hstep.2.2.1, hstep.2.2.2]
        exact ⟨rfl, rfl, rfl, rfl⟩
  exact main (List.range s.objectNum) (List.nodup_range _)
    (List.mem_range.mpr hobj) s rfl

/-- `cornerEnrichRequested` depends only on particles, mesh and criterion. -/
theorem cornerEnrichRequested_congr (s t : Solver) (obj g : Nat)
    (hp : t.particles = s.particles) (hm : t.particleDomainMesh = s.particleDomainMesh)
    (hc : t.enrichCriteria = s.enrichCriteria) :
    cornerEnrichRequested t obj g ↔ cornerEnrichRequested s obj g := by
  unfold cornerEnrichRequested particleNumOfObject meshOf
  rw [hp, hm, hc]

/-- Chaining flag-only record updates. -/
theorem flags_update_trans {s w : Solver} (x : List (List Bool))
    (hu : w = { s with isEnrichedDomainCorner := w.isEnrichedDomainCorner }) :
    ({ w with isEnrichedDomainCorner := x })
      = { s with isEnrichedDomainCorner := x } := by
  rw [hu]

theorem enrichCornerStep_eq (obj p : Nat) (w : Solver) (c : Nat) :
    enrichCornerStep obj p w c
      = { w with isEnrichedDomainCorner := (enrichCornerStep obj p w c).isEnrichedDomainCorner } :=
  rfl

theorem enrichParticleCorners_eq (w : Solver) (obj p : Nat) :
    w.enrichParticleCorners obj p
      = { w with isEnrichedDomainCorner :=
          (w.enrichParticleCorners obj p).isEnrichedDomainCorner } := by
  unfold enrichParticleCorners
  refine foldl_invariant
    (fun u => u = { w with isEnrichedDomainCorner := u.isEnrichedDomainCorner })
    (enrichCornerStep obj p) (List.range ((w.meshOf obj).eleVertNum p)) w rfl ?_
  intro u c _ hu
  exact (enrichCornerStep_eq obj p u c).trans (flags_update_trans _ hu)

theorem enrichParticleStep_eq (obj : Nat) (u : Solver) (p : Nat) :
    enrichParticleStep obj u p
      = { u with isEnrichedDomainCorner := (enrichParticleStep obj u p).isEnrichedDomainCorner } := by
  unfold enrichParticleStep
  by_cases hc : u.enrichCriteria obj p
  · rw [if_pos hc]
    exact enrichParticleCorners_eq u obj p
  · rw [if_neg hc]

theorem enrichObjectStep_eq (t : Solver) (obj : Nat) :
    enrichObjectStep t obj
      = { t with isEnrichedDomainCorner := (enrichObjectStep t obj).isEnrichedDomainCorner } := by
  unfold enrichObjectStep
  refine foldl_invariant
    (fun u => u = { t with isEnrichedDomainCorner := u.isEnrichedDomainCorner })
    (enrichParticleStep obj) (List.range (t.particleNumOfObject obj)) t rfl ?_
  intro u p _ hu
  exact (enrichParticleStep_eq obj u p).trans (flags_update_trans _ hu)

/-- `updateParticleDomainEnrichState` changes only the enrichment flags. -/
theorem updateParticleDomainEnrichState_eq (s : Solver) :
    s.updateParticleDomainEnrichState =
      { s with isEnrichedDomainCorner :=
          (s.updateParticleDomainEnrichState).isEnrichedDomainCorner } := by
  unfold updateParticleDomainEnrichState
  refine foldl_invariant
    (fun u => u = { s with isEnrichedDomainCorner := u.isEnrichedDomainCorner })
    enrichObjectStep (List.range s.objectNum) s rfl ?_
  intro u o _ hu
  exact (enrichObjectStep_eq u o).trans (flags_update_trans _ hu)

/-- Chaining corner-mass/velocity record updates. -/
theorem cornerMV_update_trans {s w : Solver} (m : List (List ℚ)) (v : List (List Vec2))
    (hu : w = { s with
      domainCornerMass := w.domainCornerMass,
      domainCornerVelocity := w.domainCornerVelocity }) :
    ({ w with domainCornerMass := m, domainCornerVelocity := v })
      = { s with domainCornerMass := m, domainCornerVelocity := v } := by
  rw [hu]

/-- `scatterParticleToCorner` changes only corner mass and velocity. -/
theorem scatterParticleToCorner_eq (s : Solver) (obj p : Nat) :
    s.scatterParticleToCorner obj p
      = { s with
          domainCornerMass := (s.scatterParticleToCorner obj p).domainCornerMass,
          domainCornerVelocity := (s.scatterParticleToCorner obj p).domainCornerVelocity } := by
  unfold scatterParticleToCorner
  refine foldl_invariant (fun t =>
    t = { s with
      domainCornerMass := t.domainCornerMass,
      domainCornerVelocity := t.domainCornerVelocity })
    _ (List.range 4) s rfl ?_
  intro t c _ ht
  unfold scatterCornerStep
  dsimp only
  split
  · exact cornerMV_update_trans _ _ ht
  · exact ht

/-- Chaining corner-velocity/before record updates. -/
theorem cornerVB_update_trans {s w : Solver} (v b : List (List Vec2))
    (hu : w = { s with
      domainCornerVelocity := w.domainCornerVelocity,
      domainCornerVelocityBefore := w.domainCornerVelocityBefore }) :
    ({ w with domainCornerVelocity := v, domainCornerVelocityBefore := b })
      = { s with domainCornerVelocity := v, domainCornerVelocityBefore := b } := by
  rw [hu]

/-- `normalizeCornerVelocity` changes only corner velocity and its snapshot. -/
theorem normalizeCornerVelocity_eq (s : Solver) (obj : Nat) :
    s.normalizeCornerVelocity obj
      = { s with
          domainCornerVelocity := (s.normalizeCornerVelocity obj).domainCornerVelocity,
          domainCornerVelocityBefore :=
            (s.normalizeCornerVelocity obj).domainCornerVelocityBefore } := by
  unfold normalizeCornerVelocity
  refine foldl_invariant (fun t =>
    t = { s with
      domainCornerVelocity := t.domainCornerVelocity,
      domainCornerVelocityBefore := t.domainCornerVelocityBefore })
    _ (List.range ((s.domainCornerMass.getD obj []).length)) s rfl ?_
  intro t c _ ht
  unfold normalizeCornerStep
  dsimp only
  split
  · exact cornerVB_update_trans _ _ ht
  · exact ht

/-- `enrichedCornerNum` depends only on the flags and the mesh. -/
theorem enrichedCornerNum_congr (u t : Solver) (obj p : Nat)
    (hflags : t.isEnrichedDomainCorner = u.isEnrichedDomainCorner)
    (hmesh : t.particleDomainMesh = u.particleDomainMesh) :
    t.enrichedCornerNum obj p = u.enrichedCornerNum obj p := by
  unfold enrichedCornerNum meshOf
  rw [hflags, hmesh]

/-- With the always-true stub criterion, classification leaves every particle
fully enriched. -/
theorem fullyEnriched_updateParticleDomainEnrichState (s : Solver)
    (hcrit : ∀ o p2 : Nat, s.enrichCriteria o p2 = true)
    (hidx : ∀ obj < s.objectNum, ∀ p < s.particleNumOfObject obj, ∀ c < 4,
      (s.meshOf obj).eleVertIndex p c < (s.isEnrichedDomainCorner.getD obj []).length) :
    fullyEnriched (s.updateParticleDomainEnrichState) := by
  intro obj hobj p hp
  have hequ := updateParticleDomainEnrichState_eq s
  have hpart : (s.updateParticleDomainEnrichState).particles = s.particles := by
    rw [hequ]
  have hmesh : (s.updateParticleDomainEnrichState).particleDomainMesh
      = s.particleDomainMesh := by
    rw [hequ]
  have hobj2 : obj < s.objectNum := by
    unfold objectNum at hobj ⊢
    rwa [hpart] at hobj
  have hp2 : p < s.particleNumOfObject obj := by
    unfold particleNumOfObject at hp ⊢
    rwa [hpart] at hp
  have hmeshOf : (s.updateParticleDomainEnrichState).meshOf obj = s.meshOf obj := by
    unfold meshOf
    rw [hmesh]
  have hall : ∀ c < 4,
      get2 (s.updateParticleDomainEnrichState).isEnrichedDomainCorner obj
        ((s.meshOf obj).eleVertIndex p c) false = true := by
    intro c hc
    rw [get2_updateParticleDomainEnrichState s obj _ hobj2 (hidx obj hobj2)]
    exact Or.inr ⟨p, hp2, hcrit obj p, c, hc, rfl⟩
  unfold enrichedCornerNum
  rw [hmeshOf]
  have : (List.range 4).filter (fun c =>
      get2 (s.updateParticleDomainEnrichState).isEnrichedDomainCorner obj
        ((s.meshOf obj).eleVertIndex p c) false) = List.range 4 := by
    apply List.filter_eq_self.mpr
    intro c hc
    exact hall c (List.mem_range.mp hc)
  rw [this]
  simp

/-- On a fully enriched state, the scatter phase never touches the grid:
mass, velocity, snapshots and the active table stay as they were, and the
body state needed by later guards is unchanged. -/
theorem rasterizeScatter_grid_untouched (u : Solver) (hfe : fullyEnriched u) :
    (u.rasterizeScatter).gridMass = u.gridMass ∧
    (u.rasterizeScatter).gridVelocity = u.gridVelocity ∧
    (u.rasterizeScatter).gridVelocityBefore = u.gridVelocityBefore ∧
    (u.rasterizeScatter).activeGridNode = u.activeGridNode ∧
    (u.rasterizeScatter).hasContactMethod = u.hasContactMethod ∧
    (u.rasterizeScatter).particles = u.particles ∧
    (u.rasterizeScatter).particleDomainMesh = u.particleDomainMesh ∧
    (u.rasterizeScatter).isEnrichedDomainCorner = u.isEnrichedDomainCorner ∧
    (u.rasterizeScatter).gridNodes = u.gridNodes := by
  unfold rasterizeScatter
  refine foldl_invariant (fun t =>
    t.gridMass = u.gridMass ∧ t.gridVelocity = u.gridVelocity ∧
    t.gridVelocityBefore = u.gridVelocityBefore ∧ t.activeGridNode = u.activeGridNode ∧
    t.hasContactMethod = u.hasContactMethod ∧ t.particles = u.particles ∧
    t.particleDomainMesh = u.particleDomainMesh ∧
    t.isEnrichedDomainCorner = u.isEnrichedDomainCorner ∧ t.gridNodes = u.gridNodes)
    _ (List.range u.objectNum) u
    ⟨rfl, rfl, rfl, rfl, rfl, rfl, rfl, rfl, rfl⟩ ?_
  intro t obj hobj ht
  have hobjN : obj < u.objectNum := List.mem_range.mp hobj
  have hinner : ∀ t2 : Solver,
      (t2.gridMass = u.gridMass ∧ t2.gridVelocity = u.gridVelocity ∧
       t2.gridVelocityBefore = u.gridVelocityBefore ∧ t2.activeGridNode = u.activeGridNode ∧
       t2.hasContactMethod = u.hasContactMethod ∧ t2.particles = u.particles ∧
       t2.particleDomainMesh = u.particleDomainMesh ∧
       t2.isEnrichedDomainCorner = u.isEnrichedDomainCorner ∧ t2.gridNodes = u.gridNodes) →
      ∀ p < u.particleNumOfObject obj,
      ((t2.scatterParticle obj p).gridMass = u.gridMass ∧
       (t2.scatterParticle obj p).gridVelocity = u.gridVelocity ∧
       (t2.scatterParticle obj p).gridVelocityBefore = u.gridVelocityBefore ∧
       (t2.scatterParticle obj p).activeGridNode = u.activeGridNode ∧
       (t2.scatterParticle obj p).hasContactMethod = u.hasContactMethod ∧
       (t2.scatterParticle obj p).particles = u.particles ∧
       (t2.scatterParticle obj p).particleDomainMesh = u.particleDomainMesh ∧
       (t2.scatterParticle obj p).isEnrichedDomainCorner = u.isEnrichedDomainCorner ∧
       (t2.scatterParticle obj p).gridNodes = u.gridNodes) := by
    intro t2 ht2 p hp
    have hecn : t2.enrichedCornerNum obj p = 4 := by
      rw [enrichedCornerNum_congr u t2 obj p ht2.2.2.2.2.2.2.2.1 ht2.2.2.2.2.2.2.1]
      exact hfe obj hobjN p hp
    have hform : t2.scatterParticle obj p = t2.scatterParticleToCorner obj p := by
      unfold scatterParticle
      rw [hecn]
      norm_num
    rw [hform]
    have heq := scatterParticleToCorner_eq t2 obj p
    refine ⟨?_, ?_, ?_, ?_, ?_, ?_, ?_, ?_, ?_⟩ <;> rw [heq] <;>
      simp only [ht2.1, ht2.2.1, ht2.2.2.1, ht2.2.2.2.1, ht2.2.2.2.2.1,
        ht2.2.2.2.2.2.1, ht2.2.2.2.2.2.2.1, ht2.2.2.2.2.2.2.2.1, ht2.2.2.2.2.2.2.2.2]
  have hpn : t.particleNumOfObject obj = u.particleNumOfObject obj := by
    unfold particleNumOfObject
    rw [ht.2.2.2.2.2.1]
  have hmid := foldl_invariant (fun t2 =>
      t2.gridMass = u.gridMass ∧ t2.gridVelocity = u.gridVelocity ∧
      t2.gridVelocityBefore = u.gridVelocityBefore ∧ t2.activeGridNode = u.activeGridNode ∧
      t2.hasContactMethod = u.hasContactMethod ∧ t2.particles = u.particles ∧
      t2.particleDomainMesh = u.particleDomainMesh ∧
      t2.isEnrichedDomainCorner = u.isEnrichedDomainCorner ∧ t2.gridNodes = u.gridNodes)
    (fun t2 p => t2.scatterParticle obj p) (List.range (t.particleNumOfObject obj)) t ht
    (fun t2 p hpmem ht2 => hinner t2 ht2 p (by
      rw [hpn] at hpmem
      exact List.mem_range.mp hpmem))
  have hnorm := normalizeCornerVelocity_eq
    ((List.range (t.particleNumOfObject obj)).foldl (fun t2 p => t2.scatterParticle obj p) t) obj
  refine ⟨?_, ?_, ?_, ?_, ?_, ?_, ?_, ?_, ?_⟩ <;> rw [hnorm] <;>
    simp only [hmid.1, hmid.2.1, hmid.2.2.1, hmid.2.2.2.1, hmid.2.2.2.2.1,
      hmid.2.2.2.2.2.1, hmid.2.2.2.2.2.2.1, hmid.2.2.2.2.2.2.2.1, hmid.2.2.2.2.2.2.2.2]

/-- Chaining corner-velocity-only record updates. -/
theorem cornerV_update_trans {s w : Solver} (v : List (List Vec2))
    (hu : w = { s with domainCornerVelocity := w.domainCornerVelocity }) :
    ({ w with domainCornerVelocity := v })
      = { s with domainCornerVelocity := v } := by
  rw [hu]

/-- `solveCornerStep` changes only corner velocities. -/
theorem solveCornerStep_eq (dt : ℚ) (obj p : Nat) (t : Solver) (c : Nat) :
    solveCornerStep dt obj p t c
      = { t with domainCornerVelocity := (solveCornerStep dt obj p t c).domainCornerVelocity } := by
  unfold solveCornerStep
  dsimp only
  split
  · split
    · rfl
    · rfl
  · rfl

/-- `applyGravityOnEnrichedDomainCorner` changes only corner velocities. -/
theorem applyGravityOnEnrichedDomainCorner_eq (s : Solver) (dt : ℚ) :
    s.applyGravityOnEnrichedDomainCorner dt
      = { s with domainCornerVelocity :=
          (s.applyGravityOnEnrichedDomainCorner dt).domainCornerVelocity } := by
  unfold applyGravityOnEnrichedDomainCorner
  refine foldl_invariant
    (fun t => t = { s with domainCornerVelocity := t.domainCornerVelocity })
    _ (List.range s.objectNum) s rfl ?_
  intro t obj _ ht
  dsimp only
  refine foldl_invariant
    (fun t2 => t2 = { s with domainCornerVelocity := t2.domainCornerVelocity })
    _ (List.range ((t.domainCornerVelocity.getD obj []).length)) t ht ?_
  intro t2 c _ ht2
  dsimp only
  split
  · exact cornerV_update_trans _ ht2
  · exact ht2

/-- On a fully enriched state, the explicit solve never touches grid
velocities (the grid branch is skipped for every particle). -/
theorem solveOnGridForwardEuler_grid_untouched (u : Solver) (dt : ℚ)
    (hfe : fullyEnriched u) :
    (u.solveOnGridForwardEuler dt).gridVelocity = u.gridVelocity ∧
    (u.solveOnGridForwardEuler dt).gridMass = u.gridMass := by
  unfold solveOnGridForwardEuler
  have hmain := foldl_invariant (fun t =>
      t.gridVelocity = u.gridVelocity ∧ t.gridMass = u.gridMass ∧
      t.particles = u.particles ∧ t.particleDomainMesh = u.particleDomainMesh ∧
      t.isEnrichedDomainCorner = u.isEnrichedDomainCorner)
    (fun t obj =>
      (List.range (t.particleNumOfObject obj)).foldl (fun u2 p =>
        let ecn := u2.enrichedCornerNum obj p
        let u1 := if ecn < 4 then (u2.gridPairsOf obj p).foldl (solveGridPairStep dt obj p) u2
          else u2
        if 0 < ecn then (List.range 4).foldl (solveCornerStep dt obj p) u1 else u1) t)
    (List.range u.objectNum) u ⟨rfl, rfl, rfl, rfl, rfl⟩ ?_
  · refine ⟨?_, ?_⟩ <;>
      rw [applyGravityOnEnrichedDomainCorner_eq] <;>
      simp only [hmain.1, hmain.2.1]
  · intro t obj hobj ht
    have hobjN : obj < u.objectNum := List.mem_range.mp hobj
    have hpn : t.particleNumOfObject obj = u.particleNumOfObject obj := by
      unfold particleNumOfObject
      rw [ht.2.2.1]
    refine foldl_invariant (fun t2 =>
      t2.gridVelocity = u.gridVelocity ∧ t2.gridMass = u.gridMass ∧
      t2.particles = u.particles ∧ t2.particleDomainMesh = u.particleDomainMesh ∧
      t2.isEnrichedDomainCorner = u.isEnrichedDomainCorner)
      _ (List.range (t.particleNumOfObject obj)) t ht ?_
    intro t2 p hpmem ht2
    have hp : p < u.particleNumOfObject obj := by
      rw [hpn] at hpmem
      exact List.mem_range.mp hpmem
    have hecn : t2.enrichedCornerNum obj p = 4 := by
      rw [enrichedCornerNum_congr u t2 obj p ht2.2.2.2.2 ht2.2.2.2.1]
      exact hfe obj hobjN p hp
    dsimp only
    rw [hecn]
    norm_num
    have hcornerfold := foldl_invariant (fun t3 =>
      t3.gridVelocity = u.gridVelocity ∧ t3.gridMass = u.gridMass ∧
      t3.particles = u.particles ∧ t3.particleDomainMesh = u.particleDomainMesh ∧
      t3.isEnrichedDomainCorner = u.isEnrichedDomainCorner)
      (solveCornerStep dt obj p) (List.range 4) t2 ht2 ?_
    · exact hcornerfold
    · intro t3 c _ ht3
      rw [solveCornerStep_eq]
      exact ⟨ht3.1, ht3.2.1, ht3.2.2.1, ht3.2.2.2.1, ht3.2.2.2.2⟩

/-- On a fully enriched state, the reconstructed velocity gradient is the
corner-only sum (the grid branch contributes nothing). -/
theorem particleVelGrad_cornerOnly (s : Solver) (obj p : Nat)
    (hecn : s.enrichedCornerNum obj p = 4) :
    s.particleVelGrad obj p = s.particleVelGradCornerOnly obj p := by
  unfold particleVelGrad particleVelGradCornerOnly
  rw [hecn]
  norm_num

/-- `updateParticleVelocity` acts pointwise on particles; for a non-Dirichlet
fully enriched particle it writes the corner-only FLIP velocity. -/
theorem particleAt_mapIdxUpdate (s : Solver)
    (f : Nat → Nat → SolidParticle → SolidParticle) (obj p : Nat)
    (hobj : obj < s.objectNum) (hp : p < s.particleNumOfObject obj) :
    (({ s with particles := s.particles.mapIdx (fun o inner => inner.mapIdx (f o)) }
        : Solver).particleAt obj p) = f obj p (s.particleAt obj p) := by
  unfold particleAt
  dsimp only
  rw [getD_mapIdx _ _ obj [] [] hobj]
  rw [getD_mapIdx _ _ p default default hp]

theorem updateParticleVelocity_cornerOnly (s : Solver) (obj p : Nat)
    (hobj : obj < s.objectNum) (hp : p < s.particleNumOfObject obj)
    (hd : get2 s.isDirichletParticle obj p false = false)
    (hecn : s.enrichedCornerNum obj p = 4) :
    ((s.updateParticleVelocity).particleAt obj p).velocity
      = s.flipVelocityCornerOnly obj p := by
  have key : (s.updateParticleVelocity).particleAt obj p
      = s.velocityBody obj p (s.particleAt obj p) :=
    particleAt_mapIdxUpdate s s.velocityBody obj p hobj hp
  rw [key]
  unfold velocityBody
  rw [hd, hecn]
  norm_num
  rfl

/-- With the always-true stub criterion, `rasterize` leaves the grid
completely untouched: every node's mass map stays empty (as `resetGridData`
left it) and the active-node table stays empty, because every particle's
grid branch is skipped. -/
theorem rasterize_grid_empty (s : Solver)
    (hcrit : ∀ o p2 : Nat, s.enrichCriteria o p2 = true)
    (hidx : ∀ obj < s.objectNum, ∀ p < s.particleNumOfObject obj, ∀ c < 4,
      (s.meshOf obj).eleVertIndex p c < (s.isEnrichedDomainCorner.getD obj []).length) :
    (∀ n, (s.rasterize).gridMass n = []) ∧ (s.rasterize).activeGridNode = [] := by
  have hbase2 := resetParticleDomainData_base (s.resetGridData)
  have henr := updateParticleDomainEnrichState_eq ((s.resetGridData).resetParticleDomainData)
  set s2 := (s.resetGridData).resetParticleDomainData with hs2
  set s3 := s2.updateParticleDomainEnrichState with hs3
  have hs2crit : s2.enrichCriteria = s.enrichCriteria := hbase2.2.2.1
  have hs2part : s2.particles = s.particles := hbase2.1
  have hs2mesh : s2.particleDomainMesh = s.particleDomainMesh := hbase2.2.1
  have hfe : fullyEnriched s3 := by
    apply fullyEnriched_updateParticleDomainEnrichState s2
    · intro o p2
      rw [hs2crit]
      exact hcrit o p2
    · intro obj hobj p hp c hc
      have hobjS : obj < s.objectNum := by
        unfold Solver.objectNum at hobj ⊢
        rwa [hs2part] at hobj
      have hpS : p < s.particleNumOfObject obj := by
        unfold Solver.particleNumOfObject at hp ⊢
        rwa [hs2part] at hp
      have hmeshOf : s2.meshOf obj = s.meshOf obj := by
        unfold Solver.meshOf
        rw [hs2mesh]
      have hrow := (Solver.rows_resetParticleDomainData (s.resetGridData) obj
        (by unfold Solver.objectNum; exact hobjS)).1
      have hrowlen : (s2.isEnrichedDomainCorner.getD obj []).length
          = (s.isEnrichedDomainCorner.getD obj []).length := by
        rw [hs2]
        rw [hrow, length_resetRange]
        rfl
      rw [hmeshOf, hrowlen]
      exact hidx obj hobjS p hpS c hc
  have hscatter := rasterizeScatter_grid_untouched s3 hfe
  have hs3mass : s3.gridMass = fun _ => [] := by
    rw [henr]
    exact hbase2.2.2.2.1
  have hs3active : s3.activeGridNode = [] := by
    rw [henr]
    exact hbase2.2.2.2.2.2.2.2.2.2.2.2.2.1
  set s4 := s3.rasterizeScatter with hs4
  have hs4mass : s4.gridMass = fun _ => [] := hscatter.1.trans hs3mass
  have hs5 : s4.computeActiveGridNodes.activeGridNode = [] := by
    unfold Solver.computeActiveGridNodes
    dsimp only
    have hobjs : ∀ n, Solver.activeObjsAt s4 n = [] := by
      intro n
      unfold Solver.activeObjsAt
      apply List.filter_eq_nil_iff.mpr
      intro obj _
      have : s4.gridMassAt obj n = 0 := by
        unfold Solver.gridMassAt
        rw [hs4mass]
        rfl
      rw [this]
      simp only [decide_eq_true_eq]
      norm_num [machineEps]
    have : s4.gridNodes.map (fun n => (Solver.activeObjsAt s4 n).map (fun o => (n, o)))
        = s4.gridNodes.map (fun _ => []) := by
      apply List.map_congr_left
      intro n _
      rw [hobjs n]
      rfl
    rw [this]
    simp
  have h5eq : s4.computeActiveGridNodes
      = { s4 with activeGridNode := s4.computeActiveGridNodes.activeGridNode } := rfl
  set s5 := s4.computeActiveGridNodes with hs5def
  have hs6 : s5.normalizeGridVelocity = s5 := by
    unfold Solver.normalizeGridVelocity
    rw [hs5]
    rfl
  have hpre : s.rasterizePreMerge = s5 := by
    unfold Solver.rasterizePreMerge
    rw [← hs2, ← hs3, ← hs4, ← hs5def, hs6]
  have hs5mass : s5.gridMass = fun _ => [] := by
    rw [h5eq]
    exact hs4mass
  have hmerge : s5.mergeNoContactPhase = s5 := by
    unfold Solver.mergeNoContactPhase Solver.activeNodeList
    rw [hs5]
    rfl
  have hresult : s.rasterize = s5 := by
    unfold Solver.rasterize
    rw [hpre]
    by_cases hc : s5.hasContactMethod
    · simp [hc]
    · simp [hc, hmerge]
  rw [hresult]
  exact ⟨fun n => by rw [hs5mass], hs5⟩

/-- A `normalizeCornerStep` never changes corner masses. -/
theorem normalizeCornerStep_mass (obj : Nat) (t : Solver) (c : Nat) :
    (normalizeCornerStep obj t c).domainCornerMass = t.domainCornerMass := by
  unfold normalizeCornerStep
  dsimp only
  split
  · rfl
  · rfl

/-- A `normalizeCornerStep` at another corner leaves this corner's velocity
and snapshot entries (and their row lengths) unchanged. -/
theorem normalizeCornerStep_other (obj : Nat) (t : Solver) (c g : Nat) (hne : c ≠ g) :
    get2 (normalizeCornerStep obj t c).domainCornerVelocity obj g Vec2.zero
      = get2 t.domainCornerVelocity obj g Vec2.zero ∧
    get2 (normalizeCornerStep obj t c).domainCornerVelocityBefore obj g Vec2.zero
      = get2 t.domainCornerVelocityBefore obj g Vec2.zero ∧
    ((normalizeCornerStep obj t c).domainCornerVelocity.getD obj []).length
      = (t.domainCornerVelocity.getD obj []).length ∧
    ((normalizeCornerStep obj t c).domainCornerVelocityBefore.getD obj []).length
      = (t.domainCornerVelocityBefore.getD obj []).length := by
  unfold normalizeCornerStep
  dsimp only
  split
  · refine ⟨?_, ?_, ?_, ?_⟩
    · exact get2_set2_ne_col _ _ _ _ _ _ (fun he => hne he.symm)
    · exact get2_set2_ne_col _ _ _ _ _ _ (fun he => hne he.symm)
    · exact row_length_set2_self _ _ _ _
    · exact row_length_set2_self _ _ _ _
  · exact ⟨rfl, rfl, rfl, rfl⟩

/-- Characterization of one object's corner-momentum normalization at one
corner index within the loop range: division happens exactly when the corner
mass exceeds machine epsilon, the result is snapshotted, and otherwise both
entries are untouched. -/
theorem normalizeCornerVelocity_char (s : Solver) (obj g : Nat)
    (hg : g < (s.domainCornerMass.getD obj []).length)
    (hvg : g < (s.domainCornerVelocity.getD obj []).length)
    (hbg : g < (s.domainCornerVelocityBefore.getD obj []).length) :
    (s.normalizeCornerVelocity obj).domainCornerMass = s.domainCornerMass ∧
    (machineEps < get2 s.domainCornerMass obj g 0 →
      get2 (s.normalizeCornerVelocity obj).domainCornerVelocity obj g Vec2.zero
        = (get2 s.domainCornerVelocity obj g Vec2.zero).divQ
            (get2 s.domainCornerMass obj g 0) ∧
      get2 (s.normalizeCornerVelocity obj).domainCornerVelocityBefore obj g Vec2.zero
        = (get2 s.domainCornerVelocity obj g Vec2.zero).divQ
            (get2 s.domainCornerMass obj g 0)) ∧
    (¬ machineEps < get2 s.domainCornerMass obj g 0 →
      get2 (s.normalizeCornerVelocity obj).domainCornerVelocity obj g Vec2.zero
        = get2 s.domainCornerVelocity obj g Vec2.zero ∧
      get2 (s.normalizeCornerVelocity obj).domainCornerVelocityBefore obj g Vec2.zero
        = get2 s.domainCornerVelocityBefore obj g Vec2.zero) := by
  have hmass : ∀ (cs : List Nat) (t : Solver),
      ((cs.foldl (normalizeCornerStep obj) t).domainCornerMass = t.domainCornerMass) := by
    intro cs
    induction cs with
    | nil => intro t; rfl
    | cons c cs ih =>
      intro t
      simp only [List.foldl_cons]
      exact (ih (normalizeCornerStep obj t c)).trans (normalizeCornerStep_mass obj t c)
  have hnot : ∀ (cs : List Nat) (t : Solver), g ∉ cs →
      (get2 (cs.foldl (normalizeCornerStep obj) t).domainCornerVelocity obj g Vec2.zero
        = get2 t.domainCornerVelocity obj g Vec2.zero ∧
      get2 (cs.foldl (normalizeCornerStep obj) t).domainCornerVelocityBefore obj g Vec2.zero
        = get2 t.domainCornerVelocityBefore obj g Vec2.zero) := by
    intro cs
    induction cs with
    | nil => intro t _; exact ⟨rfl, rfl⟩
    | cons c cs ih =>
      intro t hgm
      have hcg : c ≠ g := fun he => hgm (he ▸ List.mem_cons_self _ _)
      have hstep := normalizeCornerStep_other obj t c g hcg
      have hrest := ih (normalizeCornerStep obj t c)
        (fun hm => hgm (List.mem_cons_of_mem _ hm))
      simp only [List.foldl_cons]
      exact ⟨hrest.1.trans hstep.1, hrest.2.trans hstep.2.1⟩
  have main : ∀ (cs : List Nat) (t : Solver), cs.Nodup → g ∈ cs →
      t.domainCornerMass = s.domainCornerMass →
      get2 t.domainCornerVelocity obj g Vec2.zero
        = get2 s.domainCornerVelocity obj g Vec2.zero →
      get2 t.domainCornerVelocityBefore obj g Vec2.zero
        = get2 s.domainCornerVelocityBefore obj g Vec2.zero →
      (t.domainCornerVelocity.getD obj []).length
        = (s.domainCornerVelocity.getD obj []).length →
      (t.domainCornerVelocityBefore.getD obj []).length
        = (s.domainCornerVelocityBefore.getD obj []).length →
      ((machineEps < get2 s.domainCornerMass obj g 0 →
        get2 (cs.foldl (normalizeCornerStep obj) t).domainCornerVelocity obj g Vec2.zero
          = (get2 s.domainCornerVelocity obj g Vec2.zero).divQ
              (get2 s.domainCornerMass obj g 0) ∧
        get2 (cs.foldl (normalizeCornerStep obj) t).domainCornerVelocityBefore obj g Vec2.zero
          = (get2 s.domainCornerVelocity obj g Vec2.zero).divQ
              (get2 s.domainCornerMass obj g 0)) ∧
      (¬ machineEps < get2 s.domainCornerMass obj g 0 →
        get2 (cs.foldl (normalizeCornerStep obj) t).domainCornerVelocity obj g Vec2.zero
          = get2 s.domainCornerVelocity obj g Vec2.zero ∧
        get2 (cs.foldl (normalizeCornerStep obj) t).domainCornerVelocityBefore obj g Vec2.zero
          = get2 s.domainCornerVelocityBefore obj g Vec2.zero)) := by
    intro cs
    induction cs with
    | nil => intro t _ hmem; cases hmem
    | cons c cs ih =>
      intro t hnd hmem hm hv hb hlv hlb
      by_cases hcg : c = g
      · subst hcg
        have hnotin : c ∉ cs := (List.nodup_cons.mp hnd).1
        have hrest := hnot cs (normalizeCornerStep obj t c) hnotin
        have hmassstep := normalizeCornerStep_mass obj t c
        simp only [List.foldl_cons]
        have hcond : get2 t.domainCornerMass obj c 0 = get2 s.domainCornerMass obj c 0 := by
          rw [hm]
        constructor
        · intro heps
          have hv2 : c < (t.domainCornerVelocity.getD obj []).length := by
            rw [hlv]
            exact hvg
          have hb2 : c < (t.domainCornerVelocityBefore.getD obj []).length := by
            rw [hlb]
            exact hbg
          have hstep : get2 (normalizeCornerStep obj t c).domainCornerVelocity obj c Vec2.zero
                = (get2 s.domainCornerVelocity obj c Vec2.zero).divQ
                    (get2 s.domainCornerMass obj c 0) ∧
              get2 (normalizeCornerStep obj t c).domainCornerVelocityBefore obj c Vec2.zero
                = (get2 s.domainCornerVelocity obj c Vec2.zero).divQ
                    (get2 s.domainCornerMass obj c 0) := by
            unfold normalizeCornerStep
            dsimp only
            rw [hcond, if_pos heps]
            constructor
            · rw [get2_set2_self _ _ _ _ _ hv2, hv]
            · show get2 (set2 t.domainCornerVelocityBefore obj c _) obj c Vec2.zero = _
              rw [get2_set2_self _ _ _ _ _ hb2, hv]
          exact ⟨hrest.1.trans hstep.1, hrest.2.trans hstep.2⟩
        · intro heps
          have hstep : get2 (normalizeCornerStep obj t c).domainCornerVelocity obj c Vec2.zero
                = get2 t.domainCornerVelocity obj c Vec2.zero ∧
              get2 (normalizeCornerStep obj t c).domainCornerVelocityBefore obj c Vec2.zero
                = get2 t.domainCornerVelocityBefore obj c Vec2.zero := by
            unfold normalizeCornerStep
            dsimp only
            rw [hcond, if_neg heps]
            exact ⟨rfl, rfl⟩
          exact ⟨hrest.1.trans (hstep.1.trans hv), hrest.2.trans (hstep.2.trans hb)⟩
      · have hmem2 : g ∈ cs := by
          rcases List.mem_cons.mp hmem with h | h
          · exact absurd h.symm hcg
          · exact h
        have hstep := normalizeCornerStep_other obj t c g hcg
        simp only [List.foldl_cons]
        exact ih (normalizeCornerStep obj t c) (List.nodup_cons.mp hnd).2 hmem2
          ((normalizeCornerStep_mass obj t c).trans hm)
          (hstep.1.trans hv) (hstep.2.1.trans hb)
          (hstep.2.2.1.trans hlv) (hstep.2.2.2.trans hlb)
  unfold normalizeCornerVelocity
  refine ⟨hmass _ s, ?_⟩
  exact main (List.range ((s.domainCornerMass.getD obj []).length)) s
    (List.nodup_range _) (List.mem_range.mpr hg) rfl rfl rfl rfl rfl

/-- On a single-object state the scatter loop of `rasterize` is the particle
loop of object 0 followed by that object's corner normalization. -/
theorem rasterizeScatter_one (s : Solver) (h : s.objectNum = 1) :
    s.rasterizeScatter = (((List.range (s.particleNumOfObject 0)).foldl
      (fun u p => u.scatterParticle 0 p) s).normalizeCornerVelocity 0) := by
  unfold rasterizeScatter
  rw [h]
  simp only [List.range_succ, List.range_zero, List.nil_append, List.foldl_cons,
    List.foldl_nil]

/-- Summing `f` of the entries of a list through `getD` over the index range
equals summing `f` over the list. -/
theorem sum_map_range_getD {α : Type} (l : List α) (f : α → ℚ) (d : α) :
    ((List.range l.length).map (fun i => f (l.getD i d))).sum = (l.map f).sum := by
  induction l with
  | nil => simp
  | cons a rest ih =>
    rw [List.length_cons, List.range_succ_eq_map]
    simp only [List.map_cons, List.getD_cons_zero, List.map_map, List.sum_cons]
    have hcomp : ((fun i => f ((a :: rest).getD i d)) ∘ Nat.succ)
        = (fun i => f (rest.getD i d)) := by
      funext i
      simp [List.getD_cons_succ]
    rw [hcomp, ih]

/-- Field effect of one grid-scatter step (source lines 121-139): mass is
accumulated at the pair's node, and every field the scatter loops read is
untouched. -/
theorem scatterGridPairStep_fields (o2 p : Nat) (t : Solver)
    (pr : NodeIndexWeightGradientPair) :
    (scatterGridPairStep o2 p t pr).particles = t.particles ∧
    (scatterGridPairStep o2 p t pr).particleGridWeightAndGradient
      = t.particleGridWeightAndGradient ∧
    (scatterGridPairStep o2 p t pr).particleDomainMesh = t.particleDomainMesh ∧
    (scatterGridPairStep o2 p t pr).isEnrichedDomainCorner = t.isEnrichedDomainCorner ∧
    (scatterGridPairStep o2 p t pr).particleCornerWeight = t.particleCornerWeight ∧
    (scatterGridPairStep o2 p t pr).gridNodes = t.gridNodes ∧
    (scatterGridPairStep o2 p t pr).domainCornerMass = t.domainCornerMass ∧
    (scatterGridPairStep o2 p t pr).gridMass
      = updateFn t.gridMass pr.nodeIdx
          (madd (t.gridMass pr.nodeIdx) o2 (pr.weightValue * (t.particleAt o2 p).mass)) := by
  unfold scatterGridPairStep
  dsimp only
  split <;> exact ⟨rfl, rfl, rfl, rfl, rfl, rfl, rfl, rfl⟩

/-- Field effect of one corner-scatter step (source lines 142-154): mass is
accumulated at the enriched global corner, and every field the scatter loops
read is untouched. -/
theorem scatterCornerStep_fields (o2 p : Nat) (t : Solver) (c : Nat) :
    (scatterCornerStep o2 p t c).particles = t.particles ∧
    (scatterCornerStep o2 p t c).particleGridWeightAndGradient
      = t.particleGridWeightAndGradient ∧
    (scatterCornerStep o2 p t c).particleDomainMesh = t.particleDomainMesh ∧
    (scatterCornerStep o2 p t c).isEnrichedDomainCorner = t.isEnrichedDomainCorner ∧
    (scatterCornerStep o2 p t c).particleCornerWeight = t.particleCornerWeight ∧
    (scatterCornerStep o2 p t c).gridNodes = t.gridNodes ∧
    (scatterCornerStep o2 p t c).gridMass = t.gridMass ∧
    (scatterCornerStep o2 p t c).domainCornerMass
      = (if get2 t.isEnrichedDomainCorner o2 ((t.meshOf o2).eleVertIndex p c) false then
          set2 t.domainCornerMass o2 ((t.meshOf o2).eleVertIndex p c)
            (get2 t.domainCornerMass o2 ((t.meshOf o2).eleVertIndex p c) 0
              + get3 t.particleCornerWeight o2 p c 0 * (t.particleAt o2 p).mass)
        else t.domainCornerMass) := by
  unfold scatterCornerStep
  dsimp only
  split <;> exact ⟨rfl, rfl, rfl, rfl, rfl, rfl, rfl, rfl⟩

/-- Corner normalization leaves the corner-mass field untouched. -/
theorem normalizeCornerVelocity_massField (t : Solver) (o : Nat) :
    (t.normalizeCornerVelocity o).domainCornerMass = t.domainCornerMass := by
  unfold normalizeCornerVelocity
  refine foldl_invariant (fun u => u.domainCornerMass = t.domainCornerMass) _ _ t rfl ?_
  intro u c _ hu
  rw [normalizeCornerStep_mass, hu]

/-- `enrichedCornerWeightSum` depends only on the flags, the mesh and the
corner-weight storage. -/
theorem enrichedCornerWeightSum_congr (u t : Solver) (o2 p : Nat)
    (hflags : t.isEnrichedDomainCorner = u.isEnrichedDomainCorner)
    (hmesh : t.particleDomainMesh = u.particleDomainMesh)
    (hpcw : t.particleCornerWeight = u.particleCornerWeight) :
    t.enrichedCornerWeightSum o2 p = u.enrichedCornerWeightSum o2 p := by
  unfold enrichedCornerWeightSum meshOf
  rw [hflags, hmesh, hpcw]

/-- `usedWeightSum` depends only on the flags, the mesh, the grid pairs and
the corner-weight storage. -/
theorem usedWeightSum_congr (u t : Solver) (o2 p : Nat)
    (hflags : t.isEnrichedDomainCorner = u.isEnrichedDomainCorner)
    (hmesh : t.particleDomainMesh = u.particleDomainMesh)
    (hpgwg : t.particleGridWeightAndGradient = u.particleGridWeightAndGradient)
    (hpcw : t.particleCornerWeight = u.particleCornerWeight) :
    t.usedWeightSum o2 p = u.usedWeightSum o2 p := by
  unfold usedWeightSum gridPairsOf
  rw [enrichedCornerNum_congr u t o2 p hflags hmesh,
    enrichedCornerWeightSum_congr u t o2 p hflags hmesh hpcw, hpgwg]

/-- `totalGridMassOfObject` depends only on the node list and the mass maps. -/
theorem totalGridMassOfObject_congr (u t : Solver) (obj : Nat)
    (hnodes : t.gridNodes = u.gridNodes) (hgm : t.gridMass = u.gridMass) :
    t.totalGridMassOfObject obj = u.totalGridMassOfObject obj := by
  unfold totalGridMassOfObject gridMassAt
  rw [hnodes, hgm]

/-- Mass effect of rasterizing one particle of object `o2` to the grid, seen
from object `obj` (source lines 121-139): the fields the scatter loops read
are untouched, and the total grid mass of `obj` grows by the particle's mass
times its grid weight sum when `o2 = obj`, and not at all otherwise. -/
theorem scatterParticleToGrid_mass (t : Solver) (o2 p obj : Nat)
    (hnd : t.gridNodes.Nodup)
    (hmem : o2 = obj → ∀ pr ∈ t.gridPairsOf o2 p, pr.nodeIdx ∈ t.gridNodes) :
    (t.scatterParticleToGrid o2 p).particles = t.particles ∧
    (t.scatterParticleToGrid o2 p).particleGridWeightAndGradient
      = t.particleGridWeightAndGradient ∧
    (t.scatterParticleToGrid o2 p).particleDomainMesh = t.particleDomainMesh ∧
    (t.scatterParticleToGrid o2 p).isEnrichedDomainCorner = t.isEnrichedDomainCorner ∧
    (t.scatterParticleToGrid o2 p).particleCornerWeight = t.particleCornerWeight ∧
    (t.scatterParticleToGrid o2 p).gridNodes = t.gridNodes ∧
    (t.scatterParticleToGrid o2 p).domainCornerMass = t.domainCornerMass ∧
    (t.scatterParticleToGrid o2 p).totalGridMassOfObject obj
      = t.totalGridMassOfObject obj
        + (if o2 = obj then
            ((t.gridPairsOf o2 p).map (fun pr => pr.weightValue)).sum
              * (t.particleAt o2 p).mass
          else 0) := by
  have aux : ∀ (l : List NodeIndexWeightGradientPair) (u : Solver),
      u.particles = t.particles →
      u.particleGridWeightAndGradient = t.particleGridWeightAndGradient →
      u.particleDomainMesh = t.particleDomainMesh →
      u.isEnrichedDomainCorner = t.isEnrichedDomainCorner →
      u.particleCornerWeight = t.particleCornerWeight →
      u.gridNodes = t.gridNodes →
      u.domainCornerMass = t.domainCornerMass →
      (o2 = obj → ∀ pr ∈ l, pr.nodeIdx ∈ t.gridNodes) →
      ((l.foldl (scatterGridPairStep o2 p) u).particles = t.particles ∧
       (l.foldl (scatterGridPairStep o2 p) u).particleGridWeightAndGradient
         = t.particleGridWeightAndGradient ∧
       (l.foldl (scatterGridPairStep o2 p) u).particleDomainMesh = t.particleDomainMesh ∧
       (l.foldl (scatterGridPairStep o2 p) u).isEnrichedDomainCorner
         = t.isEnrichedDomainCorner ∧
       (l.foldl (scatterGridPairStep o2 p) u).particleCornerWeight
         = t.particleCornerWeight ∧
       (l.foldl (scatterGridPairStep o2 p) u).gridNodes = t.gridNodes ∧
       (l.foldl (scatterGridPairStep o2 p) u).domainCornerMass = t.domainCornerMass ∧
       (l.foldl (scatterGridPairStep o2 p) u).totalGridMassOfObject obj
         = u.totalGridMassOfObject obj
           + (if o2 = obj then
               (l.map (fun pr => pr.weightValue)).sum * (t.particleAt o2 p).mass
             else 0)) := by
    intro l
    induction l with
    | nil =>
      intro u h1 h2 h3 h4 h5 h6 h7 _
      refine ⟨h1, h2, h3, h4, h5, h6, h7, ?_⟩
      simp
    | cons pr rest ih =>
      intro u h1 h2 h3 h4 h5 h6 h7 hml
      simp only [List.foldl_cons]
      have hf := scatterGridPairStep_fields o2 p u pr
      set u' := scatterGridPairStep o2 p u pr with hu'
      have hmass : (u.particleAt o2 p).mass = (t.particleAt o2 p).mass := by
        unfold particleAt
        rw [h1]
      have hstep : u'.totalGridMassOfObject obj = u.totalGridMassOfObject obj
          + (if o2 = obj then pr.weightValue * (t.particleAt o2 p).mass else 0) := by
        unfold totalGridMassOfObject gridMassAt
        rw [hf.2.2.2.2.2.1, h6]
        by_cases ho : o2 = obj
        · subst ho
          rw [if_pos rfl]
          refine sum_map_update hnd (hml rfl pr (List.mem_cons_self _ _)) ?_ ?_
          · rw [hf.2.2.2.2.2.2.2]
            simp only [updateFn]
            rw [if_pos True.intro, mGetD_madd_self_q, hmass]
          · intro m _ hm
            rw [hf.2.2.2.2.2.2.2]
            simp only [updateFn]
            rw [if_neg hm]
        · rw [if_neg ho, add_zero]
          apply congrArg
          apply List.map_congr_left
          intro n _
          rw [hf.2.2.2.2.2.2.2]
          simp only [updateFn]
          by_cases hn : n = pr.nodeIdx
          · subst hn
            rw [if_pos rfl]
            unfold mGetD
            rw [mfind_madd_ne _ _ _ _ (fun he => ho he.symm)]
          · rw [if_neg hn]
      have hrec := ih u' (hf.1.trans h1) (hf.2.1.trans h2) (hf.2.2.1.trans h3)
        (hf.2.2.2.1.trans h4) (hf.2.2.2.2.1.trans h5) (hf.2.2.2.2.2.1.trans h6)
        (hf.2.2.2.2.2.2.1.trans h7)
        (fun ho pr2 hpr2 => hml ho pr2 (List.mem_cons_of_mem _ hpr2))
      refine ⟨hrec.1, hrec.2.1, hrec.2.2.1, hrec.2.2.2.1, hrec.2.2.2.2.1,
        hrec.2.2.2.2.2.1, hrec.2.2.2.2.2.2.1, ?_⟩
      rw [hrec.2.2.2.2.2.2.2, hstep]
      by_cases ho : o2 = obj
      · simp only [if_pos ho, List.map_cons, List.sum_cons]
        ring
      · simp only [if_neg ho]
        ring
  unfold scatterParticleToGrid
  exact aux (t.gridPairsOf o2 p) t rfl rfl rfl rfl rfl rfl rfl hmem

/-- Adding to one in-range entry of a rational list adds to its sum. -/
theorem sum_set_add (l : List ℚ) (i : Nat) (v : ℚ) (h : i < l.length) :
    (l.set i (l.getD i 0 + v)).sum = l.sum + v := by
  induction l generalizing i with
  | nil => simp at h
  | cons b rest ih =>
    cases i with
    | zero =>
      simp only [List.set, List.sum_cons, List.getD_cons_zero]
      ring
    | succ k =>
      have hk : k < rest.length := by simpa using h
      have hset : (b :: rest).set (k+1) ((b :: rest).getD (k+1) 0 + v)
          = b :: rest.set k (rest.getD k 0 + v) := by
        simp [List.getD_cons_succ]
      rw [hset]
      simp only [List.sum_cons, ih k hk]
      ring

/-- Row effect of one corner-scatter step on object `obj`'s corner-mass row:
the length is kept and the sum grows by the weighted particle mass exactly
when the scattering object is `obj` and the corner is enriched. -/
theorem scatterCornerStep_row (t u : Solver) (o2 p obj c : Nat)
    (h1 : u.particles = t.particles)
    (h3 : u.particleDomainMesh = t.particleDomainMesh)
    (h4 : u.isEnrichedDomainCorner = t.isEnrichedDomainCorner)
    (h5 : u.particleCornerWeight = t.particleCornerWeight)
    (hlen : (u.domainCornerMass.getD obj []).length
      = (t.domainCornerMass.getD obj []).length)
    (hrange : o2 = obj →
      get2 t.isEnrichedDomainCorner obj ((t.meshOf obj).eleVertIndex p c) false = true →
      (t.meshOf obj).eleVertIndex p c < (t.domainCornerMass.getD obj []).length) :
    ((scatterCornerStep o2 p u c).domainCornerMass.getD obj []).length
      = (u.domainCornerMass.getD obj []).length ∧
    ((scatterCornerStep o2 p u c).domainCornerMass.getD obj []).sum
      = (u.domainCornerMass.getD obj []).sum
        + (if o2 = obj then
            (if get2 t.isEnrichedDomainCorner o2 ((t.meshOf o2).eleVertIndex p c) false
             then get3 t.particleCornerWeight o2 p c 0 * (t.particleAt o2 p).mass
             else 0)
          else 0) := by
  have hf := scatterCornerStep_fields o2 p u c
  have hmesh2 : u.meshOf o2 = t.meshOf o2 := by
    unfold meshOf
    rw [h3]
  have hdcm := hf.2.2.2.2.2.2.2
  rw [hmesh2, h4, h5] at hdcm
  have hm : (u.particleAt o2 p).mass = (t.particleAt o2 p).mass := by
    unfold particleAt
    rw [h1]
  rw [hm] at hdcm
  cases hget : get2 t.isEnrichedDomainCorner o2 ((t.meshOf o2).eleVertIndex p c) false with
  | false =>
    rw [hget] at hdcm
    simp only [Bool.false_eq_true, if_false] at hdcm
    rw [hdcm]
    simp
  | true =>
    rw [hget, if_pos rfl] at hdcm
    by_cases ho : o2 = obj
    · subst ho
      rw [hdcm]
      have hg : (t.meshOf o2).eleVertIndex p c < (u.domainCornerMass.getD o2 []).length := by
        rw [hlen]
        exact hrange rfl hget
      constructor
      · rw [row_set2_self]
        simp
      · rw [row_set2_self]
        have hadd := sum_set_add (u.domainCornerMass.getD o2 [])
          ((t.meshOf o2).eleVertIndex p c)
          (get3 t.particleCornerWeight o2 p c 0 * (t.particleAt o2 p).mass) hg
        rw [show get2 u.domainCornerMass o2 ((t.meshOf o2).eleVertIndex p c) 0
            = (u.domainCornerMass.getD o2 []).getD ((t.meshOf o2).eleVertIndex p c) 0
          from rfl]
        rw [hadd]
        simp
    · rw [hdcm]
      constructor
      · rw [row_set2_ne _ _ _ _ _ (fun he => ho he.symm)]
      · rw [row_set2_ne _ _ _ _ _ (fun he => ho he.symm), if_neg ho, add_zero]

/-- Mass effect of rasterizing one particle of object `o2` to its enriched
domain corners, seen from object `obj` (source lines 142-154): the fields the
scatter loops read and the whole grid-mass container are untouched, the
corner-mass row of `obj` keeps its length, and its sum grows by the
particle's mass times its enriched-corner weight sum when `o2 = obj`, and
not at all otherwise. -/
theorem scatterParticleToCorner_mass (t : Solver) (o2 p obj : Nat)
    (hrange : o2 = obj → ∀ c < 4,
      get2 t.isEnrichedDomainCorner obj ((t.meshOf obj).eleVertIndex p c) false = true →
      (t.meshOf obj).eleVertIndex p c < (t.domainCornerMass.getD obj []).length) :
    (t.scatterParticleToCorner o2 p).particles = t.particles ∧
    (t.scatterParticleToCorner o2 p).particleGridWeightAndGradient
      = t.particleGridWeightAndGradient ∧
    (t.scatterParticleToCorner o2 p).particleDomainMesh = t.particleDomainMesh ∧
    (t.scatterParticleToCorner o2 p).isEnrichedDomainCorner = t.isEnrichedDomainCorner ∧
    (t.scatterParticleToCorner o2 p).particleCornerWeight = t.particleCornerWeight ∧
    (t.scatterParticleToCorner o2 p).gridNodes = t.gridNodes ∧
    (t.scatterParticleToCorner o2 p).gridMass = t.gridMass ∧
    ((t.scatterParticleToCorner o2 p).domainCornerMass.getD obj []).length
      = (t.domainCornerMass.getD obj []).length ∧
    ((t.scatterParticleToCorner o2 p).domainCornerMass.getD obj []).sum
      = (t.domainCornerMass.getD obj []).sum
        + (if o2 = obj then t.enrichedCornerWeightSum o2 p * (t.particleAt o2 p).mass
          else 0) := by
  have aux : ∀ (cs : List Nat) (u : Solver),
      u.particles = t.particles →
      u.particleGridWeightAndGradient = t.particleGridWeightAndGradient →
      u.particleDomainMesh = t.particleDomainMesh →
      u.isEnrichedDomainCorner = t.isEnrichedDomainCorner →
      u.particleCornerWeight = t.particleCornerWeight →
      u.gridNodes = t.gridNodes →
      u.gridMass = t.gridMass →
      (u.domainCornerMass.getD obj []).length = (t.domainCornerMass.getD obj []).length →
      (∀ c ∈ cs, c < 4) →
      ((cs.foldl (scatterCornerStep o2 p) u).particles = t.particles ∧
       (cs.foldl (scatterCornerStep o2 p) u).particleGridWeightAndGradient
         = t.particleGridWeightAndGradient ∧
       (cs.foldl (scatterCornerStep o2 p) u).particleDomainMesh = t.particleDomainMesh ∧
       (cs.foldl (scatterCornerStep o2 p) u).isEnrichedDomainCorner
         = t.isEnrichedDomainCorner ∧
       (cs.foldl (scatterCornerStep o2 p) u).particleCornerWeight
         = t.particleCornerWeight ∧
       (cs.foldl (scatterCornerStep o2 p) u).gridNodes = t.gridNodes ∧
       (cs.foldl (scatterCornerStep o2 p) u).gridMass = t.gridMass ∧
       ((cs.foldl (scatterCornerStep o2 p) u).domainCornerMass.getD obj []).length
         = (t.domainCornerMass.getD obj []).length ∧
       ((cs.foldl (scatterCornerStep o2 p) u).domainCornerMass.getD obj []).sum
         = (u.domainCornerMass.getD obj []).sum
           + (if o2 = obj then
               (cs.map (fun c =>
                 if get2 t.isEnrichedDomainCorner o2 ((t.meshOf o2).eleVertIndex p c) false
                 then get3 t.particleCornerWeight o2 p c 0 * (t.particleAt o2 p).mass
                 else 0)).sum
             else 0)) := by
    intro cs
    induction cs with
    | nil =>
      intro u h1 h2 h3 h4 h5 h6 h7 h8 _
      refine ⟨h1, h2, h3, h4, h5, h6, h7, h8, ?_⟩
      simp
    | cons c cs ih =>
      intro u h1 h2 h3 h4 h5 h6 h7 h8 hc4
      simp only [List.foldl_cons]
      have hf := scatterCornerStep_fields o2 p u c
      have hrow := scatterCornerStep_row t u o2 p obj c h1 h3 h4 h5 h8
        (fun ho hflag => hrange ho c (hc4 c (List.mem_cons_self _ _)) hflag)
      have hrec := ih (scatterCornerStep o2 p u c)
        (hf.1.trans h1) (hf.2.1.trans h2) (hf.2.2.1.trans h3) (hf.2.2.2.1.trans h4)
        (hf.2.2.2.2.1.trans h5) (hf.2.2.2.2.2.1.trans h6) (hf.2.2.2.2.2.2.1.trans h7)
        (hrow.1.trans h8)
        (fun c2 hc2 => hc4 c2 (List.mem_cons_of_mem _ hc2))
      refine ⟨hrec.1, hrec.2.1, hrec.2.2.1, hrec.2.2.2.1, hrec.2.2.2.2.1,
        hrec.2.2.2.2.2.1, hrec.2.2.2.2.2.2.1, hrec.2.2.2.2.2.2.2.1, ?_⟩
      rw [hrec.2.2.2.2.2.2.2.2, hrow.2]
      by_cases ho : o2 = obj
      · simp only [if_pos ho, List.map_cons, List.sum_cons]
        ring
      · simp only [if_neg ho]
        ring
  unfold scatterParticleToCorner
  have hmain := aux (List.range 4) t rfl rfl rfl rfl rfl rfl rfl rfl
    (fun c hc => List.mem_range.mp hc)
  refine ⟨hmain.1, hmain.2.1, hmain.2.2.1, hmain.2.2.2.1, hmain.2.2.2.2.1,
    hmain.2.2.2.2.2.1, hmain.2.2.2.2.2.2.1, hmain.2.2.2.2.2.2.2.1, ?_⟩
  rw [hmain.2.2.2.2.2.2.2.2]
  by_cases ho : o2 = obj
  · simp only [if_pos ho]
    have hconv : ((List.range 4).map (fun c =>
        if get2 t.isEnrichedDomainCorner o2 ((t.meshOf o2).eleVertIndex p c) false
        then get3 t.particleCornerWeight o2 p c 0 * (t.particleAt o2 p).mass
        else 0)).sum
        = t.enrichedCornerWeightSum o2 p * (t.particleAt o2 p).mass := by
      unfold enrichedCornerWeightSum
      rw [← List.sum_map_mul_right]
      apply congrArg
      apply List.map_congr_left
      intro c _
      by_cases he : get2 t.isEnrichedDomainCorner o2 ((t.meshOf o2).eleVertIndex p c) false
      · simp [he]
      · simp [he]
    rw [hconv]
  · simp only [if_neg ho]

/-- Mass effect of the full scatter of one particle (source lines 104-155):
the fields the scatter loops read are untouched, `obj`'s corner-mass row
keeps its length, and the combined grid + corner mass of `obj` grows by
exactly `usedWeightSum · mass` when the particle belongs to `obj`, and not
at all otherwise. -/
theorem scatterParticle_mass (t : Solver) (o2 p obj : Nat)
    (hnd : t.gridNodes.Nodup)
    (hmem : o2 = obj → ∀ pr ∈ t.gridPairsOf o2 p, pr.nodeIdx ∈ t.gridNodes)
    (hrange : o2 = obj → ∀ c < 4,
      get2 t.isEnrichedDomainCorner obj ((t.meshOf obj).eleVertIndex p c) false = true →
      (t.meshOf obj).eleVertIndex p c < (t.domainCornerMass.getD obj []).length) :
    (t.scatterParticle o2 p).particles = t.particles ∧
    (t.scatterParticle o2 p).particleGridWeightAndGradient
      = t.particleGridWeightAndGradient ∧
    (t.scatterParticle o2 p).particleDomainMesh = t.particleDomainMesh ∧
    (t.scatterParticle o2 p).isEnrichedDomainCorner = t.isEnrichedDomainCorner ∧
    (t.scatterParticle o2 p).particleCornerWeight = t.particleCornerWeight ∧
    (t.scatterParticle o2 p).gridNodes = t.gridNodes ∧
    ((t.scatterParticle o2 p).domainCornerMass.getD obj []).length
      = (t.domainCornerMass.getD obj []).length ∧
    (t.scatterParticle o2 p).totalGridMassOfObject obj
      + ((t.scatterParticle o2 p).domainCornerMass.getD obj []).sum
      = t.totalGridMassOfObject obj + (t.domainCornerMass.getD obj []).sum
        + (if o2 = obj then t.usedWeightSum o2 p * (t.particleAt o2 p).mass else 0) := by
  unfold scatterParticle
  dsimp only
  by_cases h4 : t.enrichedCornerNum o2 p < 4
  all_goals by_cases h0 : 0 < t.enrichedCornerNum o2 p
  · rw [if_pos h4, if_pos h0]
    have hg := scatterParticleToGrid_mass t o2 p obj hnd hmem
    have hmesh1 : (t.scatterParticleToGrid o2 p).meshOf obj = t.meshOf obj := by
      unfold meshOf
      rw [hg.2.2.1]
    have hrange1 : o2 = obj → ∀ c < 4,
        get2 (t.scatterParticleToGrid o2 p).isEnrichedDomainCorner obj
          (((t.scatterParticleToGrid o2 p).meshOf obj).eleVertIndex p c) false = true →
        ((t.scatterParticleToGrid o2 p).meshOf obj).eleVertIndex p c
          < ((t.scatterParticleToGrid o2 p).domainCornerMass.getD obj []).length := by
      intro ho c hc hflag
      rw [hmesh1, hg.2.2.2.1] at hflag
      rw [hmesh1, hg.2.2.2.2.2.2.1]
      exact hrange ho c hc hflag
    have hc := scatterParticleToCorner_mass (t.scatterParticleToGrid o2 p) o2 p obj hrange1
    have hw : t.usedWeightSum o2 p
        = ((t.gridPairsOf o2 p).map (fun pr => pr.weightValue)).sum
          + t.enrichedCornerWeightSum o2 p := by
      unfold usedWeightSum
      dsimp only
      rw [if_pos h4, if_pos h0]
    have hecws : (t.scatterParticleToGrid o2 p).enrichedCornerWeightSum o2 p
        = t.enrichedCornerWeightSum o2 p :=
      enrichedCornerWeightSum_congr t (t.scatterParticleToGrid o2 p) o2 p
        hg.2.2.2.1 hg.2.2.1 hg.2.2.2.2.1
    have hmass1 : ((t.scatterParticleToGrid o2 p).particleAt o2 p).mass
        = (t.particleAt o2 p).mass := by
      unfold particleAt
      rw [hg.1]
    have htg : ((t.scatterParticleToGrid o2 p).scatterParticleToCorner o2 p).totalGridMassOfObject obj
        = (t.scatterParticleToGrid o2 p).totalGridMassOfObject obj :=
      totalGridMassOfObject_congr (t.scatterParticleToGrid o2 p) _ obj
        hc.2.2.2.2.2.1 hc.2.2.2.2.2.2.1
    refine ⟨hc.1.trans hg.1, hc.2.1.trans hg.2.1, hc.2.2.1.trans hg.2.2.1,
      hc.2.2.2.1.trans hg.2.2.2.1, hc.2.2.2.2.1.trans hg.2.2.2.2.1,
      hc.2.2.2.2.2.1.trans hg.2.2.2.2.2.1, ?_, ?_⟩
    · rw [hc.2.2.2.2.2.2.2.1, hg.2.2.2.2.2.2.1]
    · rw [htg, hc.2.2.2.2.2.2.2.2, hecws, hmass1, hg.2.2.2.2.2.2.2,
        hg.2.2.2.2.2.2.1, hw]
      by_cases ho : o2 = obj
      · simp only [if_pos ho]
        ring
      · simp only [if_neg ho]
        ring
  · rw [if_pos h4, if_neg h0]
    have hg := scatterParticleToGrid_mass t o2 p obj hnd hmem
    have hw : t.usedWeightSum o2 p
        = ((t.gridPairsOf o2 p).map (fun pr => pr.weightValue)).sum := by
      unfold usedWeightSum
      dsimp only
      rw [if_pos h4, if_neg h0, add_zero]
    refine ⟨hg.1, hg.2.1, hg.2.2.1, hg.2.2.2.1, hg.2.2.2.2.1, hg.2.2.2.2.2.1, ?_, ?_⟩
    · rw [hg.2.2.2.2.2.2.1]
    · rw [hg.2.2.2.2.2.2.2, hg.2.2.2.2.2.2.1, hw]
      by_cases ho : o2 = obj
      · simp only [if_pos ho]
        ring
      · simp only [if_neg ho]
        ring
  · rw [if_neg h4, if_pos h0]
    have hc := scatterParticleToCorner_mass t o2 p obj hrange
    have hw : t.usedWeightSum o2 p = t.enrichedCornerWeightSum o2 p := by
      unfold usedWeightSum
      dsimp only
      rw [if_neg h4, if_pos h0, zero_add]
    have htg : (t.scatterParticleToCorner o2 p).totalGridMassOfObject obj
        = t.totalGridMassOfObject obj :=
      totalGridMassOfObject_congr t _ obj hc.2.2.2.2.2.1 hc.2.2.2.2.2.2.1
    refine ⟨hc.1, hc.2.1, hc.2.2.1, hc.2.2.2.1, hc.2.2.2.2.1, hc.2.2.2.2.2.1,
      hc.2.2.2.2.2.2.2.1, ?_⟩
    rw [htg, hc.2.2.2.2.2.2.2.2, hw]
    by_cases ho : o2 = obj
    · simp only [if_pos ho]
      ring
    · simp only [if_neg ho]
      ring
  · rw [if_neg h4, if_neg h0]
    have hw : t.usedWeightSum o2 p = 0 := by
      unfold usedWeightSum
      dsimp only
      rw [if_neg h4, if_neg h0, add_zero]
    refine ⟨rfl, rfl, rfl, rfl, rfl, rfl, rfl, ?_⟩
    rw [hw]
    by_cases ho : o2 = obj
    · simp only [if_pos ho]
      ring
    · simp only [if_neg ho]
      ring

/-- Mass accounting over the whole scatter phase of `rasterize` (source
lines 102-163): for an in-range object with duplicate-free grid nodes whose
particles' grid pairs point into the node list and whose enriched corners
index into its corner-mass row, the object's total grid mass plus corner-mass
row sum grows by the sum over its particles of `usedWeightSum · mass`. -/
theorem rasterizeScatter_mass (s : Solver) (obj : Nat)
    (hobj : obj < s.objectNum)
    (hnd : s.gridNodes.Nodup)
    (hmem : ∀ p < s.particleNumOfObject obj, ∀ pr ∈ s.gridPairsOf obj p,
      pr.nodeIdx ∈ s.gridNodes)
    (hrange : ∀ p < s.particleNumOfObject obj, ∀ c < 4,
      get2 s.isEnrichedDomainCorner obj ((s.meshOf obj).eleVertIndex p c) false = true →
      (s.meshOf obj).eleVertIndex p c < (s.domainCornerMass.getD obj []).length) :
    (s.rasterizeScatter).totalGridMassOfObject obj
      + ((s.rasterizeScatter).domainCornerMass.getD obj []).sum
      = s.totalGridMassOfObject obj + (s.domainCornerMass.getD obj []).sum
        + ((List.range (s.particleNumOfObject obj)).map
            (fun p => s.usedWeightSum obj p * (s.particleAt obj p).mass)).sum := by
  have hinner : ∀ (o2 : Nat) (ps : List Nat) (u : Solver),
      u.particles = s.particles →
      u.particleGridWeightAndGradient = s.particleGridWeightAndGradient →
      u.particleDomainMesh = s.particleDomainMesh →
      u.isEnrichedDomainCorner = s.isEnrichedDomainCorner →
      u.particleCornerWeight = s.particleCornerWeight →
      u.gridNodes = s.gridNodes →
      (u.domainCornerMass.getD obj []).length = (s.domainCornerMass.getD obj []).length →
      (o2 = obj → ∀ p ∈ ps, p < s.particleNumOfObject obj) →
      ((ps.foldl (fun u2 p => u2.scatterParticle o2 p) u).particles = s.particles ∧
       (ps.foldl (fun u2 p => u2.scatterParticle o2 p) u).particleGridWeightAndGradient
         = s.particleGridWeightAndGradient ∧
       (ps.foldl (fun u2 p => u2.scatterParticle o2 p) u).particleDomainMesh
         = s.particleDomainMesh ∧
       (ps.foldl (fun u2 p => u2.scatterParticle o2 p) u).isEnrichedDomainCorner
         = s.isEnrichedDomainCorner ∧
       (ps.foldl (fun u2 p => u2.scatterParticle o2 p) u).particleCornerWeight
         = s.particleCornerWeight ∧
       (ps.foldl (fun u2 p => u2.scatterParticle o2 p) u).gridNodes = s.gridNodes ∧
       ((ps.foldl (fun u2 p => u2.scatterParticle o2 p) u).domainCornerMass.getD obj []).length
         = (s.domainCornerMass.getD obj []).length ∧
       (ps.foldl (fun u2 p => u2.scatterParticle o2 p) u).totalGridMassOfObject obj
         + ((ps.foldl (fun u2 p => u2.scatterParticle o2 p) u).domainCornerMass.getD obj []).sum
         = u.totalGridMassOfObject obj + (u.domainCornerMass.getD obj []).sum
           + (if o2 = obj then
               (ps.map (fun p => s.usedWeightSum obj p * (s.particleAt obj p).mass)).sum
             else 0)) := by
    intro o2 ps
    induction ps with
    | nil =>
      intro u h1 h2 h3 h4 h5 h6 h7 _
      refine ⟨h1, h2, h3, h4, h5, h6, h7, ?_⟩
      simp
    | cons p ps ih =>
      intro u h1 h2 h3 h4 h5 h6 h7 hps
      simp only [List.foldl_cons]
      have hnd2 : u.gridNodes.Nodup := by
        rw [h6]
        exact hnd
      have hmem2 : o2 = obj → ∀ pr ∈ u.gridPairsOf o2 p, pr.nodeIdx ∈ u.gridNodes := by
        intro ho pr hpr
        subst ho
        have hpr2 : pr ∈ s.gridPairsOf o2 p := by
          unfold gridPairsOf at hpr ⊢
          rw [h2] at hpr
          exact hpr
        rw [h6]
        exact hmem p (hps rfl p (List.mem_cons_self _ _)) pr hpr2
      have hrange2 : o2 = obj → ∀ c < 4,
          get2 u.isEnrichedDomainCorner obj ((u.meshOf obj).eleVertIndex p c) false = true →
          (u.meshOf obj).eleVertIndex p c < (u.domainCornerMass.getD obj []).length := by
        intro ho c hc hflag
        have hm2 : u.meshOf obj = s.meshOf obj := by
          unfold meshOf
          rw [h3]
        rw [hm2, h4] at hflag
        rw [hm2, h7]
        exact hrange p (hps ho p (List.mem_cons_self _ _)) c hc hflag
      have hstep := scatterParticle_mass u o2 p obj hnd2 hmem2 hrange2
      have hrec := ih (u.scatterParticle o2 p)
        (hstep.1.trans h1) (hstep.2.1.trans h2) (hstep.2.2.1.trans h3)
        (hstep.2.2.2.1.trans h4) (hstep.2.2.2.2.1.trans h5) (hstep.2.2.2.2.2.1.trans h6)
        (hstep.2.2.2.2.2.2.1.trans h7)
        (fun ho p2 hp2 => hps ho p2 (List.mem_cons_of_mem _ hp2))
      refine ⟨hrec.1, hrec.2.1, hrec.2.2.1, hrec.2.2.2.1, hrec.2.2.2.2.1,
        hrec.2.2.2.2.2.1, hrec.2.2.2.2.2.2.1, ?_⟩
      rw [hrec.2.2.2.2.2.2.2, hstep.2.2.2.2.2.2.2]
      by_cases ho : o2 = obj
      · subst ho
        have hws : u.usedWeightSum o2 p = s.usedWeightSum o2 p :=
          usedWeightSum_congr s u o2 p h4 h3 h2 h5
        have hms : (u.particleAt o2 p).mass = (s.particleAt o2 p).mass := by
          unfold particleAt
          rw [h1]
        simp only [eq_self_iff_true, if_true, List.map_cons, List.sum_cons, hws, hms]
        ring
      · simp only [if_neg ho]
        ring
  have houter : ∀ (os : List Nat) (u : Solver),
      u.particles = s.particles →
      u.particleGridWeightAndGradient = s.particleGridWeightAndGradient →
      u.particleDomainMesh = s.particleDomainMesh →
      u.isEnrichedDomainCorner = s.isEnrichedDomainCorner →
      u.particleCornerWeight = s.particleCornerWeight →
      u.gridNodes = s.gridNodes →
      (u.domainCornerMass.getD obj []).length = (s.domainCornerMass.getD obj []).length →
      ((os.foldl (fun t o2 => ((List.range (t.particleNumOfObject o2)).foldl
          (fun u2 p => u2.scatterParticle o2 p) t).normalizeCornerVelocity o2) u).totalGridMassOfObject obj
        + ((os.foldl (fun t o2 => ((List.range (t.particleNumOfObject o2)).foldl
            (fun u2 p => u2.scatterParticle o2 p) t).normalizeCornerVelocity o2) u).domainCornerMass.getD obj []).sum
        = u.totalGridMassOfObject obj + (u.domainCornerMass.getD obj []).sum
          + ((os.map (fun o2 => if o2 = obj then
              ((List.range (s.particleNumOfObject obj)).map
                (fun p => s.usedWeightSum obj p * (s.particleAt obj p).mass)).sum
            else 0)).sum)) := by
    intro os
    induction os with
    | nil =>
      intro u _ _ _ _ _ _ _
      simp
    | cons o2 os ih =>
      intro u h1 h2 h3 h4 h5 h6 h7
      simp only [List.foldl_cons]
      have hpn : u.particleNumOfObject o2 = s.particleNumOfObject o2 := by
        unfold particleNumOfObject
        rw [h1]
      have hin := hinner o2 (List.range (u.particleNumOfObject o2)) u
        h1 h2 h3 h4 h5 h6 h7
        (fun ho p2 hp2 => by
          subst ho
          rw [hpn] at hp2
          exact List.mem_range.mp hp2)
      set r := (List.range (u.particleNumOfObject o2)).foldl
        (fun u2 p => u2.scatterParticle o2 p) u with hr
      have hnormeq := normalizeCornerVelocity_eq r o2
      have hnmass := normalizeCornerVelocity_massField r o2
      have hn1 : (r.normalizeCornerVelocity o2).particles = s.particles := by
        rw [hnormeq]
        exact hin.1
      have hn2 : (r.normalizeCornerVelocity o2).particleGridWeightAndGradient
          = s.particleGridWeightAndGradient := by
        rw [hnormeq]
        exact hin.2.1
      have hn3 : (r.normalizeCornerVelocity o2).particleDomainMesh = s.particleDomainMesh := by
        rw [hnormeq]
        exact hin.2.2.1
      have hn4 : (r.normalizeCornerVelocity o2).isEnrichedDomainCorner
          = s.isEnrichedDomainCorner := by
        rw [hnormeq]
        exact hin.2.2.2.1
      have hn5 : (r.normalizeCornerVelocity o2).particleCornerWeight
          = s.particleCornerWeight := by
        rw [hnormeq]
        exact hin.2.2.2.2.1
      have hn6 : (r.normalizeCornerVelocity o2).gridNodes = s.gridNodes := by
        rw [hnormeq]
        exact hin.2.2.2.2.2.1
      have hn7 : ((r.normalizeCornerVelocity o2).domainCornerMass.getD obj []).length
          = (s.domainCornerMass.getD obj []).length := by
        rw [hnmass]
        exact hin.2.2.2.2.2.2.1
      have hrec := ih (r.normalizeCornerVelocity o2) hn1 hn2 hn3 hn4 hn5 hn6 hn7
      rw [hrec]
      have hng : (r.normalizeCornerVelocity o2).totalGridMassOfObject obj
          = r.totalGridMassOfObject obj := by
        refine totalGridMassOfObject_congr r _ obj ?_ ?_
        · rw [hnormeq]
        · rw [hnormeq]
      have hnsum : ((r.normalizeCornerVelocity o2).domainCornerMass.getD obj []).sum
          = (r.domainCornerMass.getD obj []).sum := by
        rw [hnmass]
      rw [hng, hnsum, hin.2.2.2.2.2.2.2]
      simp only [List.map_cons, List.sum_cons]
      by_cases ho : o2 = obj
      · subst ho
        rw [hpn]
        simp only [eq_self_iff_true, if_true]
        ring
      · simp only [if_neg ho]
        ring
  unfold rasterizeScatter
  have hmain := houter (List.range s.objectNum) s rfl rfl rfl rfl rfl rfl rfl
  rw [hmain]
  have hsum : ((List.range s.objectNum).map (fun o2 => if o2 = obj then
      ((List.range (s.particleNumOfObject obj)).map
        (fun p => s.usedWeightSum obj p * (s.particleAt obj p).mass)).sum
    else 0)).sum
      = ((List.range (s.particleNumOfObject obj)).map
          (fun p => s.usedWeightSum obj p * (s.particleAt obj p).mass)).sum := by
    have hz : ((List.range s.objectNum).map (fun _ : Nat => (0 : ℚ))).sum = 0 := by
      simp
    have hupd := @sum_map_update (fun _ => (0 : ℚ))
      (fun o2 => if o2 = obj then
        ((List.range (s.particleNumOfObject obj)).map
          (fun p => s.usedWeightSum obj p * (s.particleAt obj p).mass)).sum
      else 0)
      (List.range s.objectNum) obj
      (((List.range (s.particleNumOfObject obj)).map
        (fun p => s.usedWeightSum obj p * (s.particleAt obj p).mass)).sum)
      (List.nodup_range s.objectNum) (List.mem_range.mpr hobj)
      (by simp) (fun m _ hm => by simp [hm])
    rw [hupd, hz, zero_add]
  rw [hsum]

/-- Reading an updated grid container at the written node. -/
theorem updateFn_self {α : Type} (f : Nat → α) (k : Nat) (v : α) :
    updateFn f k v k = v := by
  simp [updateFn]

/-- Reading an updated grid container at another node. -/
theorem updateFn_ne {α : Type} (f : Nat → α) (k n : Nat) (v : α) (h : n ≠ k) :
    updateFn f k v n = f n := by
  simp [updateFn, h]

/-- The no-contact merge never touches the active table, the Dirichlet data
or the contact flag. -/
theorem mergeNode_fields (t : Solver) (n2 : Nat) :
    (t.mergeNode n2).activeGridNode = t.activeGridNode ∧
    (t.mergeNode n2).isDirichletGridNode = t.isDirichletGridNode ∧
    (t.mergeNode n2).dirichletGridVelocity = t.dirichletGridVelocity ∧
    (t.mergeNode n2).hasContactMethod = t.hasContactMethod := by
  unfold mergeNode
  dsimp only
  split <;> exact ⟨rfl, rfl, rfl, rfl⟩

/-- Merging one node leaves the mass and velocity maps of every other node
unchanged. -/
theorem mergeNode_other (t : Solver) (n2 n : Nat) (h : n ≠ n2) :
    (t.mergeNode n2).gridMass n = t.gridMass n ∧
    (t.mergeNode n2).gridVelocity n = t.gridVelocity n := by
  unfold mergeNode
  dsimp only
  split
  · exact ⟨rfl, rfl⟩
  · exact ⟨updateFn_ne _ _ _ _ h, updateFn_ne _ _ _ _ h⟩

/-- Effect of the merge at a multi-valued node (source lines 195-229): every
mass-map entry receives the mass summed over the objects active at the node,
and every velocity-map entry receives the merged velocity — the first
Dirichlet entry's value if one exists, the total momentum divided by the
total mass otherwise. -/
theorem mergeNode_self (t : Solver) (n : Nat)
    (hmulti : ((t.pairsAt n).length == 1) = false) :
    (t.mergeNode n).gridMass n
      = (t.gridMass n).map (fun pr => (pr.1,
          ((t.pairsAt n).map (fun o => mGetD (t.gridMass n) o 0)).sum)) ∧
    (t.mergeNode n).gridVelocity n
      = (t.gridVelocity n).map (fun pr => (pr.1,
          match (t.gridVelocity n).find? (fun pr2 => t.isDirichletAt n pr2.1) with
          | some pr2 => pr2.2
          | none =>
            (Vec2.vsum ((t.pairsAt n).map (fun o =>
              mGetD (t.gridMass n) o 0 • mGetD (t.gridVelocity n) o Vec2.zero))).divQ
              (((t.pairsAt n).map (fun o => mGetD (t.gridMass n) o 0)).sum))) := by
  unfold mergeNode
  dsimp only
  rw [if_neg (by simp [hmulti])]
  exact ⟨updateFn_self _ _ _, updateFn_self _ _ _⟩

/-- The whole no-contact merge phase, observed at one multi-valued active
node: the fold over the distinct active nodes hits `n` exactly once and no
other iteration touches node `n`'s maps. -/
theorem mergeNoContactPhase_at (s : Solver) (n : Nat)
    (hact : n ∈ s.activeNodeList)
    (hmulti : ((s.pairsAt n).length == 1) = false) :
    (s.mergeNoContactPhase).gridMass n
      = (s.gridMass n).map (fun pr => (pr.1,
          ((s.pairsAt n).map (fun o => mGetD (s.gridMass n) o 0)).sum)) ∧
    (s.mergeNoContactPhase).gridVelocity n
      = (s.gridVelocity n).map (fun pr => (pr.1,
          match (s.gridVelocity n).find? (fun pr2 => s.isDirichletAt n pr2.1) with
          | some pr2 => pr2.2
          | none =>
            (Vec2.vsum ((s.pairsAt n).map (fun o =>
              mGetD (s.gridMass n) o 0 • mGetD (s.gridVelocity n) o Vec2.zero))).divQ
              (((s.pairsAt n).map (fun o => mGetD (s.gridMass n) o 0)).sum))) := by
  have hnot : ∀ (ns : List Nat) (t : Solver), n ∉ ns →
      (ns.foldl mergeNode t).gridMass n = t.gridMass n ∧
      (ns.foldl mergeNode t).gridVelocity n = t.gridVelocity n := by
    intro ns
    induction ns with
    | nil => intro t _; exact ⟨rfl, rfl⟩
    | cons m ms ih =>
      intro t hm
      simp only [List.foldl_cons]
      have hne : n ≠ m := fun he => hm (he ▸ List.mem_cons_self _ _)
      have hstep := mergeNode_other t m n hne
      have hrest := ih (t.mergeNode m) (fun hmem => hm (List.mem_cons_of_mem _ hmem))
      exact ⟨hrest.1.trans hstep.1, hrest.2.trans hstep.2⟩
  have main : ∀ (ns : List Nat) (t : Solver), ns.Nodup → n ∈ ns →
      t.gridMass n = s.gridMass n →
      t.gridVelocity n = s.gridVelocity n →
      t.activeGridNode = s.activeGridNode →
      t.isDirichletGridNode = s.isDirichletGridNode →
      ((ns.foldl mergeNode t).gridMass n
        = (s.gridMass n).map (fun pr => (pr.1,
            ((s.pairsAt n).map (fun o => mGetD (s.gridMass n) o 0)).sum)) ∧
       (ns.foldl mergeNode t).gridVelocity n
        = (s.gridVelocity n).map (fun pr => (pr.1,
            match (s.gridVelocity n).find? (fun pr2 => s.isDirichletAt n pr2.1) with
            | some pr2 => pr2.2
            | none =>
              (Vec2.vsum ((s.pairsAt n).map (fun o =>
                mGetD (s.gridMass n) o 0 • mGetD (s.gridVelocity n) o Vec2.zero))).divQ
                (((s.pairsAt n).map (fun o => mGetD (s.gridMass n) o 0)).sum)))) := by
    intro ns
    induction ns with
    | nil => intro t _ hmem; cases hmem
    | cons m ms ih =>
      intro t hnd hmem hm hv hag hdg
      simp only [List.foldl_cons]
      have hpairs : t.pairsAt n = s.pairsAt n := by
        unfold pairsAt
        rw [hag]
      have hdirich : ∀ o, t.isDirichletAt n o = s.isDirichletAt n o := by
        intro o
        unfold isDirichletAt
        rw [hdg]
      by_cases hmn : m = n
      · subst hmn
        have hnotin : m ∉ ms := (List.nodup_cons.mp hnd).1
        have hrest := hnot ms (t.mergeNode m) hnotin
        have hmulti2 : ((t.pairsAt m).length == 1) = false := by
          rw [hpairs]
          exact hmulti
        have hself := mergeNode_self t m hmulti2
        rw [hpairs, hm, hv] at hself
        have hself2 := hself.2
        have hfind : (s.gridVelocity m).find? (fun pr2 => t.isDirichletAt m pr2.1)
            = (s.gridVelocity m).find? (fun pr2 => s.isDirichletAt m pr2.1) := by
          have hpq : (fun pr2 : Nat × Vec2 => t.isDirichletAt m pr2.1)
              = (fun pr2 : Nat × Vec2 => s.isDirichletAt m pr2.1) := by
            funext pr2
            rw [hdirich]
          rw [hpq]
        rw [hfind] at hself2
        exact ⟨hrest.1.trans hself.1, hrest.2.trans hself2⟩
      · have hmem2 : n ∈ ms := by
          rcases List.mem_cons.mp hmem with h1 | h1
          · exact absurd h1.symm hmn
          · exact h1
        have hstep := mergeNode_other t m n (fun he => hmn he.symm)
        have hfields := mergeNode_fields t m
        exact ih (t.mergeNode m) (List.nodup_cons.mp hnd).2 hmem2
          (hstep.1.trans hm) (hstep.2.trans hv)
          (hfields.1.trans hag) (hfields.2.1.trans hdg)
  unfold mergeNoContactPhase
  exact main s.activeNodeList s (by unfold activeNodeList; exact List.nodup_dedup _)
    hact rfl rfl rfl rfl

/-- The scatter of one particle never touches the contact flag. -/
theorem scatterParticle_hasContact (t : Solver) (o2 p : Nat) :
    (t.scatterParticle o2 p).hasContactMethod = t.hasContactMethod := by
  have hg : ∀ u : Solver,
      (u.scatterParticleToGrid o2 p).hasContactMethod = u.hasContactMethod := by
    intro u
    unfold scatterParticleToGrid
    refine foldl_invariant (fun w => w.hasContactMethod = u.hasContactMethod) _ _ u rfl ?_
    intro w pr _ hw
    rw [← hw]
    unfold scatterGridPairStep
    dsimp only
    split <;> rfl
  have hc : ∀ u : Solver,
      (u.scatterParticleToCorner o2 p).hasContactMethod = u.hasContactMethod := by
    intro u
    unfold scatterParticleToCorner
    refine foldl_invariant (fun w => w.hasContactMethod = u.hasContactMethod) _ _ u rfl ?_
    intro w c _ hw
    rw [← hw]
    unfold scatterCornerStep
    dsimp only
    split <;> rfl
  unfold scatterParticle
  dsimp only
  split
  · split
    · rw [hc, hg]
    · rw [hc]
  · split
    · rw [hg]
    · rfl

/-- The whole scatter phase never touches the contact flag. -/
theorem rasterizeScatter_hasContact (s : Solver) :
    (s.rasterizeScatter).hasContactMethod = s.hasContactMethod := by
  unfold rasterizeScatter
  refine foldl_invariant (fun t => t.hasContactMethod = s.hasContactMethod) _ _ s rfl ?_
  intro t o2 _ ht
  rw [← ht]
  rw [normalizeCornerVelocity_eq ((List.range (t.particleNumOfObject o2)).foldl
    (fun u p => u.scatterParticle o2 p) t) o2]
  show (Solver.hasContactMethod (List.foldl _ t _)) = _
  refine foldl_invariant (fun u => u.hasContactMethod = t.hasContactMethod) _ _ t rfl ?_
  intro u p _ hu
  rw [scatterParticle_hasContact, hu]

/-- The reset and classification phases never touch the contact flag. -/
theorem rasterizePreMerge_hasContact (s : Solver) :
    (s.rasterizePreMerge).hasContactMethod = s.hasContactMethod := by
  have hreset : ∀ u : Solver,
      (u.resetParticleDomainData).hasContactMethod = u.hasContactMethod := by
    intro u
    unfold resetParticleDomainData
    refine foldl_invariant (fun w => w.hasContactMethod = u.hasContactMethod) _ _ u rfl ?_
    intro w o _ hw
    rw [← hw]
    rfl
  have henrich : ∀ u : Solver,
      (u.updateParticleDomainEnrichState).hasContactMethod = u.hasContactMethod := by
    intro u
    rw [updateParticleDomainEnrichState_eq u]
  have hngv : ∀ u : Solver,
      (u.normalizeGridVelocity).hasContactMethod = u.hasContactMethod := by
    intro u
    unfold normalizeGridVelocity
    refine foldl_invariant (fun w => w.hasContactMethod = u.hasContactMethod) _ _ u rfl ?_
    intro w pr _ hw
    rw [← hw]
    unfold normalizeGridStep
    dsimp only
    split <;> rfl
  unfold rasterizePreMerge
  rw [hngv]
  show ((((s.resetGridData).resetParticleDomainData).updateParticleDomainEnrichState).rasterizeScatter).hasContactMethod
    = s.hasContactMethod
  rw [rasterizeScatter_hasContact, henrich, hreset]
  rfl

/-- With no contact method configured, `rasterize` is the pre-merge pipeline
followed by the no-contact merge. -/
theorem rasterize_noContact (s : Solver) (h : s.hasContactMethod = false) :
    s.rasterize = (s.rasterizePreMerge).mergeNoContactPhase := by
  unfold rasterize
  dsimp only
  have hc : (s.rasterizePreMerge).hasContactMethod = false :=
    (rasterizePreMerge_hasContact s).trans h
  rw [hc, if_neg Bool.false_ne_true]

/-- An index-wise write fold keeps the list length. -/
theorem length_setRange {α : Type} (f : Nat → α) :
    ∀ (cs : List Nat) (l : List α),
      (cs.foldl (fun l2 c2 => l2.set c2 (f c2)) l).length = l.length := by
  intro cs
  induction cs with
  | nil => intro l; rfl
  | cons a rest ih =>
    intro l
    simp only [List.foldl_cons]
    rw [ih]
    simp

/-- Reading an in-range entry written by an index-wise fold over the index
range. -/
theorem getD_setRange {α : Type} (f : Nat → α) (d : α) :
    ∀ (n c : Nat) (l : List α), c < n → c < l.length →
      ((List.range n).foldl (fun l2 c2 => l2.set c2 (f c2)) l).getD c d = f c := by
  intro n
  induction n with
  | zero =>
    intro c l hc _
    omega
  | succ k ih =>
    intro c l hc hlen
    rw [@List.range_succ k, List.foldl_append]
    simp only [List.foldl_cons, List.foldl_nil]
    by_cases hck : c = k
    · subst hck
      apply getD_set_self
      rw [length_setRange]
      exact hlen
    · rw [getD_set_ne _ _ _ _ _ (fun he => hck he.symm)]
      exact ih c l (by omega) hlen

/-- Reading an entry of a fold that overwrites whole entries at distinct
indices: the entry written at `i` survives. -/
theorem getD_foldl_set {α : Type} (F : Nat → α) (d : α) :
    ∀ (os : List Nat), os.Nodup → ∀ (l : List α) (i : Nat), i ∈ os → i < l.length →
      (os.foldl (fun l2 o => l2.set o (F o)) l).getD i d = F i := by
  have hnot : ∀ (os : List Nat) (l : List α) (i : Nat), i ∉ os →
      (os.foldl (fun l2 o => l2.set o (F o)) l).getD i d = l.getD i d := by
    intro os
    induction os with
    | nil => intro l i _; rfl
    | cons a rest ih =>
      intro l i hm
      simp only [List.foldl_cons]
      rw [ih _ _ (fun h => hm (List.mem_cons_of_mem _ h))]
      exact getD_set_ne _ _ _ _ _ (fun he => hm (he ▸ List.mem_cons_self a rest))
  intro os
  induction os with
  | nil => intro _ l i hi; cases hi
  | cons a rest ih =>
    intro hnd l i hi hlen
    simp only [List.foldl_cons]
    by_cases hai : a = i
    · subst hai
      rw [hnot rest _ a (List.nodup_cons.mp hnd).1]
      exact getD_set_self _ _ _ _ hlen
    · rcases List.mem_cons.mp hi with h1 | h1
      · exact absurd h1.symm hai
      · exact ih (List.nodup_cons.mp hnd).2 (l.set a (F a)) i h1 (by simpa using hlen)

/-- `eleVertIndex` only reads the connectivity array. -/
theorem eleVertIndex_domains_congr (m1 m2 : VolMesh) (p c : Nat)
    (h : m1.domains = m2.domains) : m1.eleVertIndex p c = m2.eleVertIndex p c := by
  unfold VolMesh.eleVertIndex
  rw [h]

/-- A fold of vertex writes keeps the connectivity and the vertex count. -/
theorem meshFold_base (M0 : VolMesh) (p2 : Nat) (w : Nat → Vec2) :
    ∀ (cs : List Nat) (m : VolMesh), m.domains = M0.domains →
      m.verts.length = M0.verts.length →
      ((cs.foldl (fun m2 c2 => m2.setVertPos (m2.eleVertIndex p2 c2) (w c2)) m).domains
        = M0.domains ∧
       (cs.foldl (fun m2 c2 => m2.setVertPos (m2.eleVertIndex p2 c2) (w c2)) m).verts.length
        = M0.verts.length) := by
  intro cs
  induction cs with
  | nil => intro m h1 h2; exact ⟨h1, h2⟩
  | cons a rest ih =>
    intro m h1 h2
    simp only [List.foldl_cons]
    exact ih _ (by simp [h1]) (by simp [h2])

/-- Once vertex `g` holds `v`, a fold of vertex writes all of whose writers
of `g` write `v` keeps it at `v`. -/
theorem meshFold_preserve (M0 : VolMesh) (p2 : Nat) (w : Nat → Vec2) (g : Nat) (v : Vec2) :
    ∀ (cs : List Nat) (m : VolMesh),
      (∀ c2 ∈ cs, M0.eleVertIndex p2 c2 = g → w c2 = v) →
      m.domains = M0.domains → m.verts.length = M0.verts.length → m.vertPos g = v →
      ((cs.foldl (fun m2 c2 => m2.setVertPos (m2.eleVertIndex p2 c2) (w c2)) m).domains
        = M0.domains ∧
       (cs.foldl (fun m2 c2 => m2.setVertPos (m2.eleVertIndex p2 c2) (w c2)) m).verts.length
        = M0.verts.length ∧
       (cs.foldl (fun m2 c2 => m2.setVertPos (m2.eleVertIndex p2 c2) (w c2)) m).vertPos g
        = v) := by
  intro cs
  induction cs with
  | nil => intro m _ h1 h2 h3; exact ⟨h1, h2, h3⟩
  | cons a rest ih =>
    intro m hw h1 h2 h3
    simp only [List.foldl_cons]
    have hele : m.eleVertIndex p2 a = M0.eleVertIndex p2 a := by
      unfold VolMesh.eleVertIndex
      rw [h1]
    have hstep : (m.setVertPos (m.eleVertIndex p2 a) (w a)).vertPos g = v := by
      by_cases hg : M0.eleVertIndex p2 a = g
      · have hv : w a = v := hw a (List.mem_cons_self _ _) hg
        rw [hele, hg, hv]
        unfold VolMesh.vertPos VolMesh.setVertPos
        by_cases hlt : g < m.verts.length
        · exact getD_set_self _ _ _ _ hlt
        · rw [List.set_eq_of_length_le (not_lt.mp hlt)]
          exact h3
      · rw [hele]
        unfold VolMesh.vertPos VolMesh.setVertPos
        exact (getD_set_ne _ _ _ _ _ hg).trans h3
    exact ih _ (fun c2 hc2 => hw c2 (List.mem_cons_of_mem _ hc2))
      (by simp [h1]) (by simp [h2]) hstep

/-- A fold of vertex writes containing a writer of vertex `g` whose writers
of `g` all write `v` ends with vertex `g` holding `v`. -/
theorem meshFold_establish (M0 : VolMesh) (p2 : Nat) (w : Nat → Vec2) (g : Nat) (v : Vec2)
    (c : Nat) (hgc : M0.eleVertIndex p2 c = g) (hglen : g < M0.verts.length) :
    ∀ (cs : List Nat) (m : VolMesh), c ∈ cs →
      (∀ c2 ∈ cs, M0.eleVertIndex p2 c2 = g → w c2 = v) →
      m.domains = M0.domains → m.verts.length = M0.verts.length →
      ((cs.foldl (fun m2 c2 => m2.setVertPos (m2.eleVertIndex p2 c2) (w c2)) m).domains
        = M0.domains ∧
       (cs.foldl (fun m2 c2 => m2.setVertPos (m2.eleVertIndex p2 c2) (w c2)) m).verts.length
        = M0.verts.length ∧
       (cs.foldl (fun m2 c2 => m2.setVertPos (m2.eleVertIndex p2 c2) (w c2)) m).vertPos g
        = v) := by
  intro cs
  induction cs with
  | nil => intro m hmem; cases hmem
  | cons a rest ih =>
    intro m hmem hw h1 h2
    simp only [List.foldl_cons]
    have hele : m.eleVertIndex p2 a = M0.eleVertIndex p2 a := by
      unfold VolMesh.eleVertIndex
      rw [h1]
    by_cases hac : a = c
    · subst hac
      have hstep : (m.setVertPos (m.eleVertIndex p2 a) (w a)).vertPos g = v := by
        rw [hele, hgc, hw a (List.mem_cons_self _ _) hgc]
        unfold VolMesh.vertPos VolMesh.setVertPos
        exact getD_set_self _ _ _ _ (h2 ▸ hglen)
      exact meshFold_preserve M0 p2 w g v rest _
        (fun c2 hc2 => hw c2 (List.mem_cons_of_mem _ hc2))
        (by simp [h1]) (by simp [h2]) hstep
    · have hmem2 : c ∈ rest := by
        rcases List.mem_cons.mp hmem with hh | hh
        · exact absurd hh.symm hac
        · exact hh
      exact ih _ hmem2 (fun c2 hc2 => hw c2 (List.mem_cons_of_mem _ hc2))
        (by simp [h1]) (by simp [h2])

/-- The mesh advection of one object (source lines 395-412): connectivity
and vertex count are kept, and — provided every `(particle, corner)` pair
sharing the global vertex of `(p, c)` computes the same new position — that
vertex ends holding `(p, c)`'s freshly computed corner position. -/
theorem advectMeshOfObject_at (s : Solver) (dt : ℚ) (obj p c : Nat)
    (hp : p < s.particleNumOfObject obj) (hc : c < 4)
    (hvert : (s.meshOf obj).eleVertIndex p c < (s.meshOf obj).vertNum)
    (hagree : ∀ p2 < s.particleNumOfObject obj, ∀ c2 < 4,
      (s.meshOf obj).eleVertIndex p2 c2 = (s.meshOf obj).eleVertIndex p c →
      s.newCornerPosition dt obj p2 c2 = s.newCornerPosition dt obj p c) :
    (s.advectMeshOfObject dt obj).domains = (s.meshOf obj).domains ∧
    (s.advectMeshOfObject dt obj).verts.length = (s.meshOf obj).verts.length ∧
    (s.advectMeshOfObject dt obj).vertPos ((s.meshOf obj).eleVertIndex p c)
      = s.newCornerPosition dt obj p c := by
  have hpreserve : ∀ (ps : List Nat) (m : VolMesh),
      (∀ p2 ∈ ps, p2 < s.particleNumOfObject obj) →
      m.domains = (s.meshOf obj).domains →
      m.verts.length = (s.meshOf obj).verts.length →
      m.vertPos ((s.meshOf obj).eleVertIndex p c) = s.newCornerPosition dt obj p c →
      ((ps.foldl (fun m2 p2 => (List.range 4).foldl (fun m3 c2 =>
          m3.setVertPos (m3.eleVertIndex p2 c2) (s.newCornerPosition dt obj p2 c2)) m2) m).domains
        = (s.meshOf obj).domains ∧
       (ps.foldl (fun m2 p2 => (List.range 4).foldl (fun m3 c2 =>
          m3.setVertPos (m3.eleVertIndex p2 c2) (s.newCornerPosition dt obj p2 c2)) m2) m).verts.length
        = (s.meshOf obj).verts.length ∧
       (ps.foldl (fun m2 p2 => (List.range 4).foldl (fun m3 c2 =>
          m3.setVertPos (m3.eleVertIndex p2 c2) (s.newCornerPosition dt obj p2 c2)) m2) m).vertPos
          ((s.meshOf obj).eleVertIndex p c)
        = s.newCornerPosition dt obj p c) := by
    intro ps
    induction ps with
    | nil => intro m _ h1 h2 h3; exact ⟨h1, h2, h3⟩
    | cons p2 rest ih =>
      intro m hps h1 h2 h3
      simp only [List.foldl_cons]
      have hstep := meshFold_preserve (s.meshOf obj) p2
        (fun c2 => s.newCornerPosition dt obj p2 c2)
        ((s.meshOf obj).eleVertIndex p c) (s.newCornerPosition dt obj p c)
        (List.range 4) m
        (fun c2 hc2 heq =>
          hagree p2 (hps p2 (List.mem_cons_self _ _)) c2 (List.mem_range.mp hc2) heq)
        h1 h2 h3
      exact ih _ (fun p3 hp3 => hps p3 (List.mem_cons_of_mem _ hp3))
        hstep.1 hstep.2.1 hstep.2.2
  have hmain : ∀ (ps : List Nat) (m : VolMesh),
      (∀ p2 ∈ ps, p2 < s.particleNumOfObject obj) → p ∈ ps →
      m.domains = (s.meshOf obj).domains →
      m.verts.length = (s.meshOf obj).verts.length →
      ((ps.foldl (fun m2 p2 => (List.range 4).foldl (fun m3 c2 =>
          m3.setVertPos (m3.eleVertIndex p2 c2) (s.newCornerPosition dt obj p2 c2)) m2) m).domains
        = (s.meshOf obj).domains ∧
       (ps.foldl (fun m2 p2 => (List.range 4).foldl (fun m3 c2 =>
          m3.setVertPos (m3.eleVertIndex p2 c2) (s.newCornerPosition dt obj p2 c2)) m2) m).verts.length
        = (s.meshOf obj).verts.length ∧
       (ps.foldl (fun m2 p2 => (List.range 4).foldl (fun m3 c2 =>
          m3.setVertPos (m3.eleVertIndex p2 c2) (s.newCornerPosition dt obj p2 c2)) m2) m).vertPos
          ((s.meshOf obj).eleVertIndex p c)
        = s.newCornerPosition dt obj p c) := by
    intro ps
    induction ps with
    | nil => intro m _ hmem; cases hmem
    | cons p2 rest ih =>
      intro m hps hmem h1 h2
      simp only [List.foldl_cons]
      by_cases hpp : p2 = p
      · subst hpp
        have hstep := meshFold_establish (s.meshOf obj) p2
          (fun c2 => s.newCornerPosition dt obj p2 c2)
          ((s.meshOf obj).eleVertIndex p2 c) (s.newCornerPosition dt obj p2 c)
          c rfl hvert (List.range 4) m (List.mem_range.mpr hc)
          (fun c2 hc2 heq =>
            hagree p2 (hps p2 (List.mem_cons_self _ _)) c2 (List.mem_range.mp hc2) heq)
          h1 h2
        exact hpreserve rest _ (fun p3 hp3 => hps p3 (List.mem_cons_of_mem _ hp3))
          hstep.1 hstep.2.1 hstep.2.2
      · have hmem2 : p ∈ rest := by
          rcases List.mem_cons.mp hmem with hh | hh
          · exact absurd hh.symm hpp
          · exact hh
        have hbase := meshFold_base (s.meshOf obj) p2
          (fun c2 => s.newCornerPosition dt obj p2 c2) (List.range 4) m h1 h2
        exact ih _ (fun p3 hp3 => hps p3 (List.mem_cons_of_mem _ hp3)) hmem2
          hbase.1 hbase.2
  unfold advectMeshOfObject
  exact hmain (List.range (s.particleNumOfObject obj)) (s.meshOf obj)
    (fun p2 hp2 => List.mem_range.mp hp2) (List.mem_range.mpr hp) rfl rfl

/-- Reading left of an append. -/
theorem getD_append_left {α : Type} (l l2 : List α) (i : Nat) (d : α) (h : i < l.length) :
    (l ++ l2).getD i d = l.getD i d := by
  induction l generalizing i with
  | nil => simp at h
  | cons a rest ih =>
    cases i with
    | zero => rfl
    | succ k =>
      simp only [List.cons_append, List.getD_cons_succ]
      exact ih k (by simpa using h)

/-- Reading the appended element. -/
theorem getD_concat_self {α : Type} (l : List α) (x d : α) :
    (l ++ [x]).getD l.length d = x := by
  induction l with
  | nil => rfl
  | cons a rest ih =>
    simpa using ih

/-- Reading the appended element through a known length. -/
theorem getD_concat_eq {α : Type} (l : List α) (x d : α) (n : Nat) (h : l.length = n) :
    (l ++ [x]).getD n d = x := by
  subst h
  exact getD_concat_self l x d

/-- Reading an in-range entry of a replicated list. -/
theorem getD_replicate_lt {α : Type} (k i : Nat) (x d : α) (h : i < k) :
    (List.replicate k x).getD i d = x := by
  induction k generalizing i with
  | zero => omega
  | succ m ih =>
    cases i with
    | zero => rfl
    | succ j =>
      simp only [List.replicate_succ, List.getD_cons_succ]
      exact ih j (by omega)

/-- Erasing an index keeps the entries before it. -/
theorem getD_eraseIdx_lt {α : Type} (l : List α) (i j : Nat) (d : α) (h : j < i) :
    (l.eraseIdx i).getD j d = l.getD j d := by
  induction l generalizing i j with
  | nil => rfl
  | cons a rest ih =>
    cases i with
    | zero => omega
    | succ k =>
      cases j with
      | zero => rfl
      | succ m =>
        simp only [List.eraseIdx_cons_succ, List.getD_cons_succ]
        exact ih k m (by omega)

/-- Erasing an in-range index shifts the entries after it down by one. -/
theorem getD_eraseIdx_ge {α : Type} (l : List α) (i j : Nat) (d : α)
    (hij : i ≤ j) (hi : i < l.length) :
    (l.eraseIdx i).getD j d = l.getD (j + 1) d := by
  induction l generalizing i j with
  | nil => simp at hi
  | cons a rest ih =>
    cases i with
    | zero => rfl
    | succ k =>
      cases j with
      | zero => omega
      | succ m =>
        simp only [List.eraseIdx_cons_succ, List.getD_cons_succ]
        exact ih k m (by omega) (by simpa using hi)

/-- Erasing an in-range index drops the length by one. -/
theorem length_eraseIdx_lt {α : Type} (l : List α) (i : Nat) (h : i < l.length) :
    (l.eraseIdx i).length = l.length - 1 := by
  induction l generalizing i with
  | nil => simp at h
  | cons a rest ih =>
    cases i with
    | zero => simp
    | succ k =>
      simp only [List.eraseIdx_cons_succ, List.length_cons]
      rw [ih k (by simpa using h)]
      have : 0 < rest.length := by
        have := (by simpa using h : k < rest.length)
        omega
      omega

/-- Appending an object (host append plus
`appendAllParticleRelatedDataOfLastObject`) keeps the corner-weight/gradient
storage aligned with the particle arrays. -/
theorem addObject_aligned (s : Solver) (ps : List SolidParticle)
    (halign : s.cornerStorageAligned) : (s.addObject ps).cornerStorageAligned := by
  obtain ⟨h1, h2, h3⟩ := halign
  unfold objectNum at h1 h2 h3
  unfold particleNumOfObject at h3
  unfold cornerStorageAligned objectNum particleNumOfObject
  unfold addObject appendAllParticleRelatedDataOfLastObject objectNum particleNumOfObject
  dsimp only
  have hlast : (s.particles ++ [ps]).length - 1 = s.particles.length := by
    simp
  have hpn : ((s.particles ++ [ps]).getD ((s.particles ++ [ps]).length - 1) []).length
      = ps.length := by
    rw [hlast, getD_concat_self]
  refine ⟨by simp [h1], by simp [h2], ?_⟩
  intro obj2 hobj2
  have hobj2' : obj2 < s.particles.length + 1 := by simpa using hobj2
  by_cases hcase : obj2 < s.particles.length
  · obtain ⟨ha, hb, hrec⟩ := h3 obj2 hcase
    refine ⟨?_, ?_, ?_⟩
    · rw [getD_append_left _ _ _ _ (h1 ▸ hcase), getD_append_left _ _ _ _ hcase]
      exact ha
    · rw [getD_append_left _ _ _ _ (h2 ▸ hcase), getD_append_left _ _ _ _ hcase]
      exact hb
    · intro p2 hp2
      rw [getD_append_left _ _ _ _ hcase] at hp2
      rw [getD_append_left _ _ _ _ (h1 ▸ hcase), getD_append_left _ _ _ _ (h2 ▸ hcase)]
      exact hrec p2 hp2
  · have hend : obj2 = s.particles.length := by omega
    refine ⟨?_, ?_, ?_⟩
    · rw [hend, getD_concat_eq _ _ _ _ h1, getD_concat_eq _ _ _ _ rfl]
      simp [hpn]
    · rw [hend, getD_concat_eq _ _ _ _ h2, getD_concat_eq _ _ _ _ rfl]
      simp [hpn]
    · intro p2 hp2
      rw [hend, getD_concat_eq _ _ _ _ rfl] at hp2
      rw [hend, getD_concat_eq _ _ _ _ h1, getD_concat_eq _ _ _ _ h2, hpn]
      constructor
      · rw [getD_replicate_lt _ _ _ _ hp2]
        simp
      · rw [getD_replicate_lt _ _ _ _ hp2]
        simp

/-- Appending one particle to an object keeps the corner-weight/gradient
storage aligned with the particle arrays. -/
theorem addParticle_aligned (s : Solver) (obj : Nat) (part : SolidParticle)
    (halign : s.cornerStorageAligned) (hobj : obj < s.objectNum) :
    (s.addParticle obj part).cornerStorageAligned := by
  obtain ⟨h1, h2, h3⟩ := halign
  unfold objectNum at hobj
  unfold objectNum at h1 h2 h3
  unfold particleNumOfObject at h3
  unfold cornerStorageAligned objectNum particleNumOfObject
  unfold addParticle appendLastParticleRelatedDataOfObject
  dsimp only
  refine ⟨by simp [h1], by simp [h2], ?_⟩
  intro obj2 hobj2
  have hobj2' : obj2 < s.particles.length := by simpa using hobj2
  by_cases hcase : obj2 = obj
  · subst hcase
    obtain ⟨ha, hb, hrec⟩ := h3 obj2 hobj2'
    refine ⟨?_, ?_, ?_⟩
    · rw [getD_set_self _ _ _ _ (h1 ▸ hobj2'), getD_set_self _ _ _ _ hobj2']
      simp only [List.length_append, List.length_cons, List.length_nil]
      omega
    · rw [getD_set_self _ _ _ _ (h2 ▸ hobj2'), getD_set_self _ _ _ _ hobj2']
      simp only [List.length_append, List.length_cons, List.length_nil]
      omega
    · intro p2 hp2
      rw [getD_set_self _ _ _ _ hobj2'] at hp2
      rw [getD_set_self _ _ _ _ (h1 ▸ hobj2'), getD_set_self _ _ _ _ (h2 ▸ hobj2')]
      simp only [List.length_append, List.length_cons, List.length_nil] at hp2
      by_cases hp3 : p2 < ((s.particles.getD obj2 []).length)
      · rw [getD_append_left _ _ _ _ (ha ▸ hp3), getD_append_left _ _ _ _ (hb ▸ hp3)]
        exact hrec p2 hp3
      · have hp4 : p2 = (s.particles.getD obj2 []).length := by omega
        subst hp4
        rw [show (s.particles.getD obj2 []).length
            = (s.particleCornerWeight.getD obj2 []).length from ha.symm, getD_concat_self,
          ha, show (s.particles.getD obj2 []).length
            = (s.particleCornerGradient.getD obj2 []).length from hb.symm, getD_concat_self]
        simp
  · obtain ⟨ha, hb, hrec⟩ := h3 obj2 hobj2'
    refine ⟨?_, ?_, ?_⟩
    · rw [getD_set_ne _ _ _ _ _ (fun he => hcase he.symm),
        getD_set_ne _ _ _ _ _ (fun he => hcase he.symm)]
      exact ha
    · rw [getD_set_ne _ _ _ _ _ (fun he => hcase he.symm),
        getD_set_ne _ _ _ _ _ (fun he => hcase he.symm)]
      exact hb
    · intro p2 hp2
      rw [getD_set_ne _ _ _ _ _ (fun he => hcase he.symm)] at hp2
      rw [getD_set_ne _ _ _ _ _ (fun he => hcase he.symm),
        getD_set_ne _ _ _ _ _ (fun he => hcase he.symm)]
      exact hrec p2 hp2

/-- Removing an object keeps the corner-weight/gradient storage aligned. -/
theorem removeObject_aligned (s : Solver) (obj : Nat)
    (halign : s.cornerStorageAligned) (hobj : obj < s.objectNum) :
    (s.removeObject obj).cornerStorageAligned := by
  obtain ⟨h1, h2, h3⟩ := halign
  unfold objectNum at hobj
  unfold objectNum at h1 h2 h3
  unfold particleNumOfObject at h3
  unfold cornerStorageAligned objectNum particleNumOfObject
  unfold removeObject deleteAllParticleRelatedDataOfObject
  dsimp only
  refine ⟨?_, ?_, ?_⟩
  · rw [length_eraseIdx_lt _ _ (h1 ▸ hobj), length_eraseIdx_lt _ _ hobj, h1]
  · rw [length_eraseIdx_lt _ _ (h2 ▸ hobj), length_eraseIdx_lt _ _ hobj, h2]
  · intro obj2 hobj2
    rw [length_eraseIdx_lt _ _ hobj] at hobj2
    by_cases hcase : obj2 < obj
    · obtain ⟨ha, hb, hrec⟩ := h3 obj2 (by omega)
      refine ⟨?_, ?_, ?_⟩
      · rw [getD_eraseIdx_lt _ _ _ _ hcase, getD_eraseIdx_lt _ _ _ _ hcase]
        exact ha
      · rw [getD_eraseIdx_lt _ _ _ _ hcase, getD_eraseIdx_lt _ _ _ _ hcase]
        exact hb
      · intro p2 hp2
        rw [getD_eraseIdx_lt _ _ _ _ hcase] at hp2
        rw [getD_eraseIdx_lt _ _ _ _ hcase, getD_eraseIdx_lt _ _ _ _ hcase]
        exact hrec p2 hp2
    · have hge : obj ≤ obj2 := by omega
      obtain ⟨ha, hb, hrec⟩ := h3 (obj2 + 1) (by omega)
      refine ⟨?_, ?_, ?_⟩
      · rw [getD_eraseIdx_ge _ _ _ _ hge (h1 ▸ hobj), getD_eraseIdx_ge _ _ _ _ hge hobj]
        exact ha
      · rw [getD_eraseIdx_ge _ _ _ _ hge (h2 ▸ hobj), getD_eraseIdx_ge _ _ _ _ hge hobj]
        exact hb
      · intro p2 hp2
        rw [getD_eraseIdx_ge _ _ _ _ hge hobj] at hp2
        rw [getD_eraseIdx_ge _ _ _ _ hge (h1 ▸ hobj), getD_eraseIdx_ge _ _ _ _ hge (h2 ▸ hobj)]
        exact hrec p2 hp2

/-- Removing one particle keeps the corner-weight/gradient storage aligned. -/
theorem removeParticle_aligned (s : Solver) (obj p : Nat)
    (halign : s.cornerStorageAligned) (hobj : obj < s.objectNum)
    (hp : p < s.particleNumOfObject obj) :
    (s.removeParticle obj p).cornerStorageAligned := by
  obtain ⟨h1, h2, h3⟩ := halign
  unfold objectNum at hobj
  unfold particleNumOfObject at hp
  unfold objectNum at h1 h2 h3
  unfold particleNumOfObject at h3
  unfold cornerStorageAligned objectNum particleNumOfObject
  unfold removeParticle deleteOneParticleRelatedDataOfObject
  dsimp only
  refine ⟨by simp [h1], by simp [h2], ?_⟩
  intro obj2 hobj2
  have hobj2' : obj2 < s.particles.length := by simpa using hobj2
  by_cases hcase : obj2 = obj
  · subst hcase
    obtain ⟨ha, hb, hrec⟩ := h3 obj2 hobj2'
    refine ⟨?_, ?_, ?_⟩
    · rw [getD_set_self _ _ _ _ (h1 ▸ hobj2'), getD_set_self _ _ _ _ hobj2',
        length_eraseIdx_lt _ _ (ha ▸ hp), length_eraseIdx_lt _ _ hp, ha]
    · rw [getD_set_self _ _ _ _ (h2 ▸ hobj2'), getD_set_self _ _ _ _ hobj2',
        length_eraseIdx_lt _ _ (hb ▸ hp), length_eraseIdx_lt _ _ hp, hb]
    · intro p2 hp2
      rw [getD_set_self _ _ _ _ hobj2', length_eraseIdx_lt _ _ hp] at hp2
      rw [getD_set_self _ _ _ _ (h1 ▸ hobj2'), getD_set_self _ _ _ _ (h2 ▸ hobj2')]
      by_cases hplt : p2 < p
      · rw [getD_eraseIdx_lt _ _ _ _ hplt, getD_eraseIdx_lt _ _ _ _ hplt]
        exact hrec p2 (by omega)
      · have hge : p ≤ p2 := by omega
        rw [getD_eraseIdx_ge _ _ _ _ hge (ha ▸ hp), getD_eraseIdx_ge _ _ _ _ hge (hb ▸ hp)]
        exact hrec (p2 + 1) (by omega)
  · obtain ⟨ha, hb, hrec⟩ := h3 obj2 hobj2'
    refine ⟨?_, ?_, ?_⟩
    · rw [getD_set_ne _ _ _ _ _ (fun he => hcase he.symm),
        getD_set_ne _ _ _ _ _ (fun he => hcase he.symm)]
      exact ha
    · rw [getD_set_ne _ _ _ _ _ (fun he => hcase he.symm),
        getD_set_ne _ _ _ _ _ (fun he => hcase he.symm)]
      exact hb
    · intro p2 hp2
      rw [getD_set_ne _ _ _ _ _ (fun he => hcase he.symm)] at hp2
      rw [getD_set_ne _ _ _ _ _ (fun he => hcase he.symm),
        getD_set_ne _ _ _ _ _ (fun he => hcase he.symm)]
      exact hrec p2 hp2

/-- `constructParticleDomainMesh` rebuilds every object's domain mesh from
the current particle set: the rebuilt mesh has one quad element per particle
of the object, the particle arrays are untouched, and the four per-corner
arrays are resized to the welded vertex count of the rebuilt mesh. -/
theorem constructParticleDomainMesh_rebuilds (s : Solver) (obj : Nat)
    (hobj : obj < s.objectNum) :
    ((s.constructParticleDomainMesh).meshOf obj).eleNum = s.particleNumOfObject obj ∧
    (s.constructParticleDomainMesh).particleNumOfObject obj = s.particleNumOfObject obj ∧
    ((s.constructParticleDomainMesh).isEnrichedDomainCorner.getD obj []).length
      = ((s.constructParticleDomainMesh).meshOf obj).vertNum ∧
    ((s.constructParticleDomainMesh).domainCornerMass.getD obj []).length
      = ((s.constructParticleDomainMesh).meshOf obj).vertNum ∧
    ((s.constructParticleDomainMesh).domainCornerVelocity.getD obj []).length
      = ((s.constructParticleDomainMesh).meshOf obj).vertNum ∧
    ((s.constructParticleDomainMesh).domainCornerVelocityBefore.getD obj []).length
      = ((s.constructParticleDomainMesh).meshOf obj).vertNum := by
  have hstep_base : ∀ (t : Solver) (o : Nat),
      (constructMeshStep t o).particles = t.particles ∧
      (constructMeshStep t o).particleDomainCorners = t.particleDomainCorners ∧
      (constructMeshStep t o).particleDomainMesh.length = t.particleDomainMesh.length ∧
      (constructMeshStep t o).isEnrichedDomainCorner.length
        = t.isEnrichedDomainCorner.length ∧
      (constructMeshStep t o).domainCornerMass.length = t.domainCornerMass.length ∧
      (constructMeshStep t o).domainCornerVelocity.length
        = t.domainCornerVelocity.length ∧
      (constructMeshStep t o).domainCornerVelocityBefore.length
        = t.domainCornerVelocityBefore.length := by
    intro t o
    unfold constructMeshStep
    dsimp only
    refine ⟨rfl, rfl, ?_, ?_, ?_, ?_, ?_⟩ <;> simp
  have hstep_other : ∀ (t : Solver) (o i : Nat), i ≠ o →
      (constructMeshStep t o).particleDomainMesh.getD i VolMesh.empty
          = t.particleDomainMesh.getD i VolMesh.empty ∧
      (constructMeshStep t o).isEnrichedDomainCorner.getD i []
          = t.isEnrichedDomainCorner.getD i [] ∧
      (constructMeshStep t o).domainCornerMass.getD i []
          = t.domainCornerMass.getD i [] ∧
      (constructMeshStep t o).domainCornerVelocity.getD i []
          = t.domainCornerVelocity.getD i [] ∧
      (constructMeshStep t o).domainCornerVelocityBefore.getD i []
          = t.domainCornerVelocityBefore.getD i [] := by
    intro t o i hne
    unfold constructMeshStep
    dsimp only
    exact ⟨getD_set_ne _ _ _ _ _ (fun he => hne he.symm),
      getD_set_ne _ _ _ _ _ (fun he => hne he.symm),
      getD_set_ne _ _ _ _ _ (fun he => hne he.symm),
      getD_set_ne _ _ _ _ _ (fun he => hne he.symm),
      getD_set_ne _ _ _ _ _ (fun he => hne he.symm)⟩
  have hnot : ∀ (os : List Nat) (t : Solver), obj ∉ os →
      ((os.foldl constructMeshStep t).particleDomainMesh.getD obj VolMesh.empty
          = t.particleDomainMesh.getD obj VolMesh.empty ∧
       (os.foldl constructMeshStep t).isEnrichedDomainCorner.getD obj []
          = t.isEnrichedDomainCorner.getD obj [] ∧
       (os.foldl constructMeshStep t).domainCornerMass.getD obj []
          = t.domainCornerMass.getD obj [] ∧
       (os.foldl constructMeshStep t).domainCornerVelocity.getD obj []
          = t.domainCornerVelocity.getD obj [] ∧
       (os.foldl constructMeshStep t).domainCornerVelocityBefore.getD obj []
          = t.domainCornerVelocityBefore.getD obj [] ∧
       (os.foldl constructMeshStep t).particles = t.particles) := by
    intro os
    induction os with
    | nil => intro t _; exact ⟨rfl, rfl, rfl, rfl, rfl, rfl⟩
    | cons o os ih =>
      intro t hmem
      have hne : obj ≠ o := fun he => hmem (by rw [he]; exact List.mem_cons_self o os)
      have hmem2 : obj ∉ os := fun h => hmem (List.mem_cons_of_mem o h)
      obtain ⟨g1, g2, g3, g4, g5, g6⟩ := ih (constructMeshStep t o) hmem2
      obtain ⟨e1, e2, e3, e4, e5⟩ := hstep_other t o obj hne
      simp only [List.foldl_cons]
      exact ⟨g1.trans e1, g2.trans e2, g3.trans e3, g4.trans e4, g5.trans e5,
        g6.trans (hstep_base t o).1⟩
  have hmain : ∀ (os : List Nat) (t : Solver), os.Nodup → obj ∈ os →
      t.particles = s.particles → t.particleDomainCorners = s.particleDomainCorners →
      obj < t.particleDomainMesh.length →
      obj < t.isEnrichedDomainCorner.length →
      obj < t.domainCornerMass.length →
      obj < t.domainCornerVelocity.length →
      obj < t.domainCornerVelocityBefore.length →
      ((os.foldl constructMeshStep t).particleDomainMesh.getD obj VolMesh.empty
          = ⟨(weldCorners (s.flattenedCorners obj)).1, s.particleNumOfObject obj,
             (weldCorners (s.flattenedCorners obj)).2⟩ ∧
       ((os.foldl constructMeshStep t).isEnrichedDomainCorner.getD obj []).length
          = (weldCorners (s.flattenedCorners obj)).1.length ∧
       ((os.foldl constructMeshStep t).domainCornerMass.getD obj []).length
          = (weldCorners (s.flattenedCorners obj)).1.length ∧
       ((os.foldl constructMeshStep t).domainCornerVelocity.getD obj []).length
          = (weldCorners (s.flattenedCorners obj)).1.length ∧
       ((os.foldl constructMeshStep t).domainCornerVelocityBefore.getD obj []).length
          = (weldCorners (s.flattenedCorners obj)).1.length ∧
       (os.foldl constructMeshStep t).particles = s.particles) := by
    intro os
    induction os with
    | nil => intro t _ hmem; exact absurd hmem (List.not_mem_nil obj)
    | cons o os ih =>
      intro t hnd hmem hpart hpdc hb1 hb2 hb3 hb4 hb5
      simp only [List.foldl_cons]
      by_cases hcase : obj = o
      · subst hcase
        have hnotmem : obj ∉ os := (List.nodup_cons.1 hnd).1
        obtain ⟨hm0, hv1, hv2, hv3, hv4, hp6⟩ :=
          hnot os (constructMeshStep t obj) hnotmem
        have hfc : t.flattenedCorners obj = s.flattenedCorners obj := by
          unfold flattenedCorners particleNumOfObject get3
          rw [hpart, hpdc]
        have hpn : t.particleNumOfObject obj = s.particleNumOfObject obj := by
          unfold particleNumOfObject
          rw [hpart]
        refine ⟨?_, ?_, ?_, ?_, ?_, ?_⟩
        · rw [hm0]
          unfold constructMeshStep
          dsimp only
          rw [getD_set_self _ _ _ _ hb1, hfc, hpn]
        · rw [hv1]
          unfold constructMeshStep
          dsimp only
          rw [getD_set_self _ _ _ _ hb2, length_resizeList, hfc]
        · rw [hv2]
          unfold constructMeshStep
          dsimp only
          rw [getD_set_self _ _ _ _ hb3, length_resizeList, hfc]
        · rw [hv3]
          unfold constructMeshStep
          dsimp only
          rw [getD_set_self _ _ _ _ hb4, length_resizeList, hfc]
        · rw [hv4]
          unfold constructMeshStep
          dsimp only
          rw [getD_set_self _ _ _ _ hb5, length_resizeList, hfc]
        · rw [hp6]
          exact hpart
      · have hmem2 : obj ∈ os := by
          rcases List.mem_cons.1 hmem with h | h
          · exact absurd h hcase
          · exact h
        have hb := hstep_base t o
        exact ih (constructMeshStep t o) (List.nodup_cons.1 hnd).2 hmem2
          (hb.1.trans hpart) (hb.2.1.trans hpdc)
          (by rw [hb.2.2.1]; exact hb1)
          (by rw [hb.2.2.2.1]; exact hb2)
          (by rw [hb.2.2.2.2.1]; exact hb3)
          (by rw [hb.2.2.2.2.2.1]; exact hb4)
          (by rw [hb.2.2.2.2.2.2]; exact hb5)
  have hu : s.constructParticleDomainMesh
      = (List.range s.objectNum).foldl constructMeshStep
          { s with
            particleDomainMesh := resizeList s.particleDomainMesh s.objectNum VolMesh.empty,
            isEnrichedDomainCorner := resizeList s.isEnrichedDomainCorner s.objectNum [],
            domainCornerMass := resizeList s.domainCornerMass s.objectNum [],
            domainCornerVelocity := resizeList s.domainCornerVelocity s.objectNum [],
            domainCornerVelocityBefore :=
              resizeList s.domainCornerVelocityBefore s.objectNum [] } := rfl
  obtain ⟨hm0, h1, h2, h3, h4, hps⟩ := hmain (List.range s.objectNum)
    { s with
      particleDomainMesh := resizeList s.particleDomainMesh s.objectNum VolMesh.empty,
      isEnrichedDomainCorner := resizeList s.isEnrichedDomainCorner s.objectNum [],
      domainCornerMass := resizeList s.domainCornerMass s.objectNum [],
      domainCornerVelocity := resizeList s.domainCornerVelocity s.objectNum [],
      domainCornerVelocityBefore :=
        resizeList s.domainCornerVelocityBefore s.objectNum [] }
    (List.nodup_range _) (List.mem_range.2 hobj) rfl rfl
    (by simpa using hobj) (by simpa using hobj) (by simpa using hobj)
    (by simpa using hobj) (by simpa using hobj)
  refine ⟨?_, ?_, ?_, ?_, ?_, ?_⟩
  · rw [hu]
    unfold meshOf
    rw [hm0]
  · rw [hu]
    unfold particleNumOfObject
    rw [hps]
  · rw [hu]
    unfold meshOf VolMesh.vertNum
    rw [hm0, h1]
  · rw [hu]
    unfold meshOf VolMesh.vertNum
    rw [hm0, h2]
  · rw [hu]
    unfold meshOf VolMesh.vertNum
    rw [hm0, h3]
  · rw [hu]
    unfold meshOf VolMesh.vertNum
    rw [hm0, h4]

/-- One grid-normalization step leaves all three domain-corner arrays
untouched. -/
theorem normalizeGridStep_corners (t : Solver) (pr : Nat × Nat) :
    (normalizeGridStep t pr).domainCornerMass = t.domainCornerMass ∧
    (normalizeGridStep t pr).domainCornerVelocity = t.domainCornerVelocity ∧
    (normalizeGridStep t pr).domainCornerVelocityBefore = t.domainCornerVelocityBefore := by
  unfold normalizeGridStep
  dsimp only
  split <;> exact ⟨rfl, rfl, rfl⟩

/-- The no-contact merge at one node leaves all three domain-corner arrays
untouched. -/
theorem mergeNode_corners (s : Solver) (n : Nat) :
    (mergeNode s n).domainCornerMass = s.domainCornerMass ∧
    (mergeNode s n).domainCornerVelocity = s.domainCornerVelocity ∧
    (mergeNode s n).domainCornerVelocityBefore = s.domainCornerVelocityBefore := by
  unfold mergeNode
  dsimp only
  split <;> exact ⟨rfl, rfl, rfl⟩

/-- The grid phases of `rasterize` after the per-object scatter loop
(active-node detection, grid normalization, no-contact merge) never touch the
domain-corner arrays: `rasterize`'s corner state is exactly the output of
reset, enrichment classification and `rasterizeScatter`. -/
theorem rasterize_corners (s : Solver) :
    (s.rasterize).domainCornerMass
      = ((((s.resetGridData).resetParticleDomainData).updateParticleDomainEnrichState).rasterizeScatter).domainCornerMass ∧
    (s.rasterize).domainCornerVelocity
      = ((((s.resetGridData).resetParticleDomainData).updateParticleDomainEnrichState).rasterizeScatter).domainCornerVelocity ∧
    (s.rasterize).domainCornerVelocityBefore
      = ((((s.resetGridData).resetParticleDomainData).updateParticleDomainEnrichState).rasterizeScatter).domainCornerVelocityBefore := by
  have hfold : ∀ (l : List (Nat × Nat)) (t : Solver),
      ((l.foldl normalizeGridStep t).domainCornerMass = t.domainCornerMass ∧
       (l.foldl normalizeGridStep t).domainCornerVelocity = t.domainCornerVelocity ∧
       (l.foldl normalizeGridStep t).domainCornerVelocityBefore = t.domainCornerVelocityBefore) := by
    intro l
    induction l with
    | nil => intro t; exact ⟨rfl, rfl, rfl⟩
    | cons pr rest ih =>
      intro t
      simp only [List.foldl_cons]
      have h1 := normalizeGridStep_corners t pr
      have h2 := ih (normalizeGridStep t pr)
      exact ⟨h2.1.trans h1.1, h2.2.1.trans h1.2.1, h2.2.2.trans h1.2.2⟩
  have hmerge : ∀ (l : List Nat) (t : Solver),
      ((l.foldl mergeNode t).domainCornerMass = t.domainCornerMass ∧
       (l.foldl mergeNode t).domainCornerVelocity = t.domainCornerVelocity ∧
       (l.foldl mergeNode t).domainCornerVelocityBefore = t.domainCornerVelocityBefore) := by
    intro l
    induction l with
    | nil => intro t; exact ⟨rfl, rfl, rfl⟩
    | cons n rest ih =>
      intro t
      simp only [List.foldl_cons]
      have h1 := mergeNode_corners t n
      have h2 := ih (mergeNode t n)
      exact ⟨h2.1.trans h1.1, h2.2.1.trans h1.2.1, h2.2.2.trans h1.2.2⟩
  unfold rasterize rasterizePreMerge
  dsimp only
  set u := ((((s.resetGridData).resetParticleDomainData).updateParticleDomainEnrichState).rasterizeScatter) with hu
  have hnorm := hfold (u.computeActiveGridNodes).activeGridNode u.computeActiveGridNodes
  have hact : (u.computeActiveGridNodes).domainCornerMass = u.domainCornerMass ∧
      (u.computeActiveGridNodes).domainCornerVelocity = u.domainCornerVelocity ∧
      (u.computeActiveGridNodes).domainCornerVelocityBefore = u.domainCornerVelocityBefore :=
    ⟨rfl, rfl, rfl⟩
  set w := (u.computeActiveGridNodes).normalizeGridVelocity with hw
  have hwu : w.domainCornerMass = u.domainCornerMass ∧
      w.domainCornerVelocity = u.domainCornerVelocity ∧
      w.domainCornerVelocityBefore = u.domainCornerVelocityBefore := by
    rw [hw]
    unfold normalizeGridVelocity
    exact ⟨hnorm.1.trans hact.1, hnorm.2.1.trans hact.2.1, hnorm.2.2.trans hact.2.2⟩
  split
  · exact hwu
  · have hm := hmerge (w.activeNodeList) w
    unfold mergeNoContactPhase
    exact ⟨hm.1.trans hwu.1, hm.2.1.trans hwu.2.1, hm.2.2.trans hwu.2.2⟩

end Solver

/-- **C10.** With the built-in enrichment criterion (the stub
`isEnrichCriteriaSatisfiedSource`, true for every particle), immediately
after `updateParticleDomainEnrichState` every domain corner of every object
is marked enriched, so every particle is fully enriched; consequently
`rasterize` leaves the grid (mass maps and active table) untouched, and on
any fully enriched state the grid branches of
`updateParticleConstitutiveModelState` (velocity gradient),
`solveOnGridForwardEuler` (grid velocities) and `updateParticleVelocity`
are never executed. -/
theorem C10_stub_criterion_disables_grid (s : Solver)
    (hcrit : ∀ o p2 : Nat, s.enrichCriteria o p2 = Solver.isEnrichCriteriaSatisfiedSource o p2)
    (hidx : ∀ obj < s.objectNum, ∀ p < s.particleNumOfObject obj, ∀ c < 4,
      (s.meshOf obj).eleVertIndex p c < (s.isEnrichedDomainCorner.getD obj []).length)
    (htouch : ∀ obj < s.objectNum, ∀ g < (s.meshOf obj).vertNum,
      ∃ p < s.particleNumOfObject obj, ∃ c < 4, (s.meshOf obj).eleVertIndex p c = g) :
    (∀ obj < s.objectNum, ∀ g < (s.meshOf obj).vertNum,
      get2 (s.updateParticleDomainEnrichState).isEnrichedDomainCorner obj g false = true) ∧
    Solver.fullyEnriched (s.updateParticleDomainEnrichState) ∧
    ((∀ n, (s.rasterize).gridMass n = []) ∧ (s.rasterize).activeGridNode = []) ∧
    (∀ u : Solver, Solver.fullyEnriched u →
      (∀ obj < u.objectNum, ∀ p < u.particleNumOfObject obj,
        u.particleVelGrad obj p = u.particleVelGradCornerOnly obj p) ∧
      (∀ dt : ℚ, (u.solveOnGridForwardEuler dt).gridVelocity = u.gridVelocity) ∧
      (∀ obj < u.objectNum, ∀ p < u.particleNumOfObject obj,
        get2 u.isDirichletParticle obj p false = false →
        ((u.updateParticleVelocity).particleAt obj p).velocity
          = u.flipVelocityCornerOnly obj p)) := by
  have hcrit2 : ∀ o p2 : Nat, s.enrichCriteria o p2 = true := fun o p2 => hcrit o p2
  refine ⟨?_, ?_, ?_, ?_⟩
  · intro obj hobj g _
    rw [Solver.get2_updateParticleDomainEnrichState s obj g hobj (hidx obj hobj)]
    right
    rcases htouch obj hobj g (by assumption) with ⟨p, hp, c, hc, hg⟩
    exact ⟨p, hp, hcrit2 obj p, c, hc, hg⟩
  · exact Solver.fullyEnriched_updateParticleDomainEnrichState s hcrit2 hidx
  · exact Solver.rasterize_grid_empty s hcrit2 hidx
  · intro u hfe
    refine ⟨?_, ?_, ?_⟩
    · intro obj hobj p hp
      exact Solver.particleVelGrad_cornerOnly u obj p (hfe obj hobj p hp)
    · intro dt
      exact (Solver.solveOnGridForwardEuler_grid_untouched u dt hfe).1
    · intro obj hobj p hp hd
      exact Solver.updateParticleVelocity_cornerOnly u obj p hobj hp hd (hfe obj hobj p hp)

/-- Witness for C10 at `solverC2` (stub criterion, one particle whose four
corners are the whole vertex set). -/
theorem C10_stub_criterion_disables_grid_witness :
    ((∀ o p2 : Nat, solverC2.enrichCriteria o p2 = Solver.isEnrichCriteriaSatisfiedSource o p2) ∧
     (∀ obj < solverC2.objectNum, ∀ p < solverC2.particleNumOfObject obj, ∀ c < 4,
       (solverC2.meshOf obj).eleVertIndex p c
         < (solverC2.isEnrichedDomainCorner.getD obj []).length) ∧
     (∀ obj < solverC2.objectNum, ∀ g < (solverC2.meshOf obj).vertNum,
       ∃ p < solverC2.particleNumOfObject obj, ∃ c < 4,
         (solverC2.meshOf obj).eleVertIndex p c = g)) ∧
    ((∀ obj < solverC2.objectNum, ∀ g < (solverC2.meshOf obj).vertNum,
      get2 (solverC2.updateParticleDomainEnrichState).isEnrichedDomainCorner obj g false = true) ∧
    Solver.fullyEnriched (solverC2.updateParticleDomainEnrichState) ∧
    ((∀ n, (solverC2.rasterize).gridMass n = []) ∧ (solverC2.rasterize).activeGridNode = []) ∧
    (∀ u : Solver, Solver.fullyEnriched u →
      (∀ obj < u.objectNum, ∀ p < u.particleNumOfObject obj,
        u.particleVelGrad obj p = u.particleVelGradCornerOnly obj p) ∧
      (∀ dt : ℚ, (u.solveOnGridForwardEuler dt).gridVelocity = u.gridVelocity) ∧
      (∀ obj < u.objectNum, ∀ p < u.particleNumOfObject obj,
        get2 u.isDirichletParticle obj p false = false →
        ((u.updateParticleVelocity).particleAt obj p).velocity
          = u.flipVelocityCornerOnly obj p))) :=
  ⟨⟨fun _ _ => rfl, by decide, by decide⟩,
    C10_stub_criterion_disables_grid solverC2 (fun _ _ => rfl) (by decide) (by decide)⟩

/-- **C4.** Enrichment is corner-level and monotonic within a step: all
enrichment flags are reset to ordinary by `resetParticleDomainData` before
classification runs, and after `updateParticleDomainEnrichState` a domain
corner is enriched if and only if at least one particle whose domain contains
that corner satisfies the enrichment criterion — hence the corner is enriched
for every particle sharing it that step. -/
theorem C4_enrichment_corner_level (s : Solver) (obj g : Nat)
    (hobj : obj < s.objectNum)
    (hg : g < (s.meshOf obj).vertNum)
    (hrowlen : (s.isEnrichedDomainCorner.getD obj []).length = (s.meshOf obj).vertNum)
    (hidx : ∀ p < s.particleNumOfObject obj, ∀ c < 4,
      (s.meshOf obj).eleVertIndex p c < (s.meshOf obj).vertNum) :
    get2 (s.resetParticleDomainData).isEnrichedDomainCorner obj g false = false ∧
    (get2 ((s.resetParticleDomainData).updateParticleDomainEnrichState).isEnrichedDomainCorner
        obj g false = true ↔ Solver.cornerEnrichRequested s obj g) := by
  have hbase := Solver.resetParticleDomainData_base s
  have hrows := Solver.rows_resetParticleDomainData s obj hobj
  have hreset : get2 (s.resetParticleDomainData).isEnrichedDomainCorner obj g false = false := by
    unfold get2
    rw [hrows.1, getD_resetRange]
    rw [hrowlen]
    simp [hg]
  refine ⟨hreset, ?_⟩
  have hpn : (s.resetParticleDomainData).particleNumOfObject obj = s.particleNumOfObject obj := by
    unfold Solver.particleNumOfObject
    rw [hbase.1]
  have hmeshOf : (s.resetParticleDomainData).meshOf obj = s.meshOf obj := by
    unfold Solver.meshOf
    rw [hbase.2.1]
  have hrowlen2 : ((s.resetParticleDomainData).isEnrichedDomainCorner.getD obj []).length
      = (s.meshOf obj).vertNum := by
    rw [hrows.1, length_resetRange, hrowlen]
  rw [Solver.get2_updateParticleDomainEnrichState (s.resetParticleDomainData) obj g
    (by unfold Solver.objectNum; rw [hbase.1]; exact hobj)
    (by
      intro p hp c hc
      rw [hmeshOf, hrowlen2]
      exact hidx p (by rwa [hpn] at hp) c hc)]
  rw [hreset]
  rw [Solver.cornerEnrichRequested_congr s (s.resetParticleDomainData) obj g
    hbase.1 hbase.2.1 hbase.2.2.1]
  simp

/-- Witness for C4 at `solverC2` (single particle touching corner 0, stub
criterion true): after reset the flag is clear, after classification corner 0
is enriched and the classification condition holds. -/
theorem C4_enrichment_corner_level_witness :
    (0 < solverC2.objectNum ∧ 0 < (solverC2.meshOf 0).vertNum ∧
      (solverC2.isEnrichedDomainCorner.getD 0 []).length = (solverC2.meshOf 0).vertNum ∧
      (∀ p < solverC2.particleNumOfObject 0, ∀ c < 4,
        (solverC2.meshOf 0).eleVertIndex p c < (solverC2.meshOf 0).vertNum)) ∧
    (get2 (solverC2.resetParticleDomainData).isEnrichedDomainCorner 0 0 false = false ∧
    (get2 ((solverC2.resetParticleDomainData).updateParticleDomainEnrichState).isEnrichedDomainCorner
        0 0 false = true ↔ Solver.cornerEnrichRequested solverC2 0 0)) :=
  ⟨⟨by decide, by decide, by decide, by decide⟩,
    C4_enrichment_corner_level solverC2 0 0 (by decide) (by decide) (by decide) (by decide)⟩

set_option maxHeartbeats 1000000 in
/-- **C5 failing input.** One object with two fully enriched particles whose
corner-weight records differ: particle 0's record is `[1,0,0,0]`, particle
1's is `[0,0,0,1/2]`.  Every enriched corner's velocity delta is `(1,0)`. -/
theorem C5_corner_weight_indexing_bug :
    ((solverC5.updateParticleVelocity).particleAt 0 1).velocity = ⟨1, 0⟩ ∧
    ((solverC5.updateParticleVelocitySpecWeights).particleAt 0 1).velocity = ⟨1/2, 0⟩ ∧
    ((solverC5.updateParticleVelocity).particleAt 0 1).velocity ≠
      ((solverC5.updateParticleVelocitySpecWeights).particleAt 0 1).velocity := by
  refine ⟨?_, ?_, ?_⟩ <;>
    norm_num [solverC5, emptySolver, Solver.particleAt, Solver.updateParticleVelocity,
      Solver.velocityBody, Solver.velocityBodySpecWeights,
      Solver.updateParticleVelocitySpecWeights, Solver.enrichedCornerNum, Solver.meshOf,
      Solver.gridPairsOf, Solver.gridMassAt, VolMesh.eleVertIndex, get2, get3,
      ObjMap.mGetD, ObjMap.mfind, Vec2.zero, List.range_succ, List.mapIdx_cons,
      machineEps]

/-- **C2 counterexample.** At `solverC2` (previous determinant `1 > 0`,
remedy branch taken since `det(I + dt·L) = -1`), the updated deformation
gradient has determinant exactly `0`, refuting the claim that
`det(F) > 0` holds after `updateParticleConstitutiveModelState` on every
input that takes the remedy branch. -/
theorem C2_determinant_positivity_cex :
    0 < (solverC2.particleAt 0 0).deformationGradient.det ∧
    ¬ 0 < (Mat2.identityMatrix + (1 : ℚ) • solverC2.particleVelGrad 0 0).det ∧
    ¬ 0 < ((solverC2.updateParticleConstitutiveModelState 1).particleAt 0 0).deformationGradient.det := by
  refine ⟨?_, ?_, ?_⟩ <;>
    norm_num [solverC2, emptySolver, Solver.particleAt, Solver.objectNum,
      Solver.particleNumOfObject, Solver.updateParticleConstitutiveModelState,
      Solver.constitutiveBody,
      Solver.updateDeformationGradient, Solver.particleVelGrad, Solver.enrichedCornerNum,
      Solver.meshOf, Solver.gridPairsOf, Solver.gridVelocityAt, VolMesh.eleVertIndex,
      get2, get3, ObjMap.mGetD, ObjMap.mfind, Mat2.det, Mat2.identityMatrix, Mat2.zero,
      Mat2.outerProduct, Vec2.zero, List.range_succ, List.mapIdx_cons]

/-- **C2 (amended).** After `updateParticleConstitutiveModelState`, a
particle whose previous deformation gradient has positive determinant ends
with non-negative determinant: strictly positive in the normal branch, and
in the remedy branch equal to `det(I + dt·L/2)²·det(F_prev)`, which is zero
exactly when `det(I + dt·L/2) = 0` (so the asserted `det(F) > 0` can fail
there, but never goes negative). -/
theorem C2_determinant_nonneg (s : Solver) (dt : ℚ) (obj p : Nat)
    (hobj : obj < s.objectNum) (hp : p < s.particleNumOfObject obj)
    (hF : 0 < (s.particleAt obj p).deformationGradient.det) :
    0 ≤ ((s.updateParticleConstitutiveModelState dt).particleAt obj p).deformationGradient.det ∧
    (0 < (Mat2.identityMatrix + dt • s.particleVelGrad obj p).det →
      0 < ((s.updateParticleConstitutiveModelState dt).particleAt obj p).deformationGradient.det) ∧
    (¬ 0 < (Mat2.identityMatrix + dt • s.particleVelGrad obj p).det →
      ((s.updateParticleConstitutiveModelState dt).particleAt obj p).deformationGradient.det =
        (Mat2.identityMatrix + ((1 : ℚ)/2) • (dt • s.particleVelGrad obj p)).det ^ 2 *
          (s.particleAt obj p).deformationGradient.det) := by
  have key : ((s.updateParticleConstitutiveModelState dt).particleAt obj p).deformationGradient
      = Solver.updateDeformationGradient dt (s.particleVelGrad obj p)
        (s.particleAt obj p).deformationGradient := by
    rw [Solver.particleAt_updateConstitutive s dt obj p hobj hp]
  rw [key]
  unfold Solver.updateDeformationGradient
  set A := dt • s.particleVelGrad obj p with hA
  set F := (s.particleAt obj p).deformationGradient with hFdef
  by_cases hdet : 0 < (Mat2.identityMatrix + A).det
  · rw [if_pos hdet]
    have hform : F + A * F = (Mat2.identityMatrix + A) * F := Mat2.add_mul_self A F
    have hpos : 0 < (F + A * F).det := by
      rw [hform, Mat2.det_mul]
      exact mul_pos hdet hF
    exact ⟨le_of_lt hpos, fun _ => hpos, fun hc => absurd hdet hc⟩
  · rw [if_neg hdet]
    have hsq : (dt * dt) • (s.particleVelGrad obj p * s.particleVelGrad obj p) = A * A := by
      rw [hA, Mat2.smul_mul_smul_m]
    have hform : F + (A + ((1 : ℚ)/4) • ((dt * dt) •
        (s.particleVelGrad obj p * s.particleVelGrad obj p))) * F =
        ((Mat2.identityMatrix + ((1 : ℚ)/2) • A) *
          (Mat2.identityMatrix + ((1 : ℚ)/2) • A)) * F := by
      rw [hsq, Mat2.add_mul_self, ← Mat2.add_assoc_m, Mat2.remedy_square]
    have hdetform : (F + (A + ((1 : ℚ)/4) • ((dt * dt) •
        (s.particleVelGrad obj p * s.particleVelGrad obj p))) * F).det =
        (Mat2.identityMatrix + ((1 : ℚ)/2) • A).det ^ 2 * F.det := by
      rw [hform, Mat2.det_mul, Mat2.det_mul, sq]
    refine ⟨?_, fun hc => absurd hc hdet, fun _ => hdetform⟩
    rw [hdetform]
    exact mul_nonneg (sq_nonneg _) (le_of_lt hF)

/-- Witness for the amended C2 at `solverC2` (remedy branch, determinant 0). -/
theorem C2_determinant_nonneg_witness :
    (0 < solverC2.objectNum ∧ 0 < solverC2.particleNumOfObject 0 ∧
      0 < (solverC2.particleAt 0 0).deformationGradient.det) ∧
    (0 ≤ ((solverC2.updateParticleConstitutiveModelState 1).particleAt 0 0).deformationGradient.det ∧
    (0 < (Mat2.identityMatrix + (1 : ℚ) • solverC2.particleVelGrad 0 0).det →
      0 < ((solverC2.updateParticleConstitutiveModelState 1).particleAt 0 0).deformationGradient.det) ∧
    (¬ 0 < (Mat2.identityMatrix + (1 : ℚ) • solverC2.particleVelGrad 0 0).det →
      ((solverC2.updateParticleConstitutiveModelState 1).particleAt 0 0).deformationGradient.det =
        (Mat2.identityMatrix + ((1 : ℚ)/2) • ((1 : ℚ) • solverC2.particleVelGrad 0 0)).det ^ 2 *
          (solverC2.particleAt 0 0).deformationGradient.det)) := by
  have hF : 0 < (solverC2.particleAt 0 0).deformationGradient.det := by
    norm_num [solverC2, emptySolver, Solver.particleAt, Mat2.det, Mat2.identityMatrix]
  exact ⟨⟨by decide, by decide, hF⟩,
    C2_determinant_nonneg solverC2 1 0 0 (by decide) (by decide) hF⟩

/-- Witness for C1 at a concrete one-particle state. -/
theorem C1_deformation_gradient_update_witness :
    (0 < solverC1.objectNum ∧ 0 < solverC1.particleNumOfObject 0) ∧
      ((solverC1.updateParticleConstitutiveModelState 1).particleAt 0 0).deformationGradient =
        (if 0 < (Mat2.identityMatrix + (1 : ℚ) • solverC1.particleVelGrad 0 0).det then
          (solverC1.particleAt 0 0).deformationGradient
            + ((1 : ℚ) • solverC1.particleVelGrad 0 0) * (solverC1.particleAt 0 0).deformationGradient
        else
          (solverC1.particleAt 0 0).deformationGradient
            + ((1 : ℚ) • solverC1.particleVelGrad 0 0
                + ((1 : ℚ)/4) • (((1 : ℚ) • solverC1.particleVelGrad 0 0) * ((1 : ℚ) • solverC1.particleVelGrad 0 0)))
              * (solverC1.particleAt 0 0).deformationGradient) :=
  ⟨⟨by decide, by decide⟩,
    C1_deformation_gradient_update solverC1 1 0 0 (by decide) (by decide)⟩

set_option maxHeartbeats 1000000 in
/-- **C7 counterexample.** Full `rasterize` on `solverC7`: corner 0 ends with
mass exactly `machineEps` (not above epsilon), so no division is performed
and the before-update velocity stays zero — but the corner's velocity slot
holds the raw accumulated momentum `(1000·machineEps, 0)`, not zero, refuting
the claim that velocity "remains zero" at skipped corners. -/
theorem C7_momentum_retained_cex :
    ¬ machineEps < get2 (Solver.rasterize solverC7).domainCornerMass 0 0 0 ∧
    get2 (Solver.rasterize solverC7).domainCornerVelocity 0 0 Vec2.zero
      = ⟨1000 * machineEps, 0⟩ ∧
    get2 (Solver.rasterize solverC7).domainCornerVelocity 0 0 Vec2.zero ≠ Vec2.zero ∧
    get2 (Solver.rasterize solverC7).domainCornerVelocityBefore 0 0 Vec2.zero = Vec2.zero := by
  obtain ⟨hm, hv, hb⟩ := Solver.rasterize_corners solverC7
  rw [hm, hv, hb]
  have h1 : ((solverC7.resetGridData).resetParticleDomainData).updateParticleDomainEnrichState
      = solverC7E := rfl
  have h2 : (((solverC7.resetGridData).resetParticleDomainData).updateParticleDomainEnrichState).rasterizeScatter
      = (solverC7E.scatterParticle 0 0).normalizeCornerVelocity 0 := by
    rw [h1, Solver.rasterizeScatter_one solverC7E (by decide)]
    rw [show Solver.particleNumOfObject solverC7E 0 = 1 from by decide]
    exact rfl
  rw [h2]
  refine ⟨?_, ?_, ?_, ?_⟩ <;>
    norm_num [solverC7E, solverC7, emptySolver,
      Solver.scatterParticle,
      Solver.scatterParticleToCorner, Solver.scatterCornerStep,
      Solver.normalizeCornerVelocity,
      Solver.normalizeCornerStep,
      Solver.enrichedCornerNum, Solver.meshOf, Solver.particleAt,
      VolMesh.eleVertIndex,
      get2, get3, set2, set3,
      Vec2.zero, List.range_succ, machineEps]

/-- **C7 (amended).** In the corner-momentum normalization of `rasterize`
(source lines 156-162), for every in-range corner: the mass array is
unchanged; wherever the corner mass exceeds machine epsilon the accumulated
momentum is divided by it and the result is snapshotted as the before-update
velocity; wherever the mass is at or below epsilon no division is performed
and both slots are left *unchanged* — the velocity slot therefore retains the
raw accumulated momentum (which need not be zero), rather than being zero as
claimed. -/
theorem C7_near_zero_corner_mass_skipped (s : Solver) (obj g : Nat)
    (hg : g < (s.domainCornerMass.getD obj []).length)
    (hvg : g < (s.domainCornerVelocity.getD obj []).length)
    (hbg : g < (s.domainCornerVelocityBefore.getD obj []).length) :
    (s.normalizeCornerVelocity obj).domainCornerMass = s.domainCornerMass ∧
    (machineEps < get2 s.domainCornerMass obj g 0 →
      get2 (s.normalizeCornerVelocity obj).domainCornerVelocity obj g Vec2.zero
        = (get2 s.domainCornerVelocity obj g Vec2.zero).divQ
            (get2 s.domainCornerMass obj g 0) ∧
      get2 (s.normalizeCornerVelocity obj).domainCornerVelocityBefore obj g Vec2.zero
        = (get2 s.domainCornerVelocity obj g Vec2.zero).divQ
            (get2 s.domainCornerMass obj g 0)) ∧
    (¬ machineEps < get2 s.domainCornerMass obj g 0 →
      get2 (s.normalizeCornerVelocity obj).domainCornerVelocity obj g Vec2.zero
        = get2 s.domainCornerVelocity obj g Vec2.zero ∧
      get2 (s.normalizeCornerVelocity obj).domainCornerVelocityBefore obj g Vec2.zero
        = get2 s.domainCornerVelocityBefore obj g Vec2.zero) :=
  Solver.normalizeCornerVelocity_char s obj g hg hvg hbg

/-- Witness for the amended C7 at `solverC2`, corner 0 (mass `1` above
epsilon: momentum is divided and snapshotted). -/
theorem C7_near_zero_corner_mass_skipped_witness :
    (0 < (solverC2.domainCornerMass.getD 0 []).length ∧
     0 < (solverC2.domainCornerVelocity.getD 0 []).length ∧
     0 < (solverC2.domainCornerVelocityBefore.getD 0 []).length) ∧
    ((solverC2.normalizeCornerVelocity 0).domainCornerMass = solverC2.domainCornerMass ∧
    (machineEps < get2 solverC2.domainCornerMass 0 0 0 →
      get2 (solverC2.normalizeCornerVelocity 0).domainCornerVelocity 0 0 Vec2.zero
        = (get2 solverC2.domainCornerVelocity 0 0 Vec2.zero).divQ
            (get2 solverC2.domainCornerMass 0 0 0) ∧
      get2 (solverC2.normalizeCornerVelocity 0).domainCornerVelocityBefore 0 0 Vec2.zero
        = (get2 solverC2.domainCornerVelocity 0 0 Vec2.zero).divQ
            (get2 solverC2.domainCornerMass 0 0 0)) ∧
    (¬ machineEps < get2 solverC2.domainCornerMass 0 0 0 →
      get2 (solverC2.normalizeCornerVelocity 0).domainCornerVelocity 0 0 Vec2.zero
        = get2 solverC2.domainCornerVelocity 0 0 Vec2.zero ∧
      get2 (solverC2.normalizeCornerVelocity 0).domainCornerVelocityBefore 0 0 Vec2.zero
        = get2 solverC2.domainCornerVelocityBefore 0 0 Vec2.zero)) :=
  ⟨⟨by decide, by decide, by decide⟩,
    C7_near_zero_corner_mass_skipped solverC2 0 0 (by decide) (by decide) (by decide)⟩

/-- **C6.** Assuming the §8.1 partition of unity — each particle's
grid-influence weights plus, for enriched (transient) particles, its
enriched-corner weights sum to 1 — the scatter phase of `rasterize` (source
lines 102-163) accumulates onto grid nodes plus domain corners exactly the
sum of the object's particle masses, for any enrichment configuration
(all-ordinary, all-enriched, or mixed).  Starting from the reset state
(zero grid and corner totals), the final grid + corner total equals the
object's total particle mass. -/
theorem C6_mass_conservation (s : Solver) (obj : Nat)
    (hobj : obj < s.objectNum)
    (hnd : s.gridNodes.Nodup)
    (hmem : ∀ p < s.particleNumOfObject obj, ∀ pr ∈ s.gridPairsOf obj p,
      pr.nodeIdx ∈ s.gridNodes)
    (hrange : ∀ p < s.particleNumOfObject obj, ∀ c < 4,
      get2 s.isEnrichedDomainCorner obj ((s.meshOf obj).eleVertIndex p c) false = true →
      (s.meshOf obj).eleVertIndex p c < (s.domainCornerMass.getD obj []).length)
    (hgrid0 : s.totalGridMassOfObject obj = 0)
    (hcorner0 : s.totalCornerMassOfObject obj = 0)
    (hpou : ∀ p < s.particleNumOfObject obj, s.usedWeightSum obj p = 1) :
    (s.rasterizeScatter).totalGridMassOfObject obj
      + (s.rasterizeScatter).totalCornerMassOfObject obj
      = s.totalParticleMassOfObject obj := by
  have hms := Solver.rasterizeScatter_mass s obj hobj hnd hmem hrange
  unfold Solver.totalCornerMassOfObject at hcorner0 ⊢
  rw [hms, hgrid0, hcorner0]
  have hcong : (List.range (s.particleNumOfObject obj)).map
      (fun p => s.usedWeightSum obj p * (s.particleAt obj p).mass)
      = (List.range (s.particleNumOfObject obj)).map (fun p => (s.particleAt obj p).mass) := by
    apply List.map_congr_left
    intro p hp
    rw [hpou p (List.mem_range.mp hp), one_mul]
  rw [hcong]
  unfold Solver.totalParticleMassOfObject Solver.particleAt Solver.particleNumOfObject
  rw [Solver.sum_map_range_getD]
  ring

/-- Witness for C6 at `solverC6` (mixed configuration: one ordinary and one
fully enriched particle, total particle mass 5). -/
theorem C6_mass_conservation_witness :
    ((0 < solverC6.objectNum) ∧
     solverC6.gridNodes.Nodup ∧
     (∀ p < solverC6.particleNumOfObject 0, ∀ pr ∈ solverC6.gridPairsOf 0 p,
       pr.nodeIdx ∈ solverC6.gridNodes) ∧
     (∀ p < solverC6.particleNumOfObject 0, ∀ c < 4,
       get2 solverC6.isEnrichedDomainCorner 0 ((solverC6.meshOf 0).eleVertIndex p c) false
         = true →
       (solverC6.meshOf 0).eleVertIndex p c
         < (solverC6.domainCornerMass.getD 0 []).length) ∧
     solverC6.totalGridMassOfObject 0 = 0 ∧
     solverC6.totalCornerMassOfObject 0 = 0 ∧
     (∀ p < solverC6.particleNumOfObject 0, solverC6.usedWeightSum 0 p = 1)) ∧
    (solverC6.rasterizeScatter).totalGridMassOfObject 0
      + (solverC6.rasterizeScatter).totalCornerMassOfObject 0
      = solverC6.totalParticleMassOfObject 0 := by
  have h1 : 0 < solverC6.objectNum := by decide
  have h2 : solverC6.gridNodes.Nodup := by decide
  have h3 : ∀ p < solverC6.particleNumOfObject 0, ∀ pr ∈ solverC6.gridPairsOf 0 p,
      pr.nodeIdx ∈ solverC6.gridNodes := by decide
  have h4 : ∀ p < solverC6.particleNumOfObject 0, ∀ c < 4,
      get2 solverC6.isEnrichedDomainCorner 0 ((solverC6.meshOf 0).eleVertIndex p c) false
        = true →
      (solverC6.meshOf 0).eleVertIndex p c
        < (solverC6.domainCornerMass.getD 0 []).length := by decide
  have h5 : solverC6.totalGridMassOfObject 0 = 0 := by
    norm_num [solverC6, emptySolver, Solver.totalGridMassOfObject, Solver.gridMassAt,
      ObjMap.mGetD, ObjMap.mfind]
  have h6 : solverC6.totalCornerMassOfObject 0 = 0 := by
    norm_num [solverC6, emptySolver, Solver.totalCornerMassOfObject]
  have h7 : ∀ p < solverC6.particleNumOfObject 0, solverC6.usedWeightSum 0 p = 1 := by
    intro p hp
    have hp2 : p < 2 := hp
    clear hp
    interval_cases p <;>
      norm_num [solverC6, emptySolver, Solver.usedWeightSum, Solver.enrichedCornerNum,
        Solver.enrichedCornerWeightSum, Solver.gridPairsOf, Solver.meshOf,
        VolMesh.eleVertIndex, get2, get3, List.range_succ]
  exact ⟨⟨h1, h2, h3, h4, h5, h6, h7⟩,
    C6_mass_conservation solverC6 0 h1 h2 h3 h4 h5 h6 h7⟩

/-- **C3.** With no contact method configured, `rasterize` runs the
no-contact merge (source lines 189-231), and at every active grid node
occupied by more than one object (under the pre-merge invariant that a
Dirichlet entry of the velocity map holds the prescribed Dirichlet velocity,
the state `resetGridData` sets up): every occupying object's mass-map entry
holds the mass summed over the occupying objects; if no occupying object
marks the node Dirichlet, every velocity-map entry holds total momentum
divided by total mass; and if some entry is Dirichlet, every velocity-map
entry holds that (first such) object's Dirichlet velocity. -/
theorem C3_no_contact_merge (s : Solver) (n : Nat)
    (hact : n ∈ s.activeNodeList)
    (hmulti : 2 ≤ (s.pairsAt n).length)
    (hdirv : ∀ pr ∈ s.gridVelocity n, s.isDirichletAt n pr.1 = true →
      pr.2 = s.dirichletGridVelocity n pr.1) :
    (∀ o x, mfind (s.gridMass n) o = some x →
      mGetD ((s.mergeNoContactPhase).gridMass n) o 0
        = ((s.pairsAt n).map (fun o2 => mGetD (s.gridMass n) o2 0)).sum) ∧
    ((s.gridVelocity n).find? (fun pr => s.isDirichletAt n pr.1) = none →
      ∀ o x, mfind (s.gridVelocity n) o = some x →
      mGetD ((s.mergeNoContactPhase).gridVelocity n) o Vec2.zero
        = (Vec2.vsum ((s.pairsAt n).map (fun o2 =>
            mGetD (s.gridMass n) o2 0 • mGetD (s.gridVelocity n) o2 Vec2.zero))).divQ
            (((s.pairsAt n).map (fun o2 => mGetD (s.gridMass n) o2 0)).sum)) ∧
    (∀ pr0, (s.gridVelocity n).find? (fun pr => s.isDirichletAt n pr.1) = some pr0 →
      s.isDirichletAt n pr0.1 = true ∧
      (∀ o x, mfind (s.gridVelocity n) o = some x →
        mGetD ((s.mergeNoContactPhase).gridVelocity n) o Vec2.zero
          = s.dirichletGridVelocity n pr0.1)) ∧
    (∀ u : Solver, u.hasContactMethod = false →
      u.rasterize = (u.rasterizePreMerge).mergeNoContactPhase) := by
  have hmulti2 : ((s.pairsAt n).length == 1) = false := by
    have hne : (s.pairsAt n).length ≠ 1 := by omega
    simpa using hne
  obtain ⟨hgm, hgv⟩ := Solver.mergeNoContactPhase_at s n hact hmulti2
  refine ⟨?_, ?_, ?_, fun u hu => Solver.rasterize_noContact u hu⟩
  · intro o x hx
    rw [hgm]
    unfold ObjMap.mGetD
    rw [ObjMap.mfind_map_const, hx]
    rfl
  · intro hnone o x hx
    rw [hgv]
    unfold ObjMap.mGetD
    rw [ObjMap.mfind_map_const, hx]
    simp only [hnone]
    rfl
  · intro pr0 hsome
    have hmempr : pr0 ∈ s.gridVelocity n := List.mem_of_find?_eq_some hsome
    have hdir : s.isDirichletAt n pr0.1 = true := by
      have := List.find?_some hsome
      simpa using this
    refine ⟨hdir, ?_⟩
    intro o x hx
    rw [hgv]
    unfold ObjMap.mGetD
    rw [ObjMap.mfind_map_const, hx]
    simp only [hsome]
    exact hdirv pr0 hmempr hdir

/-- Witness for C3 at `solverC3` (two objects sharing node 0, masses 1 and
3, no Dirichlet flags). -/
theorem C3_no_contact_merge_witness :
    ((0 ∈ solverC3.activeNodeList) ∧
     2 ≤ (solverC3.pairsAt 0).length ∧
     (∀ pr ∈ solverC3.gridVelocity 0, solverC3.isDirichletAt 0 pr.1 = true →
       pr.2 = solverC3.dirichletGridVelocity 0 pr.1)) ∧
    ((∀ o x, mfind (solverC3.gridMass 0) o = some x →
      mGetD ((solverC3.mergeNoContactPhase).gridMass 0) o 0
        = ((solverC3.pairsAt 0).map (fun o2 => mGetD (solverC3.gridMass 0) o2 0)).sum) ∧
    ((solverC3.gridVelocity 0).find? (fun pr => solverC3.isDirichletAt 0 pr.1) = none →
      ∀ o x, mfind (solverC3.gridVelocity 0) o = some x →
      mGetD ((solverC3.mergeNoContactPhase).gridVelocity 0) o Vec2.zero
        = (Vec2.vsum ((solverC3.pairsAt 0).map (fun o2 =>
            mGetD (solverC3.gridMass 0) o2 0 • mGetD (solverC3.gridVelocity 0) o2 Vec2.zero))).divQ
            (((solverC3.pairsAt 0).map (fun o2 => mGetD (solverC3.gridMass 0) o2 0)).sum)) ∧
    (∀ pr0, (solverC3.gridVelocity 0).find? (fun pr => solverC3.isDirichletAt 0 pr.1)
        = some pr0 →
      solverC3.isDirichletAt 0 pr0.1 = true ∧
      (∀ o x, mfind (solverC3.gridVelocity 0) o = some x →
        mGetD ((solverC3.mergeNoContactPhase).gridVelocity 0) o Vec2.zero
          = solverC3.dirichletGridVelocity 0 pr0.1)) ∧
    (∀ u : Solver, u.hasContactMethod = false →
      u.rasterize = (u.rasterizePreMerge).mergeNoContactPhase)) := by
  have h1 : 0 ∈ solverC3.activeNodeList := by decide
  have h2 : 2 ≤ (solverC3.pairsAt 0).length := by decide
  have h3 : ∀ pr ∈ solverC3.gridVelocity 0, solverC3.isDirichletAt 0 pr.1 = true →
      pr.2 = solverC3.dirichletGridVelocity 0 pr.1 := by
    intro pr _ hdir
    simp [Solver.isDirichletAt, solverC3, emptySolver] at hdir
  exact ⟨⟨h1, h2, h3⟩, C3_no_contact_merge solverC3 0 h1 h2 h3⟩

/-- **C8.** After `updateParticlePosition`, the corner position stored in the
per-particle domain array at `(obj, p, c)` equals the position stored at the
corresponding global vertex of the object's particle-domain mesh — provided
every `(particle, corner)` pair sharing that global vertex computes the same
new position (the mesh keeps one copy per welded vertex, last writer wins).
`setCurrentParticleDomain` re-establishes the same equality at the written
particle's corners when the given corner positions agree on shared vertices,
and leaves every other object's array rows and mesh untouched. -/
theorem C8_domain_mesh_consistency (s : Solver) (dt : ℚ) (obj p c : Nat)
    (hobj : obj < s.objectNum) (hp : p < s.particleNumOfObject obj) (hc : c < 4)
    (hlen1 : obj < s.particleDomainCorners.length)
    (hlen2 : p < (s.particleDomainCorners.getD obj []).length)
    (hcell : 4 ≤ ((s.particleDomainCorners.getD obj []).getD p []).length)
    (hmeshlen : obj < s.particleDomainMesh.length)
    (hvert : (s.meshOf obj).eleVertIndex p c < (s.meshOf obj).vertNum)
    (hagree : ∀ p2 < s.particleNumOfObject obj, ∀ c2 < 4,
      (s.meshOf obj).eleVertIndex p2 c2 = (s.meshOf obj).eleVertIndex p c →
      s.newCornerPosition dt obj p2 c2 = s.newCornerPosition dt obj p c) :
    (get3 (s.updateParticlePosition dt).particleDomainCorners obj p c Vec2.zero
      = ((s.updateParticlePosition dt).meshOf obj).vertPos
          (((s.updateParticlePosition dt).meshOf obj).eleVertIndex p c)) ∧
    (∀ corner : List Vec2, corner.length = 4 →
      (∀ c1 < 4, ∀ c2 < 4,
        (s.meshOf obj).eleVertIndex p c1 = (s.meshOf obj).eleVertIndex p c2 →
        corner.getD c1 Vec2.zero = corner.getD c2 Vec2.zero) →
      get3 (s.setCurrentParticleDomain obj p corner).particleDomainCorners obj p c Vec2.zero
        = ((s.setCurrentParticleDomain obj p corner).meshOf obj).vertPos
            (((s.setCurrentParticleDomain obj p corner).meshOf obj).eleVertIndex p c)) ∧
    (∀ obj2, obj2 ≠ obj → ∀ corner : List Vec2,
      (s.setCurrentParticleDomain obj p corner).particleDomainCorners.getD obj2 []
        = s.particleDomainCorners.getD obj2 [] ∧
      (s.setCurrentParticleDomain obj p corner).meshOf obj2 = s.meshOf obj2) := by
  refine ⟨?_, ?_, ?_⟩
  · have hadv := Solver.advectMeshOfObject_at s dt obj p c hp hc hvert hagree
    have hmof : (s.updateParticlePosition dt).meshOf obj = s.advectMeshOfObject dt obj := by
      unfold Solver.meshOf Solver.updateParticlePosition
      dsimp only
      exact Solver.getD_foldl_set (fun o => s.advectMeshOfObject dt o) VolMesh.empty
        (List.range s.objectNum) (List.nodup_range _) s.particleDomainMesh obj
        (List.mem_range.mpr hobj) hmeshlen
    have harr : get3 (s.updateParticlePosition dt).particleDomainCorners obj p c Vec2.zero
        = s.newCornerPosition dt obj p c := by
      unfold Solver.updateParticlePosition
      dsimp only
      unfold get3
      rw [getD_mapIdx _ _ _ _ [] hlen1, if_pos hobj,
        getD_mapIdx _ _ _ _ [] hlen2, if_pos hp,
        getD_mapIdx _ _ _ _ Vec2.zero (lt_of_lt_of_le hc hcell), if_pos hc]
    rw [harr, hmof]
    have he : (s.advectMeshOfObject dt obj).eleVertIndex p c
        = (s.meshOf obj).eleVertIndex p c := by
      unfold VolMesh.eleVertIndex
      rw [hadv.1]
    rw [he, hadv.2.2]
  · intro corner hlen4 hinj
    have hcellc : c < ((s.particleDomainCorners.getD obj []).getD p []).length :=
      lt_of_lt_of_le hc hcell
    have harr : get3 (s.setCurrentParticleDomain obj p corner).particleDomainCorners
        obj p c Vec2.zero = corner.getD c Vec2.zero := by
      unfold Solver.setCurrentParticleDomain
      dsimp only
      unfold get3
      rw [getD_set_self _ _ _ _ hlen1, getD_set_self _ _ _ _ hlen2]
      rw [hlen4]
      exact Solver.getD_setRange _ _ 4 c _ hc hcellc
    have hmesh := Solver.meshFold_establish (s.meshOf obj) p
      (fun c2 => corner.getD c2 Vec2.zero)
      ((s.meshOf obj).eleVertIndex p c) (corner.getD c Vec2.zero)
      c rfl hvert (List.range corner.length) (s.meshOf obj)
      (by rw [hlen4]; exact List.mem_range.mpr hc)
      (fun c2 hc2 heq =>
        hinj c2 (by rw [← hlen4]; exact List.mem_range.mp hc2) c hc heq)
      rfl rfl
    dsimp only at hmesh
    have hmof : (s.setCurrentParticleDomain obj p corner).meshOf obj
        = (List.range corner.length).foldl
            (fun m2 c2 => m2.setVertPos (m2.eleVertIndex p c2) (corner.getD c2 Vec2.zero))
            (s.meshOf obj) := by
      unfold Solver.setCurrentParticleDomain Solver.meshOf
      dsimp only
      simp only [VolMesh.setEleVertPos]
      exact getD_set_self _ _ _ _ hmeshlen
    rw [harr, hmof]
    rw [Solver.eleVertIndex_domains_congr _ _ p c hmesh.1, hmesh.2.2]
  · intro obj2 hne corner
    constructor
    · unfold Solver.setCurrentParticleDomain
      dsimp only
      exact getD_set_ne _ _ _ _ _ (fun he => hne he.symm)
    · unfold Solver.setCurrentParticleDomain Solver.meshOf
      dsimp only
      rw [getD_set_ne _ _ _ _ _ (fun he => hne he.symm)]

/-- Witness for C8 at `solverC8` (single particle owning all four mesh
vertices, `dt = 1`, corner 0). -/
theorem C8_domain_mesh_consistency_witness :
    ((0 < solverC8.objectNum ∧ 0 < solverC8.particleNumOfObject 0 ∧ (0 : Nat) < 4) ∧
     (0 < solverC8.particleDomainCorners.length ∧
      0 < (solverC8.particleDomainCorners.getD 0 []).length ∧
      4 ≤ ((solverC8.particleDomainCorners.getD 0 []).getD 0 []).length ∧
      0 < solverC8.particleDomainMesh.length ∧
      (solverC8.meshOf 0).eleVertIndex 0 0 < (solverC8.meshOf 0).vertNum) ∧
     (∀ p2 < solverC8.particleNumOfObject 0, ∀ c2 < 4,
       (solverC8.meshOf 0).eleVertIndex p2 c2 = (solverC8.meshOf 0).eleVertIndex 0 0 →
       solverC8.newCornerPosition 1 0 p2 c2 = solverC8.newCornerPosition 1 0 0 0)) ∧
    ((get3 (solverC8.updateParticlePosition 1).particleDomainCorners 0 0 0 Vec2.zero
      = ((solverC8.updateParticlePosition 1).meshOf 0).vertPos
          (((solverC8.updateParticlePosition 1).meshOf 0).eleVertIndex 0 0)) ∧
    (∀ corner : List Vec2, corner.length = 4 →
      (∀ c1 < 4, ∀ c2 < 4,
        (solverC8.meshOf 0).eleVertIndex 0 c1 = (solverC8.meshOf 0).eleVertIndex 0 c2 →
        corner.getD c1 Vec2.zero = corner.getD c2 Vec2.zero) →
      get3 (solverC8.setCurrentParticleDomain 0 0 corner).particleDomainCorners
          0 0 0 Vec2.zero
        = ((solverC8.setCurrentParticleDomain 0 0 corner).meshOf 0).vertPos
            (((solverC8.setCurrentParticleDomain 0 0 corner).meshOf 0).eleVertIndex 0 0)) ∧
    (∀ obj2, obj2 ≠ 0 → ∀ corner : List Vec2,
      (solverC8.setCurrentParticleDomain 0 0 corner).particleDomainCorners.getD obj2 []
        = solverC8.particleDomainCorners.getD obj2 [] ∧
      (solverC8.setCurrentParticleDomain 0 0 corner).meshOf obj2 = solverC8.meshOf obj2)) := by
  have hagree : ∀ p2 < solverC8.particleNumOfObject 0, ∀ c2 < 4,
      (solverC8.meshOf 0).eleVertIndex p2 c2 = (solverC8.meshOf 0).eleVertIndex 0 0 →
      solverC8.newCornerPosition 1 0 p2 c2 = solverC8.newCornerPosition 1 0 0 0 := by
    intro p2 hp2 c2 hc2 heq
    have hp2b : p2 < 1 := hp2
    have hp0 : p2 = 0 := by omega
    subst hp0
    have hc0 : c2 = 0 := by
      revert heq
      interval_cases c2 <;> decide
    subst hc0
    rfl
  exact ⟨⟨⟨by decide, by decide, by decide⟩,
      ⟨by decide, by decide, by decide, by decide, by decide⟩, hagree⟩,
    C8_domain_mesh_consistency solverC8 1 0 0 0 (by decide) (by decide) (by decide)
      (by decide) (by decide) (by decide) (by decide) (by decide) hagree⟩

/-- C9 counterexample: appending a particle to `solverC9` raises the object's
particle count to 2 but leaves the particle-domain mesh and all four
per-corner arrays exactly as they were — the one-element mesh no longer
matches the particle set, since `appendLastParticleRelatedDataOfObject`
(source lines 523-532) resizes only the corner-weight/gradient storage and
never calls `constructParticleDomainMesh`. -/
theorem C9_no_rebuild_on_add_cex :
    (solverC9.addParticle 0 default).particleNumOfObject 0 = 2 ∧
    (solverC9.addParticle 0 default).particleDomainMesh = solverC9.particleDomainMesh ∧
    (solverC9.addParticle 0 default).isEnrichedDomainCorner
      = solverC9.isEnrichedDomainCorner ∧
    (solverC9.addParticle 0 default).domainCornerMass = solverC9.domainCornerMass ∧
    (solverC9.addParticle 0 default).domainCornerVelocity
      = solverC9.domainCornerVelocity ∧
    (solverC9.addParticle 0 default).domainCornerVelocityBefore
      = solverC9.domainCornerVelocityBefore ∧
    ((solverC9.addParticle 0 default).meshOf 0).eleNum = 1 ∧
    ((solverC9.addParticle 0 default).meshOf 0).eleNum
      ≠ (solverC9.addParticle 0 default).particleNumOfObject 0 :=
  ⟨by decide, rfl, rfl, rfl, rfl, rfl, by decide, by decide⟩

/-- C9 (amended): when the particle count of an object changes, the four
lifecycle routines (source lines 508-552) resize the per-particle
corner-weight/gradient storage in lockstep with the particle arrays —
appending or deleting an object or a particle preserves the index alignment
between particle index and corner-weight/gradient record — but they do NOT
rebuild the particle-domain mesh or the per-corner arrays: those are left
untouched by every lifecycle routine, and are rebuilt only by the separate
`constructParticleDomainMesh` (source lines 571-625), which builds one quad
element per particle and resizes the four per-corner arrays to the welded
vertex count of the rebuilt mesh. -/
theorem C9_lifecycle_storage_lockstep (s : Solver) (obj p : Nat)
    (ps : List SolidParticle) (part : SolidParticle)
    (halign : s.cornerStorageAligned) (hobj : obj < s.objectNum)
    (hp : p < s.particleNumOfObject obj) :
    (s.addObject ps).cornerStorageAligned ∧
    (s.addParticle obj part).cornerStorageAligned ∧
    (s.removeObject obj).cornerStorageAligned ∧
    (s.removeParticle obj p).cornerStorageAligned ∧
    ((s.addObject ps).particleDomainMesh = s.particleDomainMesh ∧
     (s.addParticle obj part).particleDomainMesh = s.particleDomainMesh ∧
     (s.removeObject obj).particleDomainMesh = s.particleDomainMesh ∧
     (s.removeParticle obj p).particleDomainMesh = s.particleDomainMesh ∧
     (s.addParticle obj part).isEnrichedDomainCorner = s.isEnrichedDomainCorner ∧
     (s.addParticle obj part).domainCornerMass = s.domainCornerMass ∧
     (s.addParticle obj part).domainCornerVelocity = s.domainCornerVelocity ∧
     (s.addParticle obj part).domainCornerVelocityBefore
       = s.domainCornerVelocityBefore) ∧
    (∀ u : Solver, ∀ o, o < u.objectNum →
      ((u.constructParticleDomainMesh).meshOf o).eleNum = u.particleNumOfObject o ∧
      (u.constructParticleDomainMesh).particleNumOfObject o = u.particleNumOfObject o ∧
      ((u.constructParticleDomainMesh).isEnrichedDomainCorner.getD o []).length
        = ((u.constructParticleDomainMesh).meshOf o).vertNum ∧
      ((u.constructParticleDomainMesh).domainCornerMass.getD o []).length
        = ((u.constructParticleDomainMesh).meshOf o).vertNum ∧
      ((u.constructParticleDomainMesh).domainCornerVelocity.getD o []).length
        = ((u.constructParticleDomainMesh).meshOf o).vertNum ∧
      ((u.constructParticleDomainMesh).domainCornerVelocityBefore.getD o []).length
        = ((u.constructParticleDomainMesh).meshOf o).vertNum) :=
  ⟨Solver.addObject_aligned s ps halign,
   Solver.addParticle_aligned s obj part halign hobj,
   Solver.removeObject_aligned s obj halign hobj,
   Solver.removeParticle_aligned s obj p halign hobj hp,
   ⟨rfl, rfl, rfl, rfl, rfl, rfl, rfl, rfl⟩,
   fun u o ho => Solver.constructParticleDomainMesh_rebuilds u o ho⟩

/-- Witness for C9 at `solverC9` (one object, one particle, aligned
one-record storage), appending the default particle. -/
theorem C9_lifecycle_storage_lockstep_witness :
    (solverC9.cornerStorageAligned ∧ 0 < solverC9.objectNum ∧
     0 < solverC9.particleNumOfObject 0) ∧
    ((solverC9.addObject []).cornerStorageAligned ∧
     (solverC9.addParticle 0 default).cornerStorageAligned ∧
     (solverC9.removeObject 0).cornerStorageAligned ∧
     (solverC9.removeParticle 0 0).cornerStorageAligned ∧
     (solverC9.addParticle 0 default).particleDomainMesh
       = solverC9.particleDomainMesh) := by
  have halign : solverC9.cornerStorageAligned := by
    unfold Solver.cornerStorageAligned Solver.objectNum Solver.particleNumOfObject
    decide
  have h := C9_lifecycle_storage_lockstep solverC9 0 0 [] default
    halign (by decide) (by decide)
  exact ⟨⟨halign, by decide, by decide⟩,
    h.1, h.2.1, h.2.2.1, h.2.2.2.1, h.2.2.2.2.1.2.1⟩

end Physika
